import Mathlib

set_option maxRecDepth 100000

/-!
# Verification of the duckdb `inet` extension address codec

Shallow embedding of `src/extension/inet/ipaddress.cpp` and
`src/extension/inet/inet_functions.cpp`.

Machine integers are modelled as `Nat` (unsigned) and `Int` (signed) with
explicit reduction `% 2^w` where the C++ type could overflow:
`uhugeint_t` is a `Nat` below `2^128`, `hugeint_t` is an `Int` in
`[-2^127, 2^127)`, `uint16_t` a `Nat` below `2^16`, and so on.
Strings are `List Char`.  Fallible C++ code (functions returning `bool`
with an out-parameter, or throwing) is modelled with `Option`: `none`
is the failure (the error-message text is not load-bearing).
-/

namespace Inet

/-- `enum class IPAddressType` (invalid / IPv4 / IPv6). -/
inductive IPAddressType where
  | IP_ADDRESS_INVALID
  | IP_ADDRESS_V4
  | IP_ADDRESS_V6
deriving DecidableEq, Repr

/-- `IPAddress` (ipaddress.hpp): family tag, 128-bit magnitude, prefix length.
The magnitude is the unsigned 128-bit address value (`uhugeint_t`), the
mask a `uint16_t`. -/
structure IPAddress where
  type : IPAddressType
  address : Nat
  mask : Nat
deriving DecidableEq, Repr

/-- `IPAddress::IPV4_DEFAULT_MASK`. -/
def IPV4_DEFAULT_MASK : Nat := 32

/-- `IPAddress::IPV6_DEFAULT_MASK`. -/
def IPV6_DEFAULT_MASK : Nat := 128

/-- `IPAddress::IPV6_NUM_QUIBBLE`. -/
def IPV6_NUM_QUIBBLE : Nat := 8

/-- `IPAddress::IPV6_QUIBBLE_BITS`. -/
def IPV6_QUIBBLE_BITS : Nat := 16

/-- `static_cast<uhugeint_t>(hugeint_t)`: reinterpret a signed 128-bit value
as unsigned (two's complement). -/
def toUnsigned128 (i : Int) : Nat :=
  ((i % (2 ^ 128 : Int)).toNat)

/-- `static_cast<hugeint_t>(uhugeint_t)`: reinterpret an unsigned 128-bit
value as signed (two's complement). -/
def toSigned128 (u : Nat) : Int :=
  if u < 2 ^ 127 then (u : Int) else (u : Int) - 2 ^ 128

/-- `from_compat_addr` (inet_functions.cpp): decode the stored signed
`hugeint_t` into the unsigned magnitude; the top bit is flipped back for
IPv6 only. -/
def from_compat_addr (compat_addr : Int) (addr_type : IPAddressType) : Nat :=
  let retval := toUnsigned128 compat_addr
  if addr_type = IPAddressType.IP_ADDRESS_V6 then
    retval ^^^ (1 <<< 127)
  else
    retval

/-- `to_compat_addr` (inet_functions.cpp): encode the unsigned magnitude
into the stored signed `hugeint_t`; the top bit is flipped for IPv6 only. -/
def to_compat_addr (new_addr : Nat) (addr_type : IPAddressType) : Int :=
  if addr_type = IPAddressType.IP_ADDRESS_V6 then
    toSigned128 (new_addr ^^^ (1 <<< 127))
  else
    toSigned128 new_addr

/-- `StructTypeTernary<uint8_t, hugeint_t, uint16_t>` (`INET_TYPE`): the
stored record.  `a_val` is the family tag (stored as `uint8_t` in the
vector; the tag values themselves are not load-bearing, so the enum is
used directly), `b_val` the signed compat address, `c_val` the mask. -/
structure INETRecord where
  a_val : IPAddressType
  b_val : Int
  c_val : Nat
deriving DecidableEq, Repr

/-- `AddOperatorOverflowCheck::Operation<uhugeint_t, uhugeint_t, uhugeint_t>`:
checked unsigned 128-bit addition; an overflow throws (here: `none`). -/
def checkedAddU128 (a b : Nat) : Option Nat :=
  if a + b < 2 ^ 128 then some (a + b) else none

/-- `SubtractOperatorOverflowCheck::Operation<uhugeint_t, uhugeint_t, uhugeint_t>`:
checked unsigned 128-bit subtraction; an underflow throws (here: `none`). -/
def checkedSubU128 (a b : Nat) : Option Nat :=
  if b ≤ a then some (a - b) else none

/-- `NumericCast::Operation<hugeint_t, uhugeint_t>` on a non-negative
value: the checked signed-to-unsigned cast.  All call sites pass a
non-negative value; the negation `-val` performed at the call site is
modelled exactly on `Int` (no 128-bit wrap is possible for the values
reaching it, per the spec the minimum signed value is handled via a
wider intermediate). -/
def numericCastToU128 (i : Int) : Option Nat :=
  if 0 ≤ i then some i.toNat else none

/-- `add_implementation` (inet_functions.cpp, the revision with the IPv4
range check): apply a signed 128-bit offset to an address.  A thrown
`OutOfRangeException` (from the overflow-checked operators or from the
IPv4 domain check) is `none`. -/
def add_implementation (ip : INETRecord) (val : Int) : Option INETRecord :=
  if val = 0 then
    some ip
  else
    let addr_type := ip.a_val
    let address_in := from_compat_addr ip.b_val addr_type
    let address_out? : Option Nat :=
      if 0 < val then
        (numericCastToU128 val).bind fun operand => checkedAddU128 address_in operand
      else
        (numericCastToU128 (-val)).bind fun operand => checkedSubU128 address_in operand
    match address_out? with
    | none => none
    | some address_out =>
      if addr_type = IPAddressType.IP_ADDRESS_V4 ∧ 2 ^ IPV4_DEFAULT_MASK ≤ address_out then
        none
      else
        some ⟨ip.a_val, to_compat_addr address_out addr_type, ip.c_val⟩

/-- The 128-bit scratch operation `add_implementation` selects: checked
unsigned add for a non-negative delta, checked unsigned subtract of the
negated delta otherwise (for `val = 0` the code short-circuits and no
operation runs; the identity add stands in for it). -/
def offsetScratch (address_in : Nat) (val : Int) : Option Nat :=
  if 0 ≤ val then
    (numericCastToU128 val).bind fun operand => checkedAddU128 address_in operand
  else
    (numericCastToU128 (-val)).bind fun operand => checkedSubU128 address_in operand

/-! ### Character utilities (duckdb/common/string_util.hpp, host code) -/

/-- `StringUtil::CharacterIsDigit`. -/
def characterIsDigit (ch : Char) : Bool :=
  48 ≤ ch.toNat && ch.toNat ≤ 57

/-- `StringUtil::CharacterIsHex`. -/
def characterIsHex (ch : Char) : Bool :=
  characterIsDigit ch || (97 ≤ ch.toNat && ch.toNat ≤ 102) || (65 ≤ ch.toNat && ch.toNat ≤ 70)

/-- `StringUtil::GetHexValue` (only ever called on hex characters). -/
def getHexValue (ch : Char) : Nat :=
  if characterIsDigit ch then ch.toNat - 48
  else if 97 ≤ ch.toNat then ch.toNat - 97 + 10
  else ch.toNat - 65 + 10

/-- The decimal value of a run of digit characters, folded
big-endian. -/
def decVal (s : List Char) : Nat :=
  s.foldl (fun a ch => a * 10 + (ch.toNat - 48)) 0

/-- Modelled from the spec: `TryCast::Operation<string_t, uint8_t>`
(duckdb/common/operator/cast_operators.hpp) is code of this repository
that is not under `src/`.  Every call site passes a (possibly empty)
run of decimal digit characters.  Per spec section 4.1, "each group
must parse as an integer in [0,255] (leading-zero and out-of-range
groups are rejected)": the cast fails on an empty string, on a leading
zero (unless the string is exactly "0"), and on a value above 255. -/
def tryCastUInt8 (s : List Char) : Option Nat :=
  match s with
  | [] => none
  | c :: cs =>
    if ¬ (c :: cs).all characterIsDigit then none
    else if c = '0' ∧ cs ≠ [] then none
    else if 255 < decVal (c :: cs) then none
    else some (decVal (c :: cs))

/-! ### The IPv4 parser (ipaddress.cpp) -/

/-- The `parse_number`/`parse_dot` goto loop of `TryParseIPv4`
(ipaddress.cpp lines 40-66): parse `count` remaining dot-separated
decimal groups, accumulating the `uint32_t` address big-endian
(`address <<= 8; address += number`).  Returns the accumulated address
and the unconsumed input at the `parse_mask` label. -/
def parseIPv4Octets : Nat → Nat → List Char → Option (Nat × List Char)
  | 0, _, _ => none
  | count + 1, address, s =>
    let ds := s.takeWhile characterIsDigit
    let rest := s.dropWhile characterIsDigit
    if ds = [] then none
    else
      match tryCastUInt8 ds with
      | none => none
      | some number =>
        let address := ((address <<< 8) + number) % 2 ^ 32
        if count = 0 then some (address, rest)
        else
          match rest with
          | '.' :: rest2 => parseIPv4Octets count address rest2
          | _ => none

/-- `TryParseIPv4` (ipaddress.cpp lines 33-90).  A failed
`IPAddressError` return is `none`.  Note the `parse_mask` branch
returns success as soon as the digit run after `/` casts to a mask of
at most 32; it does not require the input to end there, so trailing
non-digit characters after the mask are ignored. -/
def TryParseIPv4 (s : List Char) : Option IPAddress :=
  match parseIPv4Octets 4 0 s with
  | none => none
  | some (address, rest) =>
    match rest with
    | [] => some ⟨IPAddressType.IP_ADDRESS_V4, address, IPV4_DEFAULT_MASK⟩
    | '/' :: rest2 =>
      let ds := rest2.takeWhile characterIsDigit
      match tryCastUInt8 ds with
      | none => none
      | some mask =>
        if 32 < mask then none
        else some ⟨IPAddressType.IP_ADDRESS_V4, address, mask⟩
    | _ => none

/-! ### The IPv6 parser (ipaddress.cpp) -/

/-- `parseQuibble` (ipaddress.cpp lines 116-122): fold up to four hex
digits into a `uint16_t` and append that quibble to the accumulated
`uhugeint_t` address. -/
def parseQuibble (address : Nat) (buf : List Char) : Nat :=
  let result := buf.foldl (fun r ch => ((r <<< 4) + getHexValue ch) % 2 ^ 16) 0
  ((address <<< IPV6_QUIBBLE_BITS) + result) % 2 ^ 128

/-- The mutable locals of the `TryParseIPv6` scan loop.  The C++ `int
first_quibble_count` uses `-1` as "no double colon seen"; that sentinel
is `none`. -/
structure V6State where
  parsed_quibble_count : Nat
  first_address : Nat
  second_address : Nat
  first_quibble_count : Option Nat
  mask : Nat
deriving DecidableEq, Repr

/-- One quibble accumulated into the scan state (ipaddress.cpp lines
178-185): before a double colon it goes into `first_address`, after it
into `second_address`. -/
def V6State.addQuibble (st : V6State) (buf : List Char) : V6State :=
  match st.first_quibble_count with
  | none => { st with first_address := parseQuibble st.first_address buf,
                      parsed_quibble_count := st.parsed_quibble_count + 1 }
  | some _ => { st with second_address := parseQuibble st.second_address buf,
                        parsed_quibble_count := st.parsed_quibble_count + 1 }

/-- The embedded dotted-decimal IPv4 update (ipaddress.cpp lines
163-170): the 32 parsed bits are shifted into the proper address and
count as two quibbles. -/
def V6State.addEmbeddedIPv4 (st : V6State) (ipv4_address : Nat) : V6State :=
  match st.first_quibble_count with
  | none => { st with
      first_address := ((st.first_address <<< (2 * IPV6_QUIBBLE_BITS)) % 2 ^ 128) ||| ipv4_address,
      parsed_quibble_count := st.parsed_quibble_count + 2 }
  | some _ => { st with
      second_address := ((st.second_address <<< (2 * IPV6_QUIBBLE_BITS)) % 2 ^ 128) ||| ipv4_address,
      parsed_quibble_count := st.parsed_quibble_count + 2 }

/-- The `while` scan loop of `TryParseIPv6` (ipaddress.cpp lines
134-218), as a fuel recursion; every iteration that recurses consumes
at least one character, so `s.length + 1` fuel always suffices.
Returns the final state and the unconsumed input (the loop's exit
position `c`), or `none` on a parse error. -/
def v6Loop (fuel : Nat) (s : List Char) (st : V6State) : Option (V6State × List Char) :=
  match fuel with
  | 0 => none
  | fuel + 1 =>
    if s = [] ∨ IPV6_NUM_QUIBBLE ≤ st.parsed_quibble_count then some (st, s)
    else
      let quib := s.takeWhile characterIsHex
      let rest := s.dropWhile characterIsHex
      if 4 < quib.length then none
      else if rest.head? = some '.' then
        -- possibly the trailing dotted-decimal IPv4 form: rescan from the
        -- quibble start for digits and dots
        let rest2 := s.dropWhile (fun ch => characterIsDigit ch || ch = '.')
        if rest2 ≠ [] ∧ rest2.head? ≠ some '/' then none
        else
          match TryParseIPv4 (s.takeWhile (fun ch => characterIsDigit ch || ch = '.')) with
          | none => none
          | some ipv4 => v6Loop fuel rest2 (st.addEmbeddedIPv4 ipv4.address)
      else if rest ≠ [] ∧ rest.head? ≠ some ':' ∧ rest.head? ≠ some '/' then none
      else
        let st := if quib ≠ [] then st.addQuibble quib else st
        -- `c + 1 < size && data[c] == ':' && data[c + 1] == ':'`
        if rest.head? = some ':' ∧ rest.tail.head? = some ':' then
          if st.first_quibble_count ≠ none then none
          -- `c + 2 < size && data[c + 2] == ':'`
          else if rest.tail.tail.head? = some ':' then none
          else v6Loop fuel rest.tail.tail
            { st with first_quibble_count := some st.parsed_quibble_count }
        -- `c < size && data[c] == '/'`
        else if rest.head? = some '/' then
          let ds := rest.tail.takeWhile characterIsDigit
          match tryCastUInt8 ds with
          | none => none
          | some mask =>
            if IPV6_DEFAULT_MASK < mask then none
            else some ({ st with mask := mask }, rest.tail.dropWhile characterIsDigit)
        -- the loop increment `++c`
        else v6Loop fuel rest.tail st

/-- The scan loop with always-sufficient fuel (each iteration that
recurses consumes at least one character; see `v6Loop_fuel_eq`). -/
def v6Run (s : List Char) (st : V6State) : Option (V6State × List Char) :=
  v6Loop (s.length + 1) s st

/-- `TryParseIPv6` (ipaddress.cpp lines 124-244): run the scan loop on
the whole input, then the post-loop checks and the double-colon
assembly. -/
def TryParseIPv6 (s : List Char) : Option IPAddress :=
  match v6Run s ⟨0, 0, 0, none, IPV6_DEFAULT_MASK⟩ with
  | none => none
  | some (st, leftover) =>
    if st.parsed_quibble_count < IPV6_NUM_QUIBBLE ∧ st.first_quibble_count = none then none
    else if leftover ≠ [] then none
    else
      match st.first_quibble_count with
      | none => some ⟨IPAddressType.IP_ADDRESS_V6, st.first_address, st.mask⟩
      | some first_quibble_count =>
        -- `int missing_quibbles = 8 - parsed` can be negative, so compare in `Int`
        if (IPV6_NUM_QUIBBLE : Int) - st.parsed_quibble_count = 0 then none
        else
          let shift_quibbles := IPV6_NUM_QUIBBLE - first_quibble_count
          let first_address :=
            (st.first_address <<< (shift_quibbles * IPV6_QUIBBLE_BITS)) % 2 ^ 128
          some ⟨IPAddressType.IP_ADDRESS_V6, first_address ||| st.second_address, st.mask⟩

/-- `IPAddress::TryParse` (ipaddress.cpp lines 246-271): family
dispatch on the first non-hex character. -/
def TryParse (s : List Char) : Option IPAddress :=
  match s.dropWhile characterIsHex with
  | [] => none
  | ch :: _ =>
    if ch = ':' then TryParseIPv6 s
    else if s.takeWhile characterIsHex = [] then none
    else if ch = '.' then TryParseIPv4 s
    else none

/-! ### The formatter (ipaddress.cpp) -/

/-- Base-`b` digit rendering, most significant first, as fuel
recursion (the quotient strictly decreases, so `n + 1` fuel always
suffices; see `natDigitsCore_fuel`). -/
def natDigitsCore (b : Nat) : Nat → Nat → List Char
  | 0, _ => []
  | fuel + 1, n =>
    if n < b then [Nat.digitChar n]
    else natDigitsCore b fuel (n / b) ++ [Nat.digitChar (n % b)]

/-- Decimal rendering (`std::to_string` / stream output in `std::dec`). -/
def natToDec (n : Nat) : List Char :=
  natDigitsCore 10 (n + 1) n

/-- Lowercase hexadecimal rendering (`std::ostringstream` with
`std::hex`; `Nat.digitChar` yields lowercase letters). -/
def natToHex (n : Nat) : List Char :=
  natDigitsCore 16 (n + 1) n

/-- `ToStringIPv4` (ipaddress.cpp lines 273-287): four dot-separated
decimal octets `(address >> (3-i)*8) & 0xFF` (the four-iteration loop
is unrolled), then `/mask` unless the mask is the IPv4 default. -/
def ToStringIPv4 (address : Nat) (mask : Nat) : List Char :=
  natToDec ((address >>> 24) &&& 0xFF) ++
  '.' :: natToDec ((address >>> 16) &&& 0xFF) ++
  '.' :: natToDec ((address >>> 8) &&& 0xFF) ++
  '.' :: natToDec (address &&& 0xFF) ++
  (if mask ≠ IPV4_DEFAULT_MASK then '/' :: natToDec mask else [])

/-- The quibble of `address` at index `i` (big-endian), as extracted by
`ToStringIPv6` (ipaddress.cpp lines 299-300). -/
def quibbleAt (address : Nat) (i : Nat) : Nat :=
  (address >>> ((IPV6_NUM_QUIBBLE - 1 - i) * IPV6_QUIBBLE_BITS)) &&& 0xFFFF

/-- One step of the zero-run scan in `ToStringIPv6` (ipaddress.cpp
lines 301-315): state is `(zero_run, zero_start, this_zero_start)`
with `IPV6_NUM_QUIBBLE` as the "no run in progress" sentinel. -/
def zeroRunStep (st : Nat × Nat × Nat) (iq : Nat × Nat) : Nat × Nat × Nat :=
  let (zero_run, zero_start, this_zero_start) := st
  let (i, q) := iq
  if q = 0 ∧ this_zero_start = IPV6_NUM_QUIBBLE then
    (zero_run, zero_start, i)
  else if q ≠ 0 ∧ this_zero_start ≠ IPV6_NUM_QUIBBLE then
    let this_run := i - this_zero_start
    if 1 < this_run ∧ zero_run < this_run then (this_run, this_zero_start, IPV6_NUM_QUIBBLE)
    else (zero_run, zero_start, IPV6_NUM_QUIBBLE)
  else st

/-- The indexed scan of the `for` loop over the quibbles (ipaddress.cpp
lines 298-316). -/
def zeroRunScan : List Nat → Nat → (Nat × Nat × Nat) → (Nat × Nat × Nat)
  | [], _, st => st
  | q :: qs, i, st => zeroRunScan qs (i + 1) (zeroRunStep st (i, q))

/-- The zero-run selection of `ToStringIPv6`: the indexed scan over the
quibbles plus the final through-the-end handling (ipaddress.cpp lines
319-325).  Returns `(zero_start, zero_run)`. -/
def zeroRunOf (quibbles : List Nat) : Nat × Nat :=
  let scan := zeroRunScan quibbles 0 (0, 0, IPV6_NUM_QUIBBLE)
  let zero_run := scan.1
  let zero_start := scan.2.1
  let this_zero_start := scan.2.2
  if this_zero_start ≠ IPV6_NUM_QUIBBLE then
    let this_run := IPV6_NUM_QUIBBLE - this_zero_start
    if 1 < this_run ∧ zero_run < this_run then (this_zero_start, this_run)
    else (zero_start, zero_run)
  else (zero_start, zero_run)

/-- Whether each quibble of the window `[s, s + l)` is zero (positions
past the end of the list do not count as zero). -/
def isZeroWindow (quibbles : List Nat) (s l : Nat) : Bool :=
  (List.range l).all fun j => quibbles.getD (s + j) 1 == 0

/-- The zero run the spec prescribes (section 4.2): "find the longest
run of consecutive zero quibbles (minimum run length 2 to qualify for
compression); on ties, the left-most (lowest index) run wins", `(0, 0)`
when no run qualifies.  Defined from the spec's words (candidate
windows are listed with the start index ascending, so keeping the
first candidate of maximal length picks the left-most one); to be
compared with the code's `zeroRunOf`. -/
def specZeroRun (quibbles : List Nat) : Nat × Nat :=
  let n := quibbles.length
  let runs := (List.range (n + 1)).flatMap fun s =>
    (List.range (n + 1)).filterMap fun l =>
      if 2 ≤ l ∧ s + l ≤ n ∧ isZeroWindow quibbles s l = true then some (s, l) else none
  runs.foldl (fun best c => if best.2 < c.2 then c else best) (0, 0)

/-- Quibble values only matter to the zero-run search through being
zero or not. -/
def zeroFlag (q : Nat) : Nat :=
  if q = 0 then 0 else 1

/-- The render loop of `ToStringIPv6` (ipaddress.cpp lines 331-366),
as fuel recursion (the loop index strictly increases towards
`IPV6_NUM_QUIBBLE`, so `IPV6_NUM_QUIBBLE` fuel from index `0` always
suffices).  The C++ in-run assignment `i = zero_end - 1` followed by
the loop increment is the recursion jump to `zero_end`; the `break` of
the embedded-IPv4 branch ends the recursion. -/
def renderV6 (address : Nat) (zero_start zero_end : Nat) : Nat → Nat → List Char
  | 0, _ => []
  | fuel + 1, i =>
    if IPV6_NUM_QUIBBLE ≤ i then []
    else
      let sep := if 0 < i then [':'] else []
      if i < zero_end ∧ zero_start ≤ i then
        let lead := if i = 0 then [':'] else []
        let trail := if zero_end - 1 = IPV6_NUM_QUIBBLE - 1 then [':'] else []
        sep ++ lead ++ trail ++ renderV6 address zero_start zero_end fuel zero_end
      else if i = 6 ∧ zero_start = 0 ∧
          ((zero_end = 6 ∧ quibbleAt address 7 ≠ 1) ∨
           (zero_end = 5 ∧ quibbleAt address 5 = 0xFFFF) ∨
           (zero_end = 4 ∧ quibbleAt address 4 = 0xFFFF ∧ quibbleAt address 5 = 0)) then
        sep ++ ToStringIPv4 (address &&& 0xFFFFFFFF) IPV4_DEFAULT_MASK
      else
        sep ++ natToHex (quibbleAt address i) ++ renderV6 address zero_start zero_end fuel (i + 1)

/-- `ToStringIPv6` (ipaddress.cpp lines 289-372): zero-run selection,
render loop, optional `/mask` suffix. -/
def ToStringIPv6 (addr : IPAddress) : List Char :=
  let quibbles := (List.range IPV6_NUM_QUIBBLE).map (quibbleAt addr.address)
  let zs := (zeroRunOf quibbles).1
  let zr := (zeroRunOf quibbles).2
  renderV6 addr.address zs (zs + zr) IPV6_NUM_QUIBBLE 0 ++
  (if addr.mask ≠ IPV6_DEFAULT_MASK then '/' :: natToDec addr.mask else [])

/-- `IPAddress::ToString` (ipaddress.cpp lines 374-384); the
`ConversionException` thrown for an invalid family is `none`. -/
def ToString (v : IPAddress) : Option (List Char) :=
  match v.type with
  | IPAddressType.IP_ADDRESS_V4 => some (ToStringIPv4 v.address v.mask)
  | IPAddressType.IP_ADDRESS_V6 => some (ToStringIPv6 v)
  | IPAddressType.IP_ADDRESS_INVALID => none

/-- The validity invariant of a constructible `AddressValue` (spec
section 3): IPv4 magnitudes fit in 32 bits with mask at most 32, IPv6
magnitudes fit in 128 bits with mask at most 128. -/
def ValidAddress (v : IPAddress) : Prop :=
  (v.type = IPAddressType.IP_ADDRESS_V4 ∧ v.address < 2 ^ 32 ∧ v.mask ≤ 32) ∨
  (v.type = IPAddressType.IP_ADDRESS_V6 ∧ v.address < 2 ^ 128 ∧ v.mask ≤ 128)

/-- The middle of a colon-separated rendering: for each index in `is`,
a `:` separator followed by the hex quibble of `a` at that index. -/
def hexCat (a : Nat) (is : List Nat) : List Char :=
  is.flatMap fun i => ':' :: natToHex (quibbleAt a i)

/-- The scan state after feeding the quibbles of `a` at indices
`i, i+1, …, i+n-1` through `V6State.addQuibble`. -/
def stAfter (a : Nat) (st : V6State) (i n : Nat) : V6State :=
  (List.range' i n).foldl (fun s j => s.addQuibble (natToHex (quibbleAt a j))) st

end Inet

namespace Inet

/-! ## Arithmetic facts about the two's-complement top-bit flip -/

theorem xor_top_bit_of_lt {u : Nat} (h : u < 2 ^ 127) :
    u ^^^ 2 ^ 127 = u + 2 ^ 127 := by
  have hor : 2 ^ 127 * 1 + u = 2 ^ 127 * 1 ||| u := Nat.mul_add_lt_is_or h 1
  have hxor : 2 ^ 127 ||| u = 2 ^ 127 ^^^ u := by
    apply Nat.eq_of_testBit_eq
    intro j
    simp only [Nat.testBit_or, Nat.testBit_xor]
    rcases eq_or_ne j 127 with rfl | hj
    · simp [Nat.testBit_lt_two_pow h, Nat.testBit_two_pow_self]
    · simp [Nat.testBit_two_pow_of_ne (by omega : 127 ≠ j)]
  calc u ^^^ 2 ^ 127 = 2 ^ 127 ^^^ u := Nat.xor_comm _ _
    _ = 2 ^ 127 ||| u := hxor.symm
    _ = 2 ^ 127 * 1 + u := by rw [Nat.mul_one]; exact (Nat.mul_add_lt_is_or h 1).symm
    _ = u + 2 ^ 127 := by omega

theorem xor_top_bit_of_ge {u : Nat} (hlo : 2 ^ 127 ≤ u) (hhi : u < 2 ^ 128) :
    u ^^^ 2 ^ 127 = u - 2 ^ 127 := by
  have hv : u - 2 ^ 127 < 2 ^ 127 := by omega
  have h1 : (u - 2 ^ 127) ^^^ 2 ^ 127 = u := by
    rw [xor_top_bit_of_lt hv]; omega
  calc u ^^^ 2 ^ 127 = ((u - 2 ^ 127) ^^^ 2 ^ 127) ^^^ 2 ^ 127 := by rw [h1]
    _ = (u - 2 ^ 127) ^^^ (2 ^ 127 ^^^ 2 ^ 127) := Nat.xor_assoc _ _ _
    _ = u - 2 ^ 127 := by simp

/-- The legacy signed encoding of an IPv6 magnitude is the magnitude
shifted down by `2^127`: flipping the top bit and reinterpreting as a
signed two's-complement value subtracts `2^127`. -/
theorem to_compat_addr_v6_eq {u : Nat} (h : u < 2 ^ 128) :
    to_compat_addr u IPAddressType.IP_ADDRESS_V6 = (u : Int) - 2 ^ 127 := by
  unfold to_compat_addr toSigned128
  simp only [if_pos rfl]
  have hshift : (1 <<< 127 : Nat) = 2 ^ 127 := by norm_num [Nat.shiftLeft_eq]
  rw [hshift]
  rcases Nat.lt_or_ge u (2 ^ 127) with hu | hu
  · rw [xor_top_bit_of_lt hu]
    have : ¬ (u + 2 ^ 127 < 2 ^ 127) := by omega
    rw [if_neg this]
    push_cast
    omega
  · rw [xor_top_bit_of_ge hu h]
    have : u - 2 ^ 127 < 2 ^ 127 := by omega
    rw [if_pos this]
    push_cast [Nat.cast_sub hu]
    omega

/-- The legacy signed encoding of an IPv4 magnitude is the magnitude
itself: no bit is flipped and the value is below `2^127`. -/
theorem to_compat_addr_v4_eq {u : Nat} (h : u < 2 ^ 32) :
    to_compat_addr u IPAddressType.IP_ADDRESS_V4 = (u : Int) := by
  unfold to_compat_addr toSigned128
  have h127 : u < 2 ^ 127 := lt_of_lt_of_le h (by norm_num)
  rw [if_neg (by simp), if_pos h127]

/-- Away from the `val = 0` fast path, `add_implementation` is
`offsetScratch` followed by the IPv4 domain check. -/
theorem add_implementation_eq_scratch (ip : INETRecord) (val : Int) (h : val ≠ 0) :
    add_implementation ip val =
      match offsetScratch (from_compat_addr ip.b_val ip.a_val) val with
      | none => none
      | some address_out =>
        if ip.a_val = IPAddressType.IP_ADDRESS_V4 ∧ 2 ^ IPV4_DEFAULT_MASK ≤ address_out then
          none
        else
          some ⟨ip.a_val, to_compat_addr address_out ip.a_val, ip.c_val⟩ := by
  unfold add_implementation offsetScratch
  rw [if_neg h]
  dsimp only
  rcases lt_trichotomy val 0 with hv | hv | hv
  · rw [if_neg (by omega : ¬ (0 : Int) < val), if_neg (by omega : ¬ (0 : Int) ≤ val)]
  · exact absurd hv h
  · rw [if_pos hv, if_pos (le_of_lt hv)]

/-- C2: under the legacy signed encoding, for any two IPv6 magnitudes
`a < b` (as unsigned 128-bit integers) the encoded keys compare the same
way as signed 128-bit integers (`to_compat_addr` flips the top bit for
IPv6 only), and for an IPv4 magnitude the encoded key equals the
magnitude unchanged. -/
theorem legacy_signed_order_preserved (a b u : Nat)
    (ha : a < 2 ^ 128) (hb : b < 2 ^ 128) (hab : a < b) (hu : u < 2 ^ 32) :
    to_compat_addr a IPAddressType.IP_ADDRESS_V6 <
      to_compat_addr b IPAddressType.IP_ADDRESS_V6 ∧
    to_compat_addr u IPAddressType.IP_ADDRESS_V4 = (u : Int) := by
  constructor
  · rw [to_compat_addr_v6_eq ha, to_compat_addr_v6_eq hb]
    have : (a : Int) < (b : Int) := by exact_mod_cast hab
    omega
  · exact to_compat_addr_v4_eq hu

/-- Witness for C2 at concrete inputs. -/
theorem legacy_signed_order_preserved_witness :
    to_compat_addr 5 IPAddressType.IP_ADDRESS_V6 <
      to_compat_addr (2 ^ 127 + 3) IPAddressType.IP_ADDRESS_V6 ∧
    to_compat_addr 4294967295 IPAddressType.IP_ADDRESS_V4 = (4294967295 : Int) :=
  legacy_signed_order_preserved 5 (2 ^ 127 + 3) 4294967295
    (by norm_num) (by norm_num) (by norm_num) (by norm_num)

/-- C9: when `add_implementation` succeeds, the result's family tag and
prefix length equal the input's; only the address field is recomputed. -/
theorem add_implementation_preserves_frame (ip : INETRecord) (val : Int)
    (out : INETRecord) (h : add_implementation ip val = some out) :
    out.a_val = ip.a_val ∧ out.c_val = ip.c_val := by
  by_cases h0 : val = 0
  · unfold add_implementation at h
    rw [if_pos h0] at h
    cases h
    exact ⟨rfl, rfl⟩
  · rw [add_implementation_eq_scratch ip val h0] at h
    rcases hout : offsetScratch (from_compat_addr ip.b_val ip.a_val) val with _ | address_out
    · rw [hout] at h
      exact absurd h (by simp)
    · rw [hout] at h
      simp only at h
      by_cases hrange : ip.a_val = IPAddressType.IP_ADDRESS_V4 ∧
          2 ^ IPV4_DEFAULT_MASK ≤ address_out
      · rw [if_pos hrange] at h
        exact absurd h (by simp)
      · rw [if_neg hrange] at h
        cases h
        exact ⟨rfl, rfl⟩

/-- Witness for C9 at a concrete input. -/
theorem add_implementation_preserves_frame_witness :
    (⟨IPAddressType.IP_ADDRESS_V4, 2, 32⟩ : INETRecord).a_val =
      (⟨IPAddressType.IP_ADDRESS_V4, 1, 32⟩ : INETRecord).a_val ∧
    (⟨IPAddressType.IP_ADDRESS_V4, 2, 32⟩ : INETRecord).c_val =
      (⟨IPAddressType.IP_ADDRESS_V4, 1, 32⟩ : INETRecord).c_val :=
  add_implementation_preserves_frame ⟨IPAddressType.IP_ADDRESS_V4, 1, 32⟩ 1
    ⟨IPAddressType.IP_ADDRESS_V4, 2, 32⟩ (by decide)

/-- C3: for an IPv4 record (magnitude within the 32-bit domain), when the
128-bit scratch add/subtract succeeds but its result is at least `2^32`,
`add_implementation` fails (throws `OutOfRangeException`, here `none`)
instead of returning a value. -/
theorem add_implementation_v4_range_check (ip : INETRecord) (val : Int) (m : Nat)
    (hty : ip.a_val = IPAddressType.IP_ADDRESS_V4)
    (hdom : from_compat_addr ip.b_val IPAddressType.IP_ADDRESS_V4 < 2 ^ 32)
    (hop : offsetScratch (from_compat_addr ip.b_val IPAddressType.IP_ADDRESS_V4) val = some m)
    (hm : 2 ^ 32 ≤ m) :
    add_implementation ip val = none := by
  by_cases h0 : val = 0
  · exfalso
    subst h0
    simp only [offsetScratch, numericCastToU128, checkedAddU128] at hop
    norm_num at hop
    omega
  · rw [add_implementation_eq_scratch ip val h0]
    rw [hty]
    rw [hop]
    simp only [IPV4_DEFAULT_MASK]
    simp
    omega

/-- Witness for C3: offsetting `255.255.255.255` by `1` fails. -/
theorem add_implementation_v4_range_check_witness :
    add_implementation ⟨IPAddressType.IP_ADDRESS_V4, 4294967295, 32⟩ 1 = none :=
  add_implementation_v4_range_check ⟨IPAddressType.IP_ADDRESS_V4, 4294967295, 32⟩ 1
    4294967296 rfl (by decide) (by decide) (by decide)

/-! ## Character and digit facts -/

theorem characterIsHex_of_digit {c : Char} (h : characterIsDigit c = true) :
    characterIsHex c = true := by
  simp [characterIsHex, h]

theorem characterIsDigit_digitChar : ∀ d, d < 10 →
    characterIsDigit (Nat.digitChar d) = true := by decide

theorem characterIsHex_digitChar : ∀ d, d < 16 →
    characterIsHex (Nat.digitChar d) = true := by decide

theorem getHexValue_digitChar : ∀ d, d < 16 →
    getHexValue (Nat.digitChar d) = d := by decide

theorem digitChar_toNat_sub : ∀ d, d < 10 →
    (Nat.digitChar d).toNat - 48 = d := by decide

theorem digitChar_ne_punct : ∀ d, d < 16 →
    Nat.digitChar d ≠ ':' ∧ Nat.digitChar d ≠ '.' ∧ Nat.digitChar d ≠ '/' := by decide

theorem digitChar_eq_zero_char : ∀ d, d < 16 →
    (Nat.digitChar d = '0' ↔ d = 0) := by decide

theorem characterIsHex_punct :
    characterIsHex ':' = false ∧ characterIsHex '.' = false ∧
    characterIsHex '/' = false := by decide

theorem characterIsDigit_punct :
    characterIsDigit ':' = false ∧ characterIsDigit '.' = false ∧
    characterIsDigit '/' = false := by decide

/-! ## takeWhile / dropWhile splitting -/

theorem span_nil_of_head {p : Char → Bool} {l : List Char}
    (h : ∀ y, l.head? = some y → p y = false) :
    l.takeWhile p = [] ∧ l.dropWhile p = l := by
  cases l with
  | nil => simp
  | cons x xs =>
    have hx : p x = false := h x rfl
    simp [List.takeWhile_cons, List.dropWhile_cons, hx]

theorem span_append {p : Char → Bool} {xs rest : List Char}
    (hx : ∀ c ∈ xs, p c = true)
    (hr : ∀ y, rest.head? = some y → p y = false) :
    (xs ++ rest).takeWhile p = xs ∧ (xs ++ rest).dropWhile p = rest := by
  obtain ⟨ht, hd⟩ := span_nil_of_head hr
  rw [List.takeWhile_append_of_pos hx, List.dropWhile_append_of_pos hx, ht, hd]
  simp

/-! ## The digit-rendering contract -/

theorem natDigitsCore_fuel {b : Nat} (hb : 2 ≤ b) :
    ∀ fuel fuel' n, n < fuel → n < fuel' →
      natDigitsCore b fuel n = natDigitsCore b fuel' n := by
  intro fuel
  induction fuel with
  | zero => intro fuel' n h; omega
  | succ fuel ih =>
    intro fuel' n h h'
    cases fuel' with
    | zero => omega
    | succ fuel' =>
      simp only [natDigitsCore]
      by_cases hn : n < b
      · simp [hn]
      · rw [if_neg hn, if_neg hn]
        have hdiv : n / b < n := Nat.div_lt_self (by omega) (by omega)
        rw [ih fuel' (n / b) (by omega) (by omega)]

/-- The rendering contract of `natDigitsCore` (for bases up to 16):
non-empty, every character a digit of the base, a leading zero only for
zero itself, and the base-`b` fold of the hex values recovers the
number. -/
theorem natDigitsCore_spec {b : Nat} (hb2 : 2 ≤ b) (hb16 : b ≤ 16) :
    ∀ fuel n, n < fuel →
      natDigitsCore b fuel n ≠ [] ∧
      (∀ c ∈ natDigitsCore b fuel n, ∃ d, d < b ∧ c = Nat.digitChar d) ∧
      ((natDigitsCore b fuel n).head? = some '0' → n = 0) ∧
      (∀ a : Nat, (natDigitsCore b fuel n).foldl (fun a c => a * b + getHexValue c) a
        = a * b ^ (natDigitsCore b fuel n).length + n) := by
  intro fuel
  induction fuel with
  | zero => intro n h; omega
  | succ fuel ih =>
    intro n hn
    by_cases hnb : n < b
    · refine ⟨by simp [natDigitsCore, hnb], ?_, ?_, ?_⟩
      · intro c hc
        simp only [natDigitsCore, if_pos hnb, List.mem_singleton] at hc
        exact ⟨n, hnb, hc⟩
      · intro h
        simp only [natDigitsCore, if_pos hnb, List.head?_cons, Option.some.injEq] at h
        exact (digitChar_eq_zero_char n (by omega)).mp h
      · intro a
        simp only [natDigitsCore, if_pos hnb, List.foldl_cons, List.foldl_nil,
          List.length_singleton, pow_one]
        rw [getHexValue_digitChar n (by omega)]
    · have hdiv : n / b < fuel := by
        have : n / b < n := Nat.div_lt_self (by omega) (by omega)
        omega
      obtain ⟨hne, hdig, hzero, hval⟩ := ih (n / b) hdiv
      have heq : natDigitsCore b (fuel + 1) n
          = natDigitsCore b fuel (n / b) ++ [Nat.digitChar (n % b)] := by
        simp [natDigitsCore, hnb]
      refine ⟨by simp [heq], ?_, ?_, ?_⟩
      · intro c hc
        rw [heq, List.mem_append, List.mem_singleton] at hc
        rcases hc with hc | rfl
        · exact hdig c hc
        · exact ⟨n % b, Nat.mod_lt n (by omega), rfl⟩
      · intro h
        exfalso
        rw [heq, List.head?_append_of_ne_nil _ hne] at h
        have hdz := hzero h
        have hbn : b ≤ n := by omega
        have hge : 1 ≤ n / b := (Nat.one_le_div_iff (by omega)).mpr hbn
        omega
      · intro a
        rw [heq, List.foldl_append, List.foldl_cons, List.foldl_nil,
          List.length_append, List.length_singleton]
        have hmod : n % b < b := Nat.mod_lt n (by omega)
        rw [hval a, getHexValue_digitChar (n % b) (by omega)]
        rw [pow_succ]
        have := Nat.div_add_mod n b
        ring_nf
        nlinarith [Nat.div_add_mod n b]

theorem natDigitsCore_length {b : Nat} (hb2 : 2 ≤ b) :
    ∀ fuel n k, n < fuel → n < b ^ k → 0 < k →
      (natDigitsCore b fuel n).length ≤ k := by
  intro fuel
  induction fuel with
  | zero => intro n k h; omega
  | succ fuel ih =>
    intro n k hn hk hk0
    by_cases hnb : n < b
    · simp [natDigitsCore, hnb]
      omega
    · have heq : natDigitsCore b (fuel + 1) n
          = natDigitsCore b fuel (n / b) ++ [Nat.digitChar (n % b)] := by
        simp [natDigitsCore, hnb]
      rw [heq, List.length_append, List.length_singleton]
      have hkk : 2 ≤ k := by
        rcases Nat.lt_or_ge k 2 with hkk | hkk
        · interval_cases k
          · exfalso
            rw [pow_one] at hk
            omega
        · exact hkk
      have hdivk : n / b < b ^ (k - 1) := by
        rw [Nat.div_lt_iff_lt_mul (by omega)]
        calc n < b ^ k := hk
          _ = b ^ (k - 1) * b := by
            rw [← pow_succ]
            congr 1
            omega
      have := ih (n / b) (k - 1)
        (by have : n / b < n := Nat.div_lt_self (by omega) (by omega); omega)
        hdivk (by omega)
      omega

/-! ## Derived facts about the decimal rendering -/

theorem natToDec_ne_nil (n : Nat) : natToDec n ≠ [] :=
  (natDigitsCore_spec (by norm_num) (by norm_num) (n + 1) n (by omega)).1

theorem natToDec_digitChars (n : Nat) :
    ∀ c ∈ natToDec n, ∃ d, d < 10 ∧ c = Nat.digitChar d :=
  (natDigitsCore_spec (by norm_num) (by norm_num) (n + 1) n (by omega)).2.1

theorem natToDec_digits (n : Nat) : ∀ c ∈ natToDec n, characterIsDigit c = true := by
  intro c hc
  obtain ⟨d, hd, rfl⟩ := natToDec_digitChars n c hc
  exact characterIsDigit_digitChar d hd

theorem natToDec_head_zero {n : Nat} (h : (natToDec n).head? = some '0') : n = 0 :=
  (natDigitsCore_spec (by norm_num) (by norm_num) (n + 1) n (by omega)).2.2.1 h

theorem foldl_decVal_eq_hexVal {l : List Char}
    (hl : ∀ c ∈ l, ∃ d, d < 10 ∧ c = Nat.digitChar d) :
    ∀ a, l.foldl (fun a ch => a * 10 + (ch.toNat - 48)) a
      = l.foldl (fun a c => a * 10 + getHexValue c) a := by
  induction l with
  | nil => intro a; rfl
  | cons c l ih =>
    intro a
    obtain ⟨d, hd, rfl⟩ := hl c (List.mem_cons_self ..)
    simp only [List.foldl_cons]
    rw [digitChar_toNat_sub d hd, getHexValue_digitChar d (by omega)]
    exact ih (fun c hc => hl c (List.mem_cons_of_mem _ hc)) _

theorem decVal_natToDec (n : Nat) : decVal (natToDec n) = n := by
  unfold decVal
  rw [foldl_decVal_eq_hexVal (natToDec_digitChars n) 0]
  have := (natDigitsCore_spec (b := 10) (by norm_num) (by norm_num) (n + 1) n (by omega)).2.2.2 0
  simpa using this

theorem tryCastUInt8_natToDec {n : Nat} (h : n ≤ 255) :
    tryCastUInt8 (natToDec n) = some n := by
  rcases hND : natToDec n with _ | ⟨c, cs⟩
  · exact absurd hND (natToDec_ne_nil n)
  · have hdig : (c :: cs).all characterIsDigit = true := by
      rw [List.all_eq_true]
      intro x hx
      exact natToDec_digits n x (hND ▸ hx)
    have hval : decVal (c :: cs) = n := hND ▸ decVal_natToDec n
    have hlead : ¬ (c = '0' ∧ cs ≠ []) := by
      rintro ⟨rfl, hcs⟩
      have h0 : n = 0 := natToDec_head_zero (by rw [hND]; rfl)
      subst h0
      have : natToDec 0 = ['0'] := rfl
      rw [this] at hND
      cases hND
      exact hcs rfl
    simp only [tryCastUInt8]
    rw [if_neg (by simpa using hdig), if_neg hlead, if_neg (by omega : ¬ 255 < decVal (c :: cs)),
      hval]

theorem tryCastUInt8_none_of_overflow {s : List Char} (h : 255 < decVal s) :
    tryCastUInt8 s = none := by
  rcases s with _ | ⟨c, cs⟩
  · rfl
  · simp only [tryCastUInt8]
    by_cases hdig : (c :: cs).all characterIsDigit = true
    · rw [if_neg (by simp [hdig])]
      by_cases hlead : c = '0' ∧ cs ≠ []
      · rw [if_pos hlead]
      · rw [if_neg hlead, if_pos h]
    · rw [if_pos (by simpa using hdig)]

theorem tryCastUInt8_none_of_leading_zero {cs : List Char} (h : cs ≠ []) :
    tryCastUInt8 ('0' :: cs) = none := by
  simp only [tryCastUInt8]
  by_cases hdig : ('0' :: cs).all characterIsDigit = true
  · rw [if_neg (by simp [hdig]), if_pos (by exact ⟨by trivial, h⟩)]
  · rw [if_pos (by simpa using hdig)]

/-! ## Stepping the IPv4 octet loop -/

theorem parseIPv4Octets_fail (count acc : Nat) (g rest : List Char)
    (hg : g ≠ []) (hdig : ∀ c ∈ g, characterIsDigit c = true)
    (hr : ∀ y, rest.head? = some y → characterIsDigit y = false)
    (hcast : tryCastUInt8 g = none) :
    parseIPv4Octets (count + 1) acc (g ++ rest) = none := by
  obtain ⟨ht, hd⟩ := span_append hdig hr
  simp only [parseIPv4Octets, ht, hd, if_neg hg, hcast]

theorem parseIPv4Octets_last (acc : Nat) (g rest : List Char) (number : Nat)
    (hg : g ≠ []) (hdig : ∀ c ∈ g, characterIsDigit c = true)
    (hr : ∀ y, rest.head? = some y → characterIsDigit y = false)
    (hcast : tryCastUInt8 g = some number) :
    parseIPv4Octets 1 acc (g ++ rest) = some (((acc <<< 8) + number) % 2 ^ 32, rest) := by
  obtain ⟨ht, hd⟩ := span_append hdig hr
  simp only [parseIPv4Octets, ht, hd, if_neg hg, hcast]
  simp

theorem parseIPv4Octets_step (count acc : Nat) (g rest2 : List Char) (number : Nat)
    (hg : g ≠ []) (hdig : ∀ c ∈ g, characterIsDigit c = true)
    (hcast : tryCastUInt8 g = some number) :
    parseIPv4Octets (count + 2) acc (g ++ '.' :: rest2) =
      parseIPv4Octets (count + 1) (((acc <<< 8) + number) % 2 ^ 32) rest2 := by
  have hr : ∀ y, ('.' :: rest2).head? = some y → characterIsDigit y = false := by
    intro y hy
    cases hy
    exact characterIsDigit_punct.2.1
  obtain ⟨ht, hd⟩ := span_append hdig hr
  simp only [parseIPv4Octets, ht, hd, if_neg hg, hcast]
  simp

/-! ## The IPv4 round trip -/

theorem and_255_eq_mod (x : Nat) : x &&& 0xFF = x % 256 := by
  have := Nat.and_pow_two_sub_one_eq_mod x 8
  norm_num at this
  exact this

theorem octet_le (x : Nat) : x &&& 0xFF ≤ 255 := by
  have := and_255_eq_mod x
  omega

theorem parseIPv4Octets_four (b0 b1 b2 b3 : Nat) (rest : List Char)
    (h0 : b0 ≤ 255) (h1 : b1 ≤ 255) (h2 : b2 ≤ 255) (h3 : b3 ≤ 255)
    (hr : ∀ y, rest.head? = some y → characterIsDigit y = false) :
    parseIPv4Octets 4 0 (natToDec b0 ++ '.' :: (natToDec b1 ++ '.' :: (natToDec b2 ++
        '.' :: (natToDec b3 ++ rest)))) =
      some (((b0 * 256 + b1) * 256 + b2) * 256 + b3, rest) := by
  have e1 := parseIPv4Octets_step 2 0 (natToDec b0)
    (natToDec b1 ++ '.' :: (natToDec b2 ++ '.' :: (natToDec b3 ++ rest))) b0
    (natToDec_ne_nil _) (natToDec_digits _) (tryCastUInt8_natToDec h0)
  rw [show ((0 <<< 8) + b0) % 2 ^ 32 = b0 by rw [Nat.shiftLeft_eq]; norm_num; omega] at e1
  have e2 := parseIPv4Octets_step 1 b0 (natToDec b1)
    (natToDec b2 ++ '.' :: (natToDec b3 ++ rest)) b1
    (natToDec_ne_nil _) (natToDec_digits _) (tryCastUInt8_natToDec h1)
  rw [show ((b0 <<< 8) + b1) % 2 ^ 32 = b0 * 256 + b1 by
    rw [Nat.shiftLeft_eq]; norm_num; omega] at e2
  have e3 := parseIPv4Octets_step 0 (b0 * 256 + b1) (natToDec b2)
    (natToDec b3 ++ rest) b2
    (natToDec_ne_nil _) (natToDec_digits _) (tryCastUInt8_natToDec h2)
  rw [show (((b0 * 256 + b1) <<< 8) + b2) % 2 ^ 32 = (b0 * 256 + b1) * 256 + b2 by
    rw [Nat.shiftLeft_eq]; norm_num; omega] at e3
  have e4 := parseIPv4Octets_last ((b0 * 256 + b1) * 256 + b2) (natToDec b3) rest b3
    (natToDec_ne_nil _) (natToDec_digits _) hr (tryCastUInt8_natToDec h3)
  rw [show ((((b0 * 256 + b1) * 256 + b2) <<< 8) + b3) % 2 ^ 32
      = ((b0 * 256 + b1) * 256 + b2) * 256 + b3 by
    rw [Nat.shiftLeft_eq]; norm_num; omega] at e4
  exact ((e1.trans e2).trans e3).trans e4

theorem parseIPv4Octets_ToStringIPv4 {a m : Nat} (ha : a < 2 ^ 32) :
    parseIPv4Octets 4 0 (ToStringIPv4 a m) =
      some (a, if m ≠ IPV4_DEFAULT_MASK then '/' :: natToDec m else []) := by
  have hmasksuf : ∀ y,
      (if m ≠ IPV4_DEFAULT_MASK then '/' :: natToDec m else []).head? = some y →
      characterIsDigit y = false := by
    intro y hy
    by_cases h32 : m = IPV4_DEFAULT_MASK
    · rw [if_neg (by simp [h32])] at hy
      cases hy
    · rw [if_pos h32] at hy
      cases hy
      exact characterIsDigit_punct.2.2
  have h := parseIPv4Octets_four ((a >>> 24) &&& 0xFF) ((a >>> 16) &&& 0xFF)
    ((a >>> 8) &&& 0xFF) (a &&& 0xFF)
    (if m ≠ IPV4_DEFAULT_MASK then '/' :: natToDec m else [])
    (octet_le _) (octet_le _) (octet_le _) (octet_le _) hmasksuf
  rw [show ((((a >>> 24) &&& 0xFF) * 256 + ((a >>> 16) &&& 0xFF)) * 256
        + ((a >>> 8) &&& 0xFF)) * 256 + (a &&& 0xFF) = a by
    simp only [Nat.shiftRight_eq_div_pow, and_255_eq_mod]
    norm_num
    omega] at h
  unfold ToStringIPv4
  simpa only [List.cons_append, List.append_assoc] using h

theorem TryParseIPv4_ToStringIPv4 {a m : Nat} (ha : a < 2 ^ 32) (hm : m ≤ 32) :
    TryParseIPv4 (ToStringIPv4 a m) = some ⟨IPAddressType.IP_ADDRESS_V4, a, m⟩ := by
  have hparse := parseIPv4Octets_ToStringIPv4 (m := m) ha
  by_cases h32 : m = IPV4_DEFAULT_MASK
  · rw [if_neg (by simp [h32])] at hparse
    simp only [TryParseIPv4, hparse]
    simp [IPV4_DEFAULT_MASK, h32]
  · rw [if_pos h32] at hparse
    simp only [TryParseIPv4, hparse]
    have htw : (natToDec m).takeWhile characterIsDigit = natToDec m :=
      List.takeWhile_eq_self_iff.mpr (natToDec_digits m)
    simp only [htw, tryCastUInt8_natToDec (le_trans hm (by norm_num))]
    rw [if_neg (by omega : ¬ 32 < m)]

/-! ## Family dispatch (`IPAddress::TryParse`) -/

theorem TryParse_eq_of_dot {s t : List Char}
    (hd : s.dropWhile characterIsHex = '.' :: t)
    (hne : s.takeWhile characterIsHex ≠ []) :
    TryParse s = TryParseIPv4 s := by
  unfold TryParse
  rw [hd]
  dsimp only
  rw [if_neg (by decide : ¬ ('.' : Char) = ':'), if_neg hne, if_pos rfl]

theorem TryParse_eq_of_colon {s t : List Char}
    (hd : s.dropWhile characterIsHex = ':' :: t) :
    TryParse s = TryParseIPv6 s := by
  unfold TryParse
  rw [hd]
  dsimp only
  rw [if_pos rfl]

theorem ToStringIPv4_eq (a m : Nat) :
    ToStringIPv4 a m = natToDec ((a >>> 24) &&& 0xFF) ++ '.' ::
      (natToDec ((a >>> 16) &&& 0xFF) ++ '.' ::
        (natToDec ((a >>> 8) &&& 0xFF) ++ '.' ::
          (natToDec (a &&& 0xFF) ++
            (if m ≠ IPV4_DEFAULT_MASK then '/' :: natToDec m else [])))) := by
  unfold ToStringIPv4
  simp only [List.cons_append, List.append_assoc]

theorem natToDec_hex (n : Nat) : ∀ c ∈ natToDec n, characterIsHex c = true :=
  fun c hc => characterIsHex_of_digit (natToDec_digits n c hc)

theorem TryParse_ToStringIPv4 {a m : Nat} (ha : a < 2 ^ 32) (hm : m ≤ 32) :
    TryParse (ToStringIPv4 a m) = some ⟨IPAddressType.IP_ADDRESS_V4, a, m⟩ := by
  have hsplit := @span_append characterIsHex _
    ('.' :: (natToDec ((a >>> 16) &&& 0xFF) ++ '.' ::
        (natToDec ((a >>> 8) &&& 0xFF) ++ '.' ::
          (natToDec (a &&& 0xFF) ++
            (if m ≠ IPV4_DEFAULT_MASK then '/' :: natToDec m else [])))))
    (natToDec_hex ((a >>> 24) &&& 0xFF))
    (fun y hy => by cases hy; exact characterIsHex_punct.2.1)
  rw [ToStringIPv4_eq]
  rw [TryParse_eq_of_dot hsplit.2 (by rw [hsplit.1]; exact natToDec_ne_nil _)]
  rw [← ToStringIPv4_eq]
  exact TryParseIPv4_ToStringIPv4 ha hm

/-! ## C10: an extra trailing colon after a complete address is accepted -/

/-- C10: `parse("1:2:3:4:5:6:7:8:")` succeeds and yields the same value
as `parse("1:2:3:4:5:6:7:8")`, and `parse("::1:")` succeeds and yields
the same value as `parse("::1")`. -/
theorem trailing_colon_accepted :
    TryParse "1:2:3:4:5:6:7:8:".toList =
      some ⟨IPAddressType.IP_ADDRESS_V6, 0x00010002000300040005000600070008, 128⟩ ∧
    TryParse "1:2:3:4:5:6:7:8".toList =
      some ⟨IPAddressType.IP_ADDRESS_V6, 0x00010002000300040005000600070008, 128⟩ ∧
    TryParse "::1:".toList = some ⟨IPAddressType.IP_ADDRESS_V6, 1, 128⟩ ∧
    TryParse "::1".toList = some ⟨IPAddressType.IP_ADDRESS_V6, 1, 128⟩ :=
  ⟨rfl, rfl, rfl, rfl⟩

/-! ## C4: trailing characters after the IPv4 mask -/

/-- Counterexample to C4 as stated: `"1.2.3.4/24xyz"` has trailing
characters after the mask digits, yet parses successfully (the trailing
text is ignored), instead of failing with a parse error. -/
theorem trailing_after_mask_not_rejected :
    TryParse "1.2.3.4/24xyz".toList =
      some ⟨IPAddressType.IP_ADDRESS_V4, 0x01020304, 24⟩ ∧
    TryParse "1.2.3.4/24xyz".toList ≠ none := by
  refine ⟨rfl, ?_⟩
  intro h
  rw [show TryParse "1.2.3.4/24xyz".toList =
      some ⟨IPAddressType.IP_ADDRESS_V4, 0x01020304, 24⟩ from rfl] at h
  cases h

/-- C4 amended: after the four octets, the `/`, and the maximal digit
run (which must cast to a mask of at most 32), any trailing input whose
first character is not a digit is ignored: the parse succeeds as if the
trailing text were absent. -/
theorem trailing_after_mask_ignored (b0 b1 b2 b3 m : Nat) (rest : List Char)
    (h0 : b0 ≤ 255) (h1 : b1 ≤ 255) (h2 : b2 ≤ 255) (h3 : b3 ≤ 255) (hm : m ≤ 32)
    (hr : ∀ y, rest.head? = some y → characterIsDigit y = false) :
    TryParse (natToDec b0 ++ '.' :: (natToDec b1 ++ '.' :: (natToDec b2 ++ '.' ::
      (natToDec b3 ++ '/' :: (natToDec m ++ rest))))) =
      some ⟨IPAddressType.IP_ADDRESS_V4, ((b0 * 256 + b1) * 256 + b2) * 256 + b3, m⟩ := by
  have hslash : ∀ y, ('/' :: (natToDec m ++ rest)).head? = some y →
      characterIsDigit y = false := by
    intro y hy
    cases hy
    exact characterIsDigit_punct.2.2
  have hparse := parseIPv4Octets_four b0 b1 b2 b3 ('/' :: (natToDec m ++ rest))
    h0 h1 h2 h3 hslash
  have hsplit := @span_append characterIsHex _
    ('.' :: (natToDec b1 ++ '.' :: (natToDec b2 ++ '.' ::
      (natToDec b3 ++ '/' :: (natToDec m ++ rest)))))
    (natToDec_hex b0)
    (fun y hy => by cases hy; exact characterIsHex_punct.2.1)
  rw [TryParse_eq_of_dot hsplit.2 (by rw [hsplit.1]; exact natToDec_ne_nil _)]
  simp only [TryParseIPv4, hparse]
  obtain ⟨htm, -⟩ := span_append (p := characterIsDigit) (natToDec_digits m) hr
  simp only [htm, tryCastUInt8_natToDec (le_trans hm (by norm_num))]
  rw [if_neg (by omega : ¬ 32 < m)]

/-- Witness for the amended C4 at `"1.2.3.4/24xyz"`. -/
theorem trailing_after_mask_ignored_witness :
    TryParse (natToDec 1 ++ '.' :: (natToDec 2 ++ '.' :: (natToDec 3 ++ '.' ::
      (natToDec 4 ++ '/' :: (natToDec 24 ++ "xyz".toList))))) =
      some ⟨IPAddressType.IP_ADDRESS_V4, ((1 * 256 + 2) * 256 + 3) * 256 + 4, 24⟩ :=
  trailing_after_mask_ignored 1 2 3 4 24 "xyz".toList
    (by norm_num) (by norm_num) (by norm_num) (by norm_num) (by norm_num)
    (fun y hy => by cases hy; decide)

/-! ## C8: out-of-range and leading-zero octet groups are rejected -/

theorem tryCastUInt8_none_of_bad {g : List Char}
    (h : (g.head? = some '0' ∧ 2 ≤ g.length) ∨ 255 < decVal g) :
    tryCastUInt8 g = none := by
  rcases h with ⟨hz, hlen⟩ | hover
  · rcases g with _ | ⟨c, cs⟩
    · cases hz
    · rw [List.head?_cons, Option.some.injEq] at hz
      subst hz
      exact tryCastUInt8_none_of_leading_zero (by
        rintro rfl
        simp at hlen)
  · exact tryCastUInt8_none_of_overflow hover

/-- C8: each of the four dot-separated groups of an IPv4 input must
parse as an integer in `[0,255]` without a leading zero; if any group
is out of range or has a leading zero, `TryParseIPv4` fails. -/
theorem ipv4_bad_octet_rejected (g1 g2 g3 g4 : List Char)
    (hne1 : g1 ≠ []) (hne2 : g2 ≠ []) (hne3 : g3 ≠ []) (hne4 : g4 ≠ [])
    (hd1 : ∀ c ∈ g1, characterIsDigit c = true)
    (hd2 : ∀ c ∈ g2, characterIsDigit c = true)
    (hd3 : ∀ c ∈ g3, characterIsDigit c = true)
    (hd4 : ∀ c ∈ g4, characterIsDigit c = true)
    (hbad : ((g1.head? = some '0' ∧ 2 ≤ g1.length) ∨ 255 < decVal g1) ∨
            ((g2.head? = some '0' ∧ 2 ≤ g2.length) ∨ 255 < decVal g2) ∨
            ((g3.head? = some '0' ∧ 2 ≤ g3.length) ∨ 255 < decVal g3) ∨
            ((g4.head? = some '0' ∧ 2 ≤ g4.length) ∨ 255 < decVal g4)) :
    TryParseIPv4 (g1 ++ '.' :: (g2 ++ '.' :: (g3 ++ '.' :: g4))) = none := by
  have hnil : ∀ y, ([] : List Char).head? = some y → characterIsDigit y = false := by
    intro y hy
    cases hy
  rcases hc1 : tryCastUInt8 g1 with _ | n1
  · have := parseIPv4Octets_fail 3 0 g1 ('.' :: (g2 ++ '.' :: (g3 ++ '.' :: g4)))
      hne1 hd1 (fun y hy => by cases hy; exact characterIsDigit_punct.2.1) hc1
    rw [TryParseIPv4, this]
  · have s1 := parseIPv4Octets_step 2 0 g1 (g2 ++ '.' :: (g3 ++ '.' :: g4)) n1 hne1 hd1 hc1
    rcases hc2 : tryCastUInt8 g2 with _ | n2
    · have := parseIPv4Octets_fail 2 (((0 <<< 8) + n1) % 2 ^ 32) g2
        ('.' :: (g3 ++ '.' :: g4)) hne2 hd2
        (fun y hy => by cases hy; exact characterIsDigit_punct.2.1) hc2
      rw [TryParseIPv4, s1, this]
    · have s2 := parseIPv4Octets_step 1 (((0 <<< 8) + n1) % 2 ^ 32) g2
        (g3 ++ '.' :: g4) n2 hne2 hd2 hc2
      rcases hc3 : tryCastUInt8 g3 with _ | n3
      · have := parseIPv4Octets_fail 1 ((((((0 <<< 8) + n1) % 2 ^ 32) <<< 8) + n2) % 2 ^ 32)
          g3 ('.' :: g4) hne3 hd3
          (fun y hy => by cases hy; exact characterIsDigit_punct.2.1) hc3
        rw [TryParseIPv4, s1, s2, this]
      · have s3 := parseIPv4Octets_step 0 ((((((0 <<< 8) + n1) % 2 ^ 32) <<< 8) + n2) % 2 ^ 32)
          g3 g4 n3 hne3 hd3 hc3
        rcases hc4 : tryCastUInt8 g4 with _ | n4
        · rw [TryParseIPv4, s1, s2, s3]
          have := parseIPv4Octets_fail 0
            (((((((((0 <<< 8) + n1) % 2 ^ 32) <<< 8) + n2) % 2 ^ 32) <<< 8) + n3) % 2 ^ 32)
            g4 [] hne4 hd4 hnil hc4
          rw [show g4 ++ ([] : List Char) = g4 from by simp] at this
          rw [this]
        · exfalso
          rcases hbad with hb | hb | hb | hb
          · rw [tryCastUInt8_none_of_bad hb] at hc1
            cases hc1
          · rw [tryCastUInt8_none_of_bad hb] at hc2
            cases hc2
          · rw [tryCastUInt8_none_of_bad hb] at hc3
            cases hc3
          · rw [tryCastUInt8_none_of_bad hb] at hc4
            cases hc4

/-- Witness for C8: `"01.2.3.4"` is rejected for its leading zero. -/
theorem ipv4_bad_octet_rejected_witness :
    TryParseIPv4 (['0', '1'] ++ '.' :: (['2'] ++ '.' :: (['3'] ++ '.' :: ['4']))) = none :=
  ipv4_bad_octet_rejected ['0', '1'] ['2'] ['3'] ['4']
    (by decide) (by decide) (by decide) (by decide)
    (by decide) (by decide) (by decide) (by decide)
    (Or.inl (Or.inl (by decide)))

/-! ## C5: the zero-run selection of the IPv6 formatter -/

theorem zeroRunStep_flag (st : Nat × Nat × Nat) (i q : Nat) :
    zeroRunStep st (i, zeroFlag q) = zeroRunStep st (i, q) := by
  by_cases h : q = 0 <;> simp [zeroFlag, zeroRunStep, h]

theorem zeroRunScan_flag : ∀ (qs : List Nat) (i : Nat) (st : Nat × Nat × Nat),
    zeroRunScan (qs.map zeroFlag) i st = zeroRunScan qs i st := by
  intro qs
  induction qs with
  | nil => intro i st; rfl
  | cons q qs ih =>
    intro i st
    simp only [List.map_cons, zeroRunScan, zeroRunStep_flag]
    exact ih _ _

theorem zeroRunOf_flag (qs : List Nat) :
    zeroRunOf (qs.map zeroFlag) = zeroRunOf qs := by
  unfold zeroRunOf
  rw [zeroRunScan_flag]

theorem isZeroWindow_flag (qs : List Nat) (s l : Nat) :
    isZeroWindow (qs.map zeroFlag) s l = isZeroWindow qs s l := by
  unfold isZeroWindow
  congr 1
  funext j
  rw [List.getD_eq_getElem?_getD, List.getD_eq_getElem?_getD, List.getElem?_map]
  rcases qs[s + j]? with _ | q
  · rfl
  · by_cases h : q = 0 <;> simp [zeroFlag, h]

theorem specZeroRun_flag (qs : List Nat) :
    specZeroRun (qs.map zeroFlag) = specZeroRun qs := by
  unfold specZeroRun
  simp only [List.length_map, isZeroWindow_flag]

theorem isZeroWindow_iff {qs : List Nat} {s l : Nat} :
    isZeroWindow qs s l = true ↔ ∀ j, j < l → qs.getD (s + j) 1 = 0 := by
  unfold isZeroWindow
  simp [List.all_eq_true, List.mem_range]

/-- The code's zero-run selection coincides with the spec's on all
eight-quibble lists: the longest run of at least two consecutive zero
quibbles, the left-most on ties. -/
theorem zeroRunOf_eq_specZeroRun :
    ∀ qs : List Nat, qs.length = 8 → zeroRunOf qs = specZeroRun qs := by
  intro qs hlen
  rw [← zeroRunOf_flag, ← specZeroRun_flag]
  rcases qs with _ | ⟨q0, qs⟩; · simp at hlen
  rcases qs with _ | ⟨q1, qs⟩; · simp at hlen
  rcases qs with _ | ⟨q2, qs⟩; · simp at hlen
  rcases qs with _ | ⟨q3, qs⟩; · simp at hlen
  rcases qs with _ | ⟨q4, qs⟩; · simp at hlen
  rcases qs with _ | ⟨q5, qs⟩; · simp at hlen
  rcases qs with _ | ⟨q6, qs⟩; · simp at hlen
  rcases qs with _ | ⟨q7, qs⟩; · simp at hlen
  rcases qs with _ | ⟨q8, qs⟩
  · simp only [List.map_cons, List.map_nil]
    by_cases h0 : q0 = 0 <;> by_cases h1 : q1 = 0 <;> by_cases h2 : q2 = 0 <;>
      by_cases h3 : q3 = 0 <;> by_cases h4 : q4 = 0 <;> by_cases h5 : q5 = 0 <;>
      by_cases h6 : q6 = 0 <;> by_cases h7 : q7 = 0 <;>
      simp only [zeroFlag, h0, h1, h2, h3, h4, h5, h6, h7, if_true, if_false,
        if_pos, if_neg, not_false_iff] <;>
      decide
  · simp at hlen

/-- Any qualifying result of the spec's search is a genuine zero window
of length at least 2 inside the list. -/
theorem specZeroRun_props (qs : List Nat) :
    specZeroRun qs = (0, 0) ∨
      (2 ≤ (specZeroRun qs).2 ∧ (specZeroRun qs).1 + (specZeroRun qs).2 ≤ qs.length ∧
        isZeroWindow qs (specZeroRun qs).1 (specZeroRun qs).2 = true) := by
  have hfold : ∀ (l : List (Nat × Nat))
      (hP : ∀ c ∈ l, 2 ≤ c.2 ∧ c.1 + c.2 ≤ qs.length ∧ isZeroWindow qs c.1 c.2 = true)
      (acc : Nat × Nat)
      (hacc : acc = (0, 0) ∨ (2 ≤ acc.2 ∧ acc.1 + acc.2 ≤ qs.length ∧
        isZeroWindow qs acc.1 acc.2 = true)),
      l.foldl (fun best c => if best.2 < c.2 then c else best) acc = (0, 0) ∨
        (2 ≤ (l.foldl (fun best c => if best.2 < c.2 then c else best) acc).2 ∧
          (l.foldl (fun best c => if best.2 < c.2 then c else best) acc).1 +
            (l.foldl (fun best c => if best.2 < c.2 then c else best) acc).2 ≤ qs.length ∧
          isZeroWindow qs (l.foldl (fun best c => if best.2 < c.2 then c else best) acc).1
            (l.foldl (fun best c => if best.2 < c.2 then c else best) acc).2 = true) := by
    intro l
    induction l with
    | nil => intro _ acc hacc; exact hacc
    | cons c l ih =>
      intro hP acc hacc
      simp only [List.foldl_cons]
      apply ih (fun d hd => hP d (List.mem_cons_of_mem _ hd))
      by_cases hlt : acc.2 < c.2
      · rw [if_pos hlt]
        exact Or.inr (hP c (List.mem_cons_self ..))
      · rw [if_neg hlt]
        exact hacc
  unfold specZeroRun
  apply hfold
  · intro c hc
    rw [List.mem_flatMap] at hc
    obtain ⟨s, -, hc⟩ := hc
    rw [List.mem_filterMap] at hc
    obtain ⟨l, -, hc⟩ := hc
    by_cases hcond : 2 ≤ l ∧ s + l ≤ qs.length ∧ isZeroWindow qs s l = true
    · rw [if_pos hcond] at hc
      cases hc
      exact hcond
    · rw [if_neg hcond] at hc
      cases hc
  · exact Or.inl rfl

/-- The zero run the code selects is a genuine zero window: at least 2
long, within the eight quibbles, all its quibbles zero (unless no run
qualified, in which case it is `(0, 0)`). -/
theorem zeroRunOf_props (qs : List Nat) (hlen : qs.length = 8) :
    zeroRunOf qs = (0, 0) ∨
      (2 ≤ (zeroRunOf qs).2 ∧ (zeroRunOf qs).1 + (zeroRunOf qs).2 ≤ 8 ∧
        ∀ j, j < (zeroRunOf qs).2 → qs.getD ((zeroRunOf qs).1 + j) 1 = 0) := by
  rw [zeroRunOf_eq_specZeroRun qs hlen]
  rcases specZeroRun_props qs with h | ⟨h2, h8, hw⟩
  · exact Or.inl h
  · refine Or.inr ⟨h2, by omega, ?_⟩
    exact fun j hj => isZeroWindow_iff.mp hw j hj

/-- C5: the IPv6 formatter's zero-run choice equals the spec's
(longest run, minimum length 2, left-most on ties) on every
eight-quibble list; in particular
`"2001:0db8:0000:0000:0000:cef3:0035:0363"` formats to
`"2001:db8::cef3:35:363"`, and `"0:0:1:0:0:2:0:0"` compresses the
first zero pair. -/
theorem ipv6_zero_run_compression :
    (∀ qs : List Nat, qs.length = 8 → zeroRunOf qs = specZeroRun qs) ∧
    (TryParse "2001:0db8:0000:0000:0000:cef3:0035:0363".toList).bind ToString
      = some "2001:db8::cef3:35:363".toList ∧
    (TryParse "0:0:1:0:0:2:0:0".toList).bind ToString
      = some "::1:0:0:2:0:0".toList :=
  ⟨zeroRunOf_eq_specZeroRun, rfl, rfl⟩

/-- Witness for C5 at a concrete quibble list. -/
theorem ipv6_zero_run_compression_witness :
    zeroRunOf [0, 0, 1, 0, 0, 2, 0, 0] = specZeroRun [0, 0, 1, 0, 0, 2, 0, 0] :=
  ipv6_zero_run_compression.1 [0, 0, 1, 0, 0, 2, 0, 0] (by decide)

/-! ## Unfolding the IPv6 render loop -/

theorem renderV6_stop {a zs ze fuel i : Nat} (hi : 8 ≤ i) :
    renderV6 a zs ze fuel i = [] := by
  cases fuel with
  | zero => rfl
  | succ fuel =>
    rw [renderV6]
    rw [if_pos (by simpa [IPV6_NUM_QUIBBLE] using hi)]

theorem renderV6_in_run {a zs ze fuel i : Nat} (hi : i < 8)
    (h1 : i < ze) (h2 : zs ≤ i) :
    renderV6 a zs ze (fuel + 1) i =
      (if 0 < i then [':'] else []) ++ (if i = 0 then [':'] else []) ++
      (if ze - 1 = 7 then [':'] else []) ++ renderV6 a zs ze fuel ze := by
  rw [renderV6]
  rw [if_neg (by simp [IPV6_NUM_QUIBBLE]; omega), if_pos ⟨h1, h2⟩]
  dsimp only
  simp [IPV6_NUM_QUIBBLE]

theorem renderV6_embedded {a ze fuel : Nat}
    (hcond : (ze = 6 ∧ quibbleAt a 7 ≠ 1) ∨
      (ze = 5 ∧ quibbleAt a 5 = 0xFFFF) ∨
      (ze = 4 ∧ quibbleAt a 4 = 0xFFFF ∧ quibbleAt a 5 = 0)) (hze : ze ≤ 6) :
    renderV6 a 0 ze (fuel + 1) 6 =
      ':' :: ToStringIPv4 (a &&& 0xFFFFFFFF) IPV4_DEFAULT_MASK := by
  rw [renderV6]
  rw [if_neg (by simp [IPV6_NUM_QUIBBLE])]
  rw [if_neg (by omega), if_pos ⟨rfl, rfl, hcond⟩]
  simp

theorem renderV6_quibble {a zs ze fuel i : Nat} (hi : i < 8)
    (hrun : ¬ (i < ze ∧ zs ≤ i))
    (hemb : ¬ (i = 6 ∧ zs = 0 ∧
      ((ze = 6 ∧ quibbleAt a 7 ≠ 1) ∨
       (ze = 5 ∧ quibbleAt a 5 = 0xFFFF) ∨
       (ze = 4 ∧ quibbleAt a 4 = 0xFFFF ∧ quibbleAt a 5 = 0)))) :
    renderV6 a zs ze (fuel + 1) i =
      (if 0 < i then [':'] else []) ++ natToHex (quibbleAt a i) ++
        renderV6 a zs ze fuel (i + 1) := by
  rw [renderV6]
  rw [if_neg (by simp [IPV6_NUM_QUIBBLE]; omega), if_neg hrun, if_neg hemb]

theorem range8_map (f : Nat → Nat) :
    (List.range 8).map f = [f 0, f 1, f 2, f 3, f 4, f 5, f 6, f 7] := by
  rfl

theorem ToStringIPv6_def (v : IPAddress) :
    ToStringIPv6 v =
      renderV6 v.address (zeroRunOf ((List.range 8).map (quibbleAt v.address))).1
        ((zeroRunOf ((List.range 8).map (quibbleAt v.address))).1 +
          (zeroRunOf ((List.range 8).map (quibbleAt v.address))).2) 8 0 ++
      (if v.mask ≠ 128 then '/' :: natToDec v.mask else []) := by
  unfold ToStringIPv6
  simp only [IPV6_NUM_QUIBBLE, IPV6_DEFAULT_MASK]

theorem quibbleAt_eq_zero_of_lt {a i : Nat} (h : a < 2 ^ ((7 - i) * 16)) :
    quibbleAt a i = 0 := by
  unfold quibbleAt
  simp only [IPV6_NUM_QUIBBLE, IPV6_QUIBBLE_BITS]
  rw [show 8 - 1 - i = 7 - i from by omega, Nat.shiftRight_eq_div_pow,
    Nat.div_eq_of_lt h]
  rfl

/-! ## C6: the embedded-IPv4 rendering forms -/

theorem zeroRunOf_deprecated {q6 q7 : Nat} (h6 : q6 ≠ 0) :
    zeroRunOf [0, 0, 0, 0, 0, 0, q6, q7] = (0, 6) := by
  rw [← zeroRunOf_flag]
  by_cases h7 : q7 = 0 <;> simp only [List.map_cons, List.map_nil, zeroFlag, h6, h7,
    if_true, if_false, if_pos, if_neg, not_false_iff] <;> decide

theorem zeroRunOf_mapped (q6 q7 : Nat) :
    zeroRunOf [0, 0, 0, 0, 0, 0xFFFF, q6, q7] = (0, 5) := by
  rw [← zeroRunOf_flag]
  by_cases h6 : q6 = 0 <;> by_cases h7 : q7 = 0 <;>
    simp only [List.map_cons, List.map_nil, zeroFlag, h6, h7,
      if_true, if_false, if_pos, if_neg, not_false_iff] <;> decide

theorem zeroRunOf_translated (q6 q7 : Nat) :
    zeroRunOf [0, 0, 0, 0, 0xFFFF, 0, q6, q7] = (0, 4) := by
  rw [← zeroRunOf_flag]
  by_cases h6 : q6 = 0 <;> by_cases h7 : q7 = 0 <;>
    simp only [List.map_cons, List.map_nil, zeroFlag, h6, h7,
      if_true, if_false, if_pos, if_neg, not_false_iff] <;> decide

theorem ToStringIPv6_deprecated {a mask : Nat} (ha : a < 2 ^ 32)
    (h6 : quibbleAt a 6 ≠ 0) (h7 : quibbleAt a 7 ≠ 1) :
    ToStringIPv6 ⟨IPAddressType.IP_ADDRESS_V6, a, mask⟩ =
      ':' :: ':' :: (ToStringIPv4 (a &&& 0xFFFFFFFF) IPV4_DEFAULT_MASK ++
        (if mask ≠ 128 then '/' :: natToDec mask else [])) := by
  have hq : (List.range 8).map (quibbleAt a) =
      [0, 0, 0, 0, 0, 0, quibbleAt a 6, quibbleAt a 7] := by
    rw [range8_map,
      quibbleAt_eq_zero_of_lt (i := 0) (lt_of_lt_of_le ha (by norm_num)),
      quibbleAt_eq_zero_of_lt (i := 1) (lt_of_lt_of_le ha (by norm_num)),
      quibbleAt_eq_zero_of_lt (i := 2) (lt_of_lt_of_le ha (by norm_num)),
      quibbleAt_eq_zero_of_lt (i := 3) (lt_of_lt_of_le ha (by norm_num)),
      quibbleAt_eq_zero_of_lt (i := 4) (lt_of_lt_of_le ha (by norm_num)),
      quibbleAt_eq_zero_of_lt (i := 5) (lt_of_lt_of_le ha (by norm_num))]
  rw [ToStringIPv6_def]
  dsimp only
  rw [hq, zeroRunOf_deprecated h6]
  norm_num
  rw [renderV6_in_run (by norm_num) (by norm_num) (by norm_num)]
  rw [renderV6_embedded (Or.inl ⟨rfl, h7⟩) (by norm_num)]
  norm_num

theorem ToStringIPv6_mapped {a mask : Nat} (ha : a < 2 ^ 48)
    (h5 : quibbleAt a 5 = 0xFFFF) :
    ToStringIPv6 ⟨IPAddressType.IP_ADDRESS_V6, a, mask⟩ =
      ':' :: ':' :: 'f' :: 'f' :: 'f' :: 'f' :: ':' ::
        (ToStringIPv4 (a &&& 0xFFFFFFFF) IPV4_DEFAULT_MASK ++
          (if mask ≠ 128 then '/' :: natToDec mask else [])) := by
  have hq : (List.range 8).map (quibbleAt a) =
      [0, 0, 0, 0, 0, 0xFFFF, quibbleAt a 6, quibbleAt a 7] := by
    rw [range8_map,
      quibbleAt_eq_zero_of_lt (i := 0) (lt_of_lt_of_le ha (by norm_num)),
      quibbleAt_eq_zero_of_lt (i := 1) (lt_of_lt_of_le ha (by norm_num)),
      quibbleAt_eq_zero_of_lt (i := 2) (lt_of_lt_of_le ha (by norm_num)),
      quibbleAt_eq_zero_of_lt (i := 3) (lt_of_lt_of_le ha (by norm_num)),
      quibbleAt_eq_zero_of_lt (i := 4) (lt_of_lt_of_le ha (by norm_num)), h5]
  rw [ToStringIPv6_def]
  dsimp only
  rw [hq, zeroRunOf_mapped]
  norm_num
  rw [renderV6_in_run (by norm_num) (by norm_num) (by norm_num)]
  rw [renderV6_quibble (a := a) (i := 5) (by norm_num) (by omega)
    (by rintro ⟨h, -⟩; omega)]
  rw [renderV6_embedded (Or.inr (Or.inl ⟨rfl, h5⟩)) (by norm_num)]
  rw [h5]
  norm_num
  rfl

theorem ToStringIPv6_translated {a mask : Nat} (ha : a < 2 ^ 64)
    (h4 : quibbleAt a 4 = 0xFFFF) (h5 : quibbleAt a 5 = 0) :
    ToStringIPv6 ⟨IPAddressType.IP_ADDRESS_V6, a, mask⟩ =
      ':' :: ':' :: 'f' :: 'f' :: 'f' :: 'f' :: ':' :: '0' :: ':' ::
        (ToStringIPv4 (a &&& 0xFFFFFFFF) IPV4_DEFAULT_MASK ++
          (if mask ≠ 128 then '/' :: natToDec mask else [])) := by
  have hq : (List.range 8).map (quibbleAt a) =
      [0, 0, 0, 0, 0xFFFF, 0, quibbleAt a 6, quibbleAt a 7] := by
    rw [range8_map,
      quibbleAt_eq_zero_of_lt (i := 0) (lt_of_lt_of_le ha (by norm_num)),
      quibbleAt_eq_zero_of_lt (i := 1) (lt_of_lt_of_le ha (by norm_num)),
      quibbleAt_eq_zero_of_lt (i := 2) (lt_of_lt_of_le ha (by norm_num)),
      quibbleAt_eq_zero_of_lt (i := 3) (lt_of_lt_of_le ha (by norm_num)), h4, h5]
  rw [ToStringIPv6_def]
  dsimp only
  rw [hq, zeroRunOf_translated]
  norm_num
  rw [renderV6_in_run (by norm_num) (by norm_num) (by norm_num)]
  rw [renderV6_quibble (a := a) (i := 4) (by norm_num) (by omega)
    (by rintro ⟨h, -⟩; omega)]
  rw [renderV6_quibble (a := a) (i := 5) (by norm_num) (by omega)
    (by rintro ⟨h, -⟩; omega)]
  rw [renderV6_embedded (Or.inr (Or.inr ⟨rfl, h4, h5⟩)) (by norm_num)]
  rw [h4, h5]
  norm_num
  rfl

theorem ToStringIPv6_loopback (mask : Nat) :
    ToStringIPv6 ⟨IPAddressType.IP_ADDRESS_V6, 1, mask⟩ =
      ':' :: ':' :: '1' :: (if mask ≠ 128 then '/' :: natToDec mask else []) := by
  rw [ToStringIPv6_def]
  dsimp only
  rw [show zeroRunOf ((List.range 8).map (quibbleAt 1)) = (0, 7) from by decide]
  norm_num
  rw [show renderV6 1 0 7 8 0 = [':', ':', '1'] from by decide]
  simp

/-- Counterexample to C6 as stated: the magnitude `2` has all of its
upper 96 bits zero and is not `::1`, yet the formatter renders it as
`"::2"` — two hex quibble positions, not the dotted-decimal embedded
IPv4 form (the output contains no dot). -/
theorem embedded_ipv4_rendering_counterexample :
    ToString ⟨IPAddressType.IP_ADDRESS_V6, 2, 128⟩ = some "::2".toList ∧
    '.' ∉ "::2".toList :=
  ⟨rfl, by decide⟩

/-- C6 amended: the formatter renders the final 32 bits of an IPv6
address in dotted-decimal form exactly in these cases: the deprecated
IPv4-compatible form (upper 96 bits zero) additionally requires
quibble 6 to be nonzero and quibble 7 to differ from 1; the
IPv4-mapped marker (quibble 5 = `0xffff`, quibbles 0-4 zero); the
IPv4-translated marker (quibble 4 = `0xffff`, quibble 5 = 0, quibbles
0-3 zero).  `::1` itself always formats to `"::1"`. -/
theorem embedded_ipv4_rendering :
    (∀ a mask : Nat, a < 2 ^ 32 → quibbleAt a 6 ≠ 0 → quibbleAt a 7 ≠ 1 →
      ToString ⟨IPAddressType.IP_ADDRESS_V6, a, mask⟩ =
        some (':' :: ':' :: (ToStringIPv4 (a &&& 0xFFFFFFFF) IPV4_DEFAULT_MASK ++
          (if mask ≠ 128 then '/' :: natToDec mask else [])))) ∧
    (∀ a mask : Nat, a < 2 ^ 48 → quibbleAt a 5 = 0xFFFF →
      ToString ⟨IPAddressType.IP_ADDRESS_V6, a, mask⟩ =
        some (':' :: ':' :: 'f' :: 'f' :: 'f' :: 'f' :: ':' ::
          (ToStringIPv4 (a &&& 0xFFFFFFFF) IPV4_DEFAULT_MASK ++
            (if mask ≠ 128 then '/' :: natToDec mask else [])))) ∧
    (∀ a mask : Nat, a < 2 ^ 64 → quibbleAt a 4 = 0xFFFF → quibbleAt a 5 = 0 →
      ToString ⟨IPAddressType.IP_ADDRESS_V6, a, mask⟩ =
        some (':' :: ':' :: 'f' :: 'f' :: 'f' :: 'f' :: ':' :: '0' :: ':' ::
          (ToStringIPv4 (a &&& 0xFFFFFFFF) IPV4_DEFAULT_MASK ++
            (if mask ≠ 128 then '/' :: natToDec mask else [])))) ∧
    (∀ mask : Nat, ToString ⟨IPAddressType.IP_ADDRESS_V6, 1, mask⟩ =
        some (':' :: ':' :: '1' :: (if mask ≠ 128 then '/' :: natToDec mask else []))) := by
  refine ⟨?_, ?_, ?_, ?_⟩
  · intro a mask ha h6 h7
    simp only [ToString]
    rw [ToStringIPv6_deprecated ha h6 h7]
  · intro a mask ha h5
    simp only [ToString]
    rw [ToStringIPv6_mapped ha h5]
  · intro a mask ha h4 h5
    simp only [ToString]
    rw [ToStringIPv6_translated ha h4 h5]
  · intro mask
    simp only [ToString]
    rw [ToStringIPv6_loopback]

/-- Witness for the amended C6 at the deprecated form `::18.52.86.120`. -/
theorem embedded_ipv4_rendering_witness :
    ToString ⟨IPAddressType.IP_ADDRESS_V6, 0x12345678, 128⟩ =
      some (':' :: ':' :: (ToStringIPv4 (0x12345678 &&& 0xFFFFFFFF) IPV4_DEFAULT_MASK ++
        (if (128 : Nat) ≠ 128 then '/' :: natToDec 128 else []))) :=
  embedded_ipv4_rendering.1 0x12345678 128 (by norm_num) (by decide) (by decide)

/-! ## Fuel stability of the IPv6 scan loop -/

theorem length_dropWhile_le (p : Char → Bool) (s : List Char) :
    (s.dropWhile p).length ≤ s.length := by
  induction s with
  | nil => simp
  | cons x xs ih =>
    rw [List.dropWhile_cons]
    by_cases h : p x = true
    · simp only [h, if_true]
      simp only [List.length_cons]
      omega
    · simp [h]

theorem dropWhile_eq_or_lt (p : Char → Bool) (s : List Char) :
    s.dropWhile p = s ∨ (s.dropWhile p).length < s.length := by
  cases s with
  | nil => exact Or.inl rfl
  | cons x xs =>
    rw [List.dropWhile_cons]
    by_cases h : p x = true
    · right
      rw [if_pos h]
      have := length_dropWhile_le p xs
      simp only [List.length_cons]
      omega
    · left
      rw [if_neg h]

theorem v6Loop_fuel_eq :
    ∀ (n fuel fuel' : Nat) (s : List Char) (st : V6State),
      s.length ≤ n → s.length + 1 ≤ fuel → s.length + 1 ≤ fuel' →
      v6Loop fuel s st = v6Loop fuel' s st := by
  intro n
  induction n with
  | zero =>
    intro fuel fuel' s st hn hf hf'
    have hs : s = [] := List.length_eq_zero.mp (by omega)
    subst hs
    rcases fuel with _ | fuel
    · omega
    rcases fuel' with _ | fuel'
    · omega
    simp [v6Loop]
  | succ n ihn =>
    intro fuel fuel' s st hn hf hf'
    rcases fuel with _ | fuel
    · omega
    rcases fuel' with _ | fuel'
    · omega
    rw [v6Loop]
    conv_rhs => rw [v6Loop]
    by_cases hexit : s = [] ∨ IPV6_NUM_QUIBBLE ≤ st.parsed_quibble_count
    · rw [if_pos hexit, if_pos hexit]
    rw [if_neg hexit, if_neg hexit]
    push_neg at hexit
    obtain ⟨hs, -⟩ := hexit
    have hslen : 1 ≤ s.length := by
      cases s
      · exact absurd rfl hs
      · simp
    have hlens : (s.takeWhile characterIsHex).length +
        (s.dropWhile characterIsHex).length = s.length := by
      conv_rhs => rw [← List.takeWhile_append_dropWhile (p := characterIsHex) (l := s)]
      rw [List.length_append]
    dsimp only
    by_cases hql : 4 < (s.takeWhile characterIsHex).length
    · rw [if_pos hql, if_pos hql]
    rw [if_neg hql, if_neg hql]
    by_cases hdot : (s.dropWhile characterIsHex).head? = some '.'
    · rw [if_pos hdot, if_pos hdot]
      by_cases hguard : s.dropWhile (fun ch => characterIsDigit ch || ch = '.') ≠ [] ∧
          (s.dropWhile (fun ch => characterIsDigit ch || ch = '.')).head? ≠ some '/'
      · rw [if_pos hguard, if_pos hguard]
      rw [if_neg hguard, if_neg hguard]
      have hlt : (s.dropWhile (fun ch => characterIsDigit ch || ch = '.')).length < s.length := by
        rcases dropWhile_eq_or_lt (fun ch => characterIsDigit ch || ch = '.') s with heq | hlt
        · exfalso
          push_neg at hguard
          rw [heq] at hguard
          have hhead := hguard hs
          rcases s with _ | ⟨x, xs⟩
          · exact hs rfl
          · rw [List.head?_cons, Option.some.injEq] at hhead
            subst hhead
            rw [List.dropWhile_cons, if_neg (by decide)] at hdot
            rw [List.head?_cons, Option.some.injEq] at hdot
            cases hdot
        · exact hlt
      rcases htp : TryParseIPv4 (s.takeWhile fun ch => characterIsDigit ch || ch = '.')
        with _ | ipv4
      · rfl
      · dsimp only
        exact ihn fuel fuel' _ _ (by omega) (by omega) (by omega)
    rw [if_neg hdot, if_neg hdot]
    by_cases hbad : s.dropWhile characterIsHex ≠ [] ∧
        (s.dropWhile characterIsHex).head? ≠ some ':' ∧
        (s.dropWhile characterIsHex).head? ≠ some '/'
    · rw [if_pos hbad, if_pos hbad]
    rw [if_neg hbad, if_neg hbad]
    by_cases hdc : (s.dropWhile characterIsHex).head? = some ':' ∧
        (s.dropWhile characterIsHex).tail.head? = some ':'
    · rw [if_pos hdc, if_pos hdc]
      by_cases hfq : (if s.takeWhile characterIsHex ≠ []
          then st.addQuibble (s.takeWhile characterIsHex) else st).first_quibble_count ≠ none
      · rw [if_pos hfq, if_pos hfq]
      rw [if_neg hfq, if_neg hfq]
      by_cases h3 : (s.dropWhile characterIsHex).tail.tail.head? = some ':'
      · rw [if_pos h3, if_pos h3]
      rw [if_neg h3, if_neg h3]
      have hlen2 : (s.dropWhile characterIsHex).tail.tail.length + 2 ≤ s.length := by
        obtain ⟨hh1, hh2⟩ := hdc
        rcases hrest : s.dropWhile characterIsHex with _ | ⟨y, ys⟩
        · rw [hrest] at hh1
          simp at hh1
        · rcases ys with _ | ⟨z, zs⟩
          · rw [hrest] at hh2
            simp at hh2
          · rw [hrest] at hlens
            simp only [List.tail_cons, List.length_cons] at hlens ⊢
            omega
      exact ihn fuel fuel' _ _ (by omega) (by omega) (by omega)
    rw [if_neg hdc, if_neg hdc]
    by_cases hmask : (s.dropWhile characterIsHex).head? = some '/'
    · rw [if_pos hmask, if_pos hmask]
    rw [if_neg hmask, if_neg hmask]
    have hlen1 : (s.dropWhile characterIsHex).tail.length + 1 ≤ s.length := by
      rcases hrest : s.dropWhile characterIsHex with _ | ⟨y, ys⟩
      · simp only [List.tail_nil, List.length_nil]
        omega
      · rw [hrest] at hlens
        simp only [List.tail_cons, List.length_cons] at hlens ⊢
        omega
    exact ihn fuel fuel' _ _ (by omega) (by omega) (by omega)

theorem v6Loop_eq_run {fuel : Nat} {s : List Char} {st : V6State}
    (h : s.length + 1 ≤ fuel) :
    v6Loop fuel s st = v6Run s st :=
  v6Loop_fuel_eq s.length fuel (s.length + 1) s st le_rfl h le_rfl

/-! ## Facts about the hex rendering -/

theorem natToHex_ne_nil (n : Nat) : natToHex n ≠ [] :=
  (natDigitsCore_spec (by norm_num) (by norm_num) (n + 1) n (by omega)).1

theorem natToHex_digitChars (n : Nat) :
    ∀ c ∈ natToHex n, ∃ d, d < 16 ∧ c = Nat.digitChar d :=
  (natDigitsCore_spec (by norm_num) (by norm_num) (n + 1) n (by omega)).2.1

theorem natToHex_hex (n : Nat) : ∀ c ∈ natToHex n, characterIsHex c = true := by
  intro c hc
  obtain ⟨d, hd, rfl⟩ := natToHex_digitChars n c hc
  exact characterIsHex_digitChar d hd

theorem natToHex_length_le {q : Nat} (h : q < 2 ^ 16) : (natToHex q).length ≤ 4 :=
  natDigitsCore_length (by norm_num) (q + 1) q 4 (by omega) (by norm_num at h ⊢; omega)
    (by norm_num)

theorem natToHex_not_punct (n : Nat) :
    ∀ c ∈ natToHex n, c ≠ ':' ∧ c ≠ '.' ∧ c ≠ '/' := by
  intro c hc
  obtain ⟨d, hd, rfl⟩ := natToHex_digitChars n c hc
  exact digitChar_ne_punct d hd

theorem dropWhile_eq_nil_of_all {p : Char → Bool} {l : List Char}
    (h : ∀ c ∈ l, p c = true) : l.dropWhile p = [] := by
  induction l with
  | nil => rfl
  | cons x xs ih =>
    rw [List.dropWhile_cons, if_pos (h x (List.mem_cons_self ..))]
    exact ih fun c hc => h c (List.mem_cons_of_mem _ hc)

/-! ## Stepping the IPv6 scan loop over rendered tokens -/

theorem v6Run_nil (st : V6State) : v6Run [] st = some (st, []) := rfl

theorem v6Run_parsed_full {s : List Char} {st : V6State}
    (h : 8 ≤ st.parsed_quibble_count) : v6Run s st = some (st, s) := by
  rw [v6Run, v6Loop, if_pos (Or.inr (by simpa [IPV6_NUM_QUIBBLE] using h))]

theorem v6Run_quibble_colon {q : Nat} {rest : List Char} {st : V6State}
    (hq : q < 2 ^ 16) (hp : st.parsed_quibble_count < 8)
    (hrest : rest.head? ≠ some ':') :
    v6Run (natToHex q ++ ':' :: rest) st =
      v6Run rest (st.addQuibble (natToHex q)) := by
  obtain ⟨ht, hd⟩ := @span_append characterIsHex _ (':' :: rest)
    (natToHex_hex q) (fun y hy => by cases hy; exact characterIsHex_punct.1)
  rw [v6Run, v6Loop]
  rw [if_neg (by
    rintro (habs | habs)
    · exact natToHex_ne_nil q (List.append_eq_nil.mp habs).1
    · simp [IPV6_NUM_QUIBBLE] at habs
      omega)]
  dsimp only
  rw [ht, hd]
  rw [if_neg (by
    have := natToHex_length_le hq
    omega)]
  rw [if_neg (by simp)]
  rw [if_neg (by
    rintro ⟨-, hcol, -⟩
    exact hcol rfl)]
  rw [if_pos (natToHex_ne_nil q)]
  rw [if_neg (by
    rintro ⟨-, habs⟩
    rw [List.tail_cons] at habs
    exact hrest habs)]
  rw [if_neg (by
    intro habs
    rw [List.head?_cons, Option.some.injEq] at habs
    cases habs)]
  rw [List.tail_cons]
  apply v6Loop_eq_run
  rw [List.length_append, List.length_cons]
  omega

theorem v6Run_quibble_end {q : Nat} {st : V6State}
    (hq : q < 2 ^ 16) (hp : st.parsed_quibble_count < 8) :
    v6Run (natToHex q) st = some (st.addQuibble (natToHex q), []) := by
  have hspan : (natToHex q).takeWhile characterIsHex = natToHex q ∧
      (natToHex q).dropWhile characterIsHex = [] := by
    constructor
    · exact List.takeWhile_eq_self_iff.mpr (natToHex_hex q)
    · exact dropWhile_eq_nil_of_all (natToHex_hex q)
  rw [v6Run, v6Loop]
  rw [if_neg (by
    rintro (habs | habs)
    · exact natToHex_ne_nil q habs
    · simp [IPV6_NUM_QUIBBLE] at habs
      omega)]
  dsimp only
  rw [hspan.1, hspan.2]
  rw [if_neg (by
    have := natToHex_length_le hq
    omega)]
  rw [if_neg (by simp)]
  rw [if_neg (by rintro ⟨habs, -⟩; exact habs rfl)]
  rw [if_pos (natToHex_ne_nil q)]
  rw [if_neg (by rintro ⟨habs, -⟩; cases habs)]
  rw [if_neg (by intro habs; cases habs)]
  rw [List.tail_nil]
  exact v6Loop_eq_run
    (by simpa using List.length_pos.mpr (natToHex_ne_nil q)) |>.trans (v6Run_nil _)

theorem addQuibble_parsed (st : V6State) (buf : List Char) :
    (st.addQuibble buf).parsed_quibble_count = st.parsed_quibble_count + 1 := by
  unfold V6State.addQuibble
  cases st.first_quibble_count <;> rfl

theorem addQuibble_fq (st : V6State) (buf : List Char) :
    (st.addQuibble buf).first_quibble_count = st.first_quibble_count := by
  unfold V6State.addQuibble
  cases st.first_quibble_count <;> rfl

theorem addQuibble_mask (st : V6State) (buf : List Char) :
    (st.addQuibble buf).mask = st.mask := by
  unfold V6State.addQuibble
  cases st.first_quibble_count <;> rfl

theorem addEmbeddedIPv4_parsed (st : V6State) (w : Nat) :
    (st.addEmbeddedIPv4 w).parsed_quibble_count = st.parsed_quibble_count + 2 := by
  unfold V6State.addEmbeddedIPv4
  cases st.first_quibble_count <;> rfl

theorem addEmbeddedIPv4_fq (st : V6State) (w : Nat) :
    (st.addEmbeddedIPv4 w).first_quibble_count = st.first_quibble_count := by
  unfold V6State.addEmbeddedIPv4
  cases st.first_quibble_count <;> rfl

theorem addEmbeddedIPv4_mask (st : V6State) (w : Nat) :
    (st.addEmbeddedIPv4 w).mask = st.mask := by
  unfold V6State.addEmbeddedIPv4
  cases st.first_quibble_count <;> rfl

theorem v6Run_mask_start {m : Nat} {st : V6State}
    (hp : st.parsed_quibble_count < 8) (hm : m ≤ 128) :
    v6Run ('/' :: natToDec m) st = some ({ st with mask := m }, []) := by
  rw [v6Run, v6Loop]
  rw [if_neg (by
    rintro (habs | habs)
    · cases habs
    · simp [IPV6_NUM_QUIBBLE] at habs
      omega)]
  dsimp only
  rw [List.takeWhile_cons_of_neg (by decide), List.dropWhile_cons_of_neg (by decide)]
  rw [if_neg (by simp)]
  rw [if_neg (by intro habs; rw [List.head?_cons, Option.some.injEq] at habs; cases habs)]
  rw [if_neg (by rintro ⟨-, -, habs⟩; exact habs rfl)]
  rw [if_neg (show ¬(([] : List Char) ≠ []) from by simp)]
  rw [if_neg (by
    rintro ⟨habs, -⟩
    rw [List.head?_cons, Option.some.injEq] at habs
    cases habs)]
  rw [if_pos (show ('/' :: natToDec m).head? = some '/' from rfl)]
  rw [List.tail_cons]
  rw [List.takeWhile_eq_self_iff.mpr (natToDec_digits m)]
  rw [tryCastUInt8_natToDec (by omega)]
  dsimp only
  rw [if_neg (by simp [IPV6_DEFAULT_MASK]; omega)]
  rw [dropWhile_eq_nil_of_all (natToDec_digits m)]

theorem v6Run_quibble_mask {q m : Nat} {st : V6State}
    (hq : q < 2 ^ 16) (hp : st.parsed_quibble_count < 8) (hm : m ≤ 128) :
    v6Run (natToHex q ++ '/' :: natToDec m) st =
      some ({ st.addQuibble (natToHex q) with mask := m }, []) := by
  obtain ⟨ht, hd⟩ := @span_append characterIsHex _ ('/' :: natToDec m)
    (natToHex_hex q) (fun y hy => by cases hy; exact characterIsHex_punct.2.2)
  rw [v6Run, v6Loop]
  rw [if_neg (by
    rintro (habs | habs)
    · exact natToHex_ne_nil q (List.append_eq_nil.mp habs).1
    · simp [IPV6_NUM_QUIBBLE] at habs
      omega)]
  dsimp only
  rw [ht, hd]
  rw [if_neg (by
    have := natToHex_length_le hq
    omega)]
  rw [if_neg (by simp)]
  rw [if_neg (by rintro ⟨-, -, habs⟩; exact habs rfl)]
  rw [if_pos (natToHex_ne_nil q)]
  rw [if_neg (by
    rintro ⟨habs, -⟩
    rw [List.head?_cons, Option.some.injEq] at habs
    cases habs)]
  rw [if_pos (show ('/' :: natToDec m).head? = some '/' from rfl)]
  rw [List.tail_cons]
  rw [List.takeWhile_eq_self_iff.mpr (natToDec_digits m)]
  rw [tryCastUInt8_natToDec (by omega)]
  dsimp only
  rw [if_neg (by simp [IPV6_DEFAULT_MASK]; omega)]
  rw [dropWhile_eq_nil_of_all (natToDec_digits m)]

theorem v6Run_dc {q : Nat} {rest : List Char} {st : V6State}
    (hq : q < 2 ^ 16) (hp : st.parsed_quibble_count < 8)
    (hfq : st.first_quibble_count = none) (hrest : rest.head? ≠ some ':') :
    v6Run (natToHex q ++ ':' :: ':' :: rest) st =
      v6Run rest { st.addQuibble (natToHex q) with
        first_quibble_count := some (st.parsed_quibble_count + 1) } := by
  obtain ⟨ht, hd⟩ := @span_append characterIsHex _ (':' :: ':' :: rest)
    (natToHex_hex q) (fun y hy => by cases hy; exact characterIsHex_punct.1)
  rw [v6Run, v6Loop]
  rw [if_neg (by
    rintro (habs | habs)
    · exact natToHex_ne_nil q (List.append_eq_nil.mp habs).1
    · simp [IPV6_NUM_QUIBBLE] at habs
      omega)]
  dsimp only
  rw [ht, hd]
  rw [if_neg (by
    have := natToHex_length_le hq
    omega)]
  rw [if_neg (by simp)]
  rw [if_neg (by rintro ⟨-, habs, -⟩; exact habs rfl)]
  rw [if_pos (natToHex_ne_nil q)]
  rw [if_pos (show (':' :: ':' :: rest).head? = some ':' ∧
    (':' :: ':' :: rest).tail.head? = some ':' from ⟨rfl, rfl⟩)]
  rw [if_neg (show ¬((st.addQuibble (natToHex q)).first_quibble_count ≠ none) from by
    rw [addQuibble_fq, hfq]
    simp)]
  rw [List.tail_cons, List.tail_cons]
  rw [if_neg hrest]
  rw [addQuibble_parsed]
  apply v6Loop_eq_run
  rw [List.length_append]
  simp only [List.length_cons]
  omega

theorem v6Run_dc_start {rest : List Char} {st : V6State}
    (hp : st.parsed_quibble_count < 8)
    (hfq : st.first_quibble_count = none) (hrest : rest.head? ≠ some ':') :
    v6Run (':' :: ':' :: rest) st =
      v6Run rest { st with first_quibble_count := some st.parsed_quibble_count } := by
  rw [v6Run, v6Loop]
  rw [if_neg (by
    rintro (habs | habs)
    · cases habs
    · simp [IPV6_NUM_QUIBBLE] at habs
      omega)]
  dsimp only
  rw [List.takeWhile_cons_of_neg (by decide), List.dropWhile_cons_of_neg (by decide)]
  rw [if_neg (by simp)]
  rw [if_neg (by intro habs; rw [List.head?_cons, Option.some.injEq] at habs; cases habs)]
  rw [if_neg (by rintro ⟨-, habs, -⟩; exact habs rfl)]
  rw [if_neg (show ¬(([] : List Char) ≠ []) from by simp)]
  rw [if_pos (show (':' :: ':' :: rest).head? = some ':' ∧
    (':' :: ':' :: rest).tail.head? = some ':' from ⟨rfl, rfl⟩)]
  rw [if_neg (show ¬(st.first_quibble_count ≠ none) from by
    rw [hfq]
    simp)]
  rw [List.tail_cons, List.tail_cons]
  rw [if_neg hrest]
  apply v6Loop_eq_run
  simp only [List.length_cons]
  omega

theorem natToDec_length_le {n k : Nat} (h : n < 10 ^ k) (hk : 0 < k) :
    (natToDec n).length ≤ k :=
  natDigitsCore_length (by norm_num) (n + 1) n k (by omega) h hk

theorem ToStringIPv4_digitOrDot (w : Nat) :
    ∀ c ∈ ToStringIPv4 w 32, (characterIsDigit c || c = '.') = true := by
  intro c hc
  rw [ToStringIPv4_eq] at hc
  rw [if_neg (by simp [IPV4_DEFAULT_MASK])] at hc
  simp only [List.mem_append, List.mem_cons, List.append_nil] at hc
  rcases hc with hc | rfl | hc | rfl | hc | rfl | hc
  · rw [natToDec_digits _ c hc]; rfl
  · decide
  · rw [natToDec_digits _ c hc]; rfl
  · decide
  · rw [natToDec_digits _ c hc]; rfl
  · decide
  · rw [natToDec_digits _ c hc]; rfl

theorem v6Run_embedded {w : Nat} {suf : List Char} {st : V6State}
    (hw : w < 2 ^ 32) (hp : st.parsed_quibble_count < 8)
    (hsuf : suf = [] ∨ suf.head? = some '/') :
    v6Run (ToStringIPv4 w 32 ++ suf) st = v6Run suf (st.addEmbeddedIPv4 w) := by
  have h1 : ToStringIPv4 w 32 ++ suf
      = natToDec ((w >>> 24) &&& 0xFF) ++ '.' ::
        (natToDec ((w >>> 16) &&& 0xFF) ++ '.' ::
          (natToDec ((w >>> 8) &&& 0xFF) ++ '.' ::
            (natToDec (w &&& 0xFF) ++ suf))) := by
    rw [ToStringIPv4_eq]
    simp [IPV4_DEFAULT_MASK, List.cons_append, List.append_assoc]
  obtain ⟨htq, hdq⟩ := @span_append (fun ch => characterIsDigit ch || ch = '.')
    (ToStringIPv4 w 32) suf
    (ToStringIPv4_digitOrDot w) (fun y hy => by
      rcases hsuf with hnil | hs
      · rw [hnil, List.head?_nil] at hy
        cases hy
      · rw [hs, Option.some.injEq] at hy
        subst hy
        decide)
  rw [h1] at htq hdq
  obtain ⟨hth, hdh⟩ := @span_append characterIsHex _
    ('.' :: (natToDec ((w >>> 16) &&& 0xFF) ++ '.' ::
      (natToDec ((w >>> 8) &&& 0xFF) ++ '.' ::
        (natToDec (w &&& 0xFF) ++ suf))))
    (natToDec_hex ((w >>> 24) &&& 0xFF))
    (fun y hy => by cases hy; exact characterIsHex_punct.2.1)
  rw [v6Run, v6Loop, h1]
  rw [if_neg (by
    rintro (habs | habs)
    · exact natToDec_ne_nil _ (List.append_eq_nil.mp habs).1
    · simp [IPV6_NUM_QUIBBLE] at habs
      omega)]
  dsimp only
  rw [hth, hdh]
  rw [if_neg (by
    have hle : (natToDec ((w >>> 24) &&& 0xFF)).length ≤ 3 :=
      natToDec_length_le (by have := octet_le (w >>> 24); norm_num; omega) (by norm_num)
    omega)]
  rw [if_pos List.head?_cons]
  rw [htq, hdq]
  rw [if_neg (by
    rintro ⟨hne, hns⟩
    rcases hsuf with rfl | hs
    · exact hne rfl
    · exact hns hs)]
  rw [TryParseIPv4_ToStringIPv4 hw (by norm_num)]
  dsimp only
  apply v6Loop_eq_run
  simp only [List.length_append, List.length_cons]
  omega

/-! ## Quibble arithmetic -/

theorem quibbleAt_eq_mod (a i : Nat) :
    quibbleAt a i = (a >>> ((7 - i) * 16)) % 2 ^ 16 := by
  unfold quibbleAt
  simp only [IPV6_NUM_QUIBBLE, IPV6_QUIBBLE_BITS]
  rw [show (0xFFFF : Nat) = 2 ^ 16 - 1 from by norm_num,
    Nat.and_pow_two_sub_one_eq_mod,
    show 8 - 1 - i = 7 - i from by omega]

theorem quibbleAt_lt (a i : Nat) : quibbleAt a i < 2 ^ 16 := by
  rw [quibbleAt_eq_mod]
  exact Nat.mod_lt _ (by norm_num)

theorem foldl_hexmod_eq : ∀ (l : List Char) (a : Nat),
    (∀ c ∈ l, ∃ d, d < 16 ∧ c = Nat.digitChar d) →
    (a + 1) * 16 ^ l.length ≤ 2 ^ 16 →
    l.foldl (fun r ch => ((r <<< 4) + getHexValue ch) % 2 ^ 16) a
      = l.foldl (fun a c => a * 16 + getHexValue c) a := by
  intro l
  induction l with
  | nil => intro a _ _; rfl
  | cons c l ih =>
    intro a hdig hbound
    obtain ⟨d, hd, rfl⟩ := hdig c (List.mem_cons_self ..)
    simp only [List.foldl_cons]
    rw [List.length_cons, pow_succ] at hbound
    have hpow : 1 ≤ 16 ^ l.length := Nat.one_le_pow _ _ (by norm_num)
    have hstep : (a + 1) * 16 ≤ 2 ^ 16 := by nlinarith
    have hv : getHexValue (Nat.digitChar d) = d := getHexValue_digitChar d hd
    have hsh : a <<< 4 = a * 16 := by rw [Nat.shiftLeft_eq]
    have hlt : a * 16 + getHexValue (Nat.digitChar d) < 2 ^ 16 := by
      rw [hv]; omega
    rw [hsh, Nat.mod_eq_of_lt hlt]
    exact ih (a * 16 + getHexValue (Nat.digitChar d))
      (fun c hc => hdig c (List.mem_cons_of_mem _ hc))
      (by rw [hv]; nlinarith)

theorem hexFold_natToHex {q : Nat} (hq : q < 2 ^ 16) :
    (natToHex q).foldl (fun r ch => ((r <<< 4) + getHexValue ch) % 2 ^ 16) 0 = q := by
  have hlen : (natToHex q).length ≤ 4 := natToHex_length_le hq
  rw [foldl_hexmod_eq _ 0 (natToHex_digitChars q) (by
    have : (16 : Nat) ^ (natToHex q).length ≤ 16 ^ 4 :=
      Nat.pow_le_pow_right (by norm_num) hlen
    norm_num at this ⊢
    omega)]
  have := (natDigitsCore_spec (b := 16) (by norm_num) (by norm_num) (q + 1) q
    (by omega)).2.2.2 0
  unfold natToHex
  rw [this]
  simp

theorem parseQuibble_natToHex {x q : Nat} (hq : q < 2 ^ 16) :
    parseQuibble x (natToHex q) = (x * 2 ^ 16 + q) % 2 ^ 128 := by
  unfold parseQuibble
  dsimp only
  rw [hexFold_natToHex hq, Nat.shiftLeft_eq]
  norm_num [IPV6_QUIBBLE_BITS]

theorem quibble_step_low {a : Nat} (ha : a < 2 ^ 128) {k w : Nat} (hk : k < 8) :
    (((a >>> ((8 - k) * 16)) % 2 ^ (w * 16)) * 2 ^ 16 + quibbleAt a k) % 2 ^ 128
      = (a >>> ((8 - (k + 1)) * 16)) % 2 ^ ((w + 1) * 16) := by
  have hsh : a >>> ((8 - k) * 16) = (a >>> ((7 - k) * 16)) / 2 ^ 16 := by
    rw [Nat.shiftRight_eq_div_pow, Nat.shiftRight_eq_div_pow,
      Nat.div_div_eq_div_mul, ← pow_add,
      show (7 - k) * 16 + 16 = (8 - k) * 16 from by omega]
  have hq : quibbleAt a k = (a >>> ((7 - k) * 16)) % 2 ^ 16 := quibbleAt_eq_mod a k
  rw [hsh, hq]
  have key : (a >>> ((7 - k) * 16)) / 2 ^ 16 % 2 ^ (w * 16) * 2 ^ 16
      + (a >>> ((7 - k) * 16)) % 2 ^ 16
      = (a >>> ((7 - k) * 16)) % 2 ^ ((w + 1) * 16) := by
    rw [show (2 : Nat) ^ ((w + 1) * 16) = 2 ^ 16 * 2 ^ (w * 16) from by
      rw [show (w + 1) * 16 = 16 + w * 16 from by omega, pow_add], Nat.mod_mul]
    ring
  rw [key]
  have hle : a >>> ((7 - k) * 16) ≤ a := by
    rw [Nat.shiftRight_eq_div_pow]
    exact Nat.div_le_self _ _
  rw [Nat.mod_eq_of_lt (lt_of_le_of_lt (le_trans (Nat.mod_le _ _) hle) ha),
    show (8 - (k + 1)) * 16 = (7 - k) * 16 from by omega]

theorem window_zero {a : Nat} (ha : a < 2 ^ 128) :
    ∀ (l s : Nat), s + l ≤ 8 → (∀ j, j < l → quibbleAt a (s + j) = 0) →
    (a >>> ((8 - (s + l)) * 16)) % 2 ^ (l * 16) = 0 := by
  intro l
  induction l with
  | zero =>
    intro s _ _
    simp
    omega
  | succ l ih =>
    intro s hs hz
    have hstep := quibble_step_low ha (k := s + l) (w := l) (by omega)
    have hq0 : quibbleAt a (s + l) = 0 := hz l (by omega)
    rw [show s + (l + 1) = s + l + 1 from rfl, ← hstep,
      ih s (by omega) (fun j hj => hz j (by omega)), hq0]
    norm_num

theorem shiftRight_lt_pow {a s : Nat} (ha : a < 2 ^ 128) (hs : s ≤ 128) :
    a >>> s < 2 ^ (128 - s) := by
  rw [Nat.shiftRight_eq_div_pow]
  apply Nat.div_lt_of_lt_mul
  calc a < 2 ^ 128 := ha
    _ = 2 ^ s * 2 ^ (128 - s) := by rw [← pow_add]; congr 1; omega

theorem high_zero_lt {a : Nat} (ha : a < 2 ^ 128) {ze : Nat} (hze : ze ≤ 8)
    (hz : ∀ j, j < ze → quibbleAt a j = 0) : a < 2 ^ ((8 - ze) * 16) := by
  have h0 := window_zero ha ze 0 (by omega) (by intro j hj; simpa using hz j hj)
  rw [show (0 : Nat) + ze = ze from by omega] at h0
  have hlt : a >>> ((8 - ze) * 16) < 2 ^ (ze * 16) := by
    have := shiftRight_lt_pow ha (s := (8 - ze) * 16) (by omega)
    rwa [show 128 - (8 - ze) * 16 = ze * 16 from by omega] at this
  have hz0 : a >>> ((8 - ze) * 16) = 0 := (Nat.mod_eq_of_lt hlt).symm.trans h0
  rw [Nat.shiftRight_eq_div_pow] at hz0
  have hp : 0 < 2 ^ ((8 - ze) * 16) := Nat.pos_pow_of_pos _ (by norm_num)
  exact (Nat.div_eq_zero_iff hp).mp hz0

theorem assemble_eq {a zs ze : Nat} (ha : a < 2 ^ 128) (hzs : zs ≤ ze) (hze : ze ≤ 8)
    (hz : ∀ j, j < ze - zs → quibbleAt a (zs + j) = 0) :
    ((a >>> ((8 - zs) * 16)) <<< ((8 - zs) * 16)) % 2 ^ 128 ||| a % 2 ^ ((8 - ze) * 16)
      = a := by
  have hw : (a >>> ((8 - ze) * 16)) % 2 ^ ((ze - zs) * 16) = 0 := by
    have := window_zero ha (ze - zs) zs (by omega) hz
    rwa [show zs + (ze - zs) = ze from by omega] at this
  rw [Nat.shiftRight_eq_div_pow] at hw
  have hmid : a % 2 ^ ((8 - zs) * 16) = a % 2 ^ ((8 - ze) * 16) := by
    rw [show (8 - zs) * 16 = (8 - ze) * 16 + (ze - zs) * 16 from by omega, pow_add,
      Nat.mod_mul, hw]
    simp
  have hsl : (a >>> ((8 - zs) * 16)) <<< ((8 - zs) * 16)
      = 2 ^ ((8 - zs) * 16) * (a / 2 ^ ((8 - zs) * 16)) := by
    rw [Nat.shiftRight_eq_div_pow, Nat.shiftLeft_eq]
    ring
  have hdm := Nat.div_add_mod a (2 ^ ((8 - zs) * 16))
  have hlea : 2 ^ ((8 - zs) * 16) * (a / 2 ^ ((8 - zs) * 16)) ≤ a := by omega
  rw [hsl, Nat.mod_eq_of_lt (lt_of_le_of_lt hlea ha), ← hmid,
    ← Nat.mul_add_lt_is_or (Nat.mod_lt _ (Nat.pos_pow_of_pos _ (by norm_num))) _]
  omega

/-! ## The scan state after a chain of quibbles -/

theorem addQuibble_first_of_none {st : V6State} (hfq : st.first_quibble_count = none)
    (buf : List Char) :
    (st.addQuibble buf).first_address = parseQuibble st.first_address buf := by
  unfold V6State.addQuibble
  rw [hfq]

theorem addQuibble_second_of_none {st : V6State} (hfq : st.first_quibble_count = none)
    (buf : List Char) :
    (st.addQuibble buf).second_address = st.second_address := by
  unfold V6State.addQuibble
  rw [hfq]

theorem addQuibble_first_of_some {st : V6State} {c : Nat}
    (hfq : st.first_quibble_count = some c) (buf : List Char) :
    (st.addQuibble buf).first_address = st.first_address := by
  unfold V6State.addQuibble
  rw [hfq]

theorem addQuibble_second_of_some {st : V6State} {c : Nat}
    (hfq : st.first_quibble_count = some c) (buf : List Char) :
    (st.addQuibble buf).second_address = parseQuibble st.second_address buf := by
  unfold V6State.addQuibble
  rw [hfq]

theorem stAfter_zero (a : Nat) (st : V6State) (i : Nat) : stAfter a st i 0 = st := rfl

theorem stAfter_succ (a : Nat) (st : V6State) (i n : Nat) :
    stAfter a st i (n + 1)
      = stAfter a (st.addQuibble (natToHex (quibbleAt a i))) (i + 1) n := rfl

theorem stAfter_parsed (a : Nat) :
    ∀ n i (st : V6State), (stAfter a st i n).parsed_quibble_count
      = st.parsed_quibble_count + n := by
  intro n
  induction n with
  | zero => intro i st; rfl
  | succ n ih =>
    intro i st
    rw [stAfter_succ, ih, addQuibble_parsed]
    omega

theorem stAfter_fq (a : Nat) :
    ∀ n i (st : V6State), (stAfter a st i n).first_quibble_count
      = st.first_quibble_count := by
  intro n
  induction n with
  | zero => intro i st; rfl
  | succ n ih =>
    intro i st
    rw [stAfter_succ, ih, addQuibble_fq]

theorem stAfter_mask (a : Nat) :
    ∀ n i (st : V6State), (stAfter a st i n).mask = st.mask := by
  intro n
  induction n with
  | zero => intro i st; rfl
  | succ n ih =>
    intro i st
    rw [stAfter_succ, ih, addQuibble_mask]

theorem stAfter_first {a : Nat} (ha : a < 2 ^ 128) :
    ∀ n i w (st : V6State), i + n ≤ 8 →
      st.first_quibble_count = none →
      st.first_address = (a >>> ((8 - i) * 16)) % 2 ^ (w * 16) →
      (stAfter a st i n).first_address
        = (a >>> ((8 - (i + n)) * 16)) % 2 ^ ((w + n) * 16) := by
  intro n
  induction n with
  | zero => intro i w st _ _ hf; exact hf
  | succ n ih =>
    intro i w st hin hfq hf
    rw [stAfter_succ,
      show i + (n + 1) = (i + 1) + n from by omega,
      show w + (n + 1) = (w + 1) + n from by omega]
    apply ih (i + 1) (w + 1) _ (by omega) (by rw [addQuibble_fq]; exact hfq)
    rw [addQuibble_first_of_none hfq, parseQuibble_natToHex (quibbleAt_lt a i), hf]
    exact quibble_step_low ha (by omega)

theorem stAfter_second {a : Nat} (ha : a < 2 ^ 128) {c : Nat} :
    ∀ n i w (st : V6State), i + n ≤ 8 →
      st.first_quibble_count = some c →
      st.second_address = (a >>> ((8 - i) * 16)) % 2 ^ (w * 16) →
      (stAfter a st i n).second_address
        = (a >>> ((8 - (i + n)) * 16)) % 2 ^ ((w + n) * 16) := by
  intro n
  induction n with
  | zero => intro i w st _ _ hf; exact hf
  | succ n ih =>
    intro i w st hin hfq hf
    rw [stAfter_succ,
      show i + (n + 1) = (i + 1) + n from by omega,
      show w + (n + 1) = (w + 1) + n from by omega]
    apply ih (i + 1) (w + 1) _ (by omega) (by rw [addQuibble_fq]; exact hfq)
    rw [addQuibble_second_of_some hfq, parseQuibble_natToHex (quibbleAt_lt a i), hf]
    exact quibble_step_low ha (by omega)

theorem stAfter_first_of_some {a : Nat} {c : Nat} :
    ∀ n i (st : V6State), st.first_quibble_count = some c →
      (stAfter a st i n).first_address = st.first_address := by
  intro n
  induction n with
  | zero => intro i st _; rfl
  | succ n ih =>
    intro i st hfq
    rw [stAfter_succ, ih (i + 1) _ (by rw [addQuibble_fq]; exact hfq),
      addQuibble_first_of_some hfq]

theorem stAfter_second_of_none {a : Nat} :
    ∀ n i (st : V6State), st.first_quibble_count = none →
      (stAfter a st i n).second_address = st.second_address := by
  intro n
  induction n with
  | zero => intro i st _; rfl
  | succ n ih =>
    intro i st hfq
    rw [stAfter_succ, ih (i + 1) _ (by rw [addQuibble_fq]; exact hfq),
      addQuibble_second_of_none hfq]

/-! ## Running the scan loop over chains of rendered quibbles -/

theorem head_ne_colon_of_natToHex (q : Nat) (r : List Char) :
    (natToHex q ++ r).head? ≠ some ':' := by
  cases hh : natToHex q with
  | nil => exact absurd hh (natToHex_ne_nil q)
  | cons c cs =>
    simp only [List.cons_append, List.head?_cons]
    intro habs
    rw [Option.some.injEq] at habs
    have hc : c ∈ natToHex q := by rw [hh]; exact List.mem_cons_self ..
    exact (natToHex_not_punct q c hc).1 habs

theorem hexCat_nil (a : Nat) : hexCat a [] = [] := rfl

theorem hexCat_cons (a i n : Nat) :
    hexCat a (List.range' i (n + 1))
      = ':' :: (natToHex (quibbleAt a i) ++ hexCat a (List.range' (i + 1) n)) := rfl

theorem v6Run_chain_end {a : Nat} :
    ∀ n i (st : V6State), 1 ≤ n → i + n ≤ 8 → st.parsed_quibble_count + n ≤ 8 →
    v6Run (natToHex (quibbleAt a i) ++ hexCat a (List.range' (i + 1) (n - 1))) st
      = some (stAfter a st i n, []) := by
  intro n
  induction n with
  | zero => intro i st h1 _ _; exact absurd h1 (by omega)
  | succ n ih =>
    intro i st h1 hin hp
    cases n with
    | zero =>
      rw [show hexCat a (List.range' (i + 1) (1 - 1)) = [] from rfl, List.append_nil]
      rw [v6Run_quibble_end (quibbleAt_lt a i) (by omega)]
      rfl
    | succ k =>
      rw [show hexCat a (List.range' (i + 1) (k + 1 + 1 - 1))
          = ':' :: (natToHex (quibbleAt a (i + 1)) ++ hexCat a (List.range' (i + 2) k))
          from rfl]
      rw [v6Run_quibble_colon (quibbleAt_lt a i) (by omega)
        (head_ne_colon_of_natToHex _ _)]
      have := ih (i + 1) (st.addQuibble (natToHex (quibbleAt a i))) (by omega) (by omega)
        (by rw [addQuibble_parsed]; omega)
      exact this

theorem v6Run_chain_mask {a m : Nat} (hm : m ≤ 128) :
    ∀ n i (st : V6State), 1 ≤ n → i + n ≤ 8 → st.parsed_quibble_count + n ≤ 8 →
    v6Run (natToHex (quibbleAt a i) ++ hexCat a (List.range' (i + 1) (n - 1))
        ++ '/' :: natToDec m) st
      = some ({ stAfter a st i n with mask := m }, []) := by
  intro n
  induction n with
  | zero => intro i st h1 _ _; exact absurd h1 (by omega)
  | succ n ih =>
    intro i st h1 hin hp
    cases n with
    | zero =>
      rw [show hexCat a (List.range' (i + 1) (1 - 1)) = [] from rfl, List.append_nil]
      rw [v6Run_quibble_mask (quibbleAt_lt a i) (by omega) hm]
      rfl
    | succ k =>
      rw [show hexCat a (List.range' (i + 1) (k + 1 + 1 - 1))
          = ':' :: (natToHex (quibbleAt a (i + 1)) ++ hexCat a (List.range' (i + 2) k))
          from rfl]
      rw [show natToHex (quibbleAt a i)
            ++ ':' :: (natToHex (quibbleAt a (i + 1)) ++ hexCat a (List.range' (i + 2) k))
            ++ '/' :: natToDec m
          = natToHex (quibbleAt a i)
            ++ ':' :: (natToHex (quibbleAt a (i + 1)) ++ hexCat a (List.range' (i + 2) k)
              ++ '/' :: natToDec m) from by
        simp only [List.cons_append, List.append_assoc]]
      rw [v6Run_quibble_colon (quibbleAt_lt a i) (by omega) (by
        rw [List.append_assoc]
        exact head_ne_colon_of_natToHex _ _)]
      have := ih (i + 1) (st.addQuibble (natToHex (quibbleAt a i))) (by omega) (by omega)
        (by rw [addQuibble_parsed]; omega)
      exact this

theorem v6Run_chain_dc {a : Nat} {rest : List Char} (hrest : rest.head? ≠ some ':') :
    ∀ n i (st : V6State), 1 ≤ n → i + n ≤ 8 → st.parsed_quibble_count + n ≤ 8 →
    st.first_quibble_count = none →
    v6Run (natToHex (quibbleAt a i) ++ hexCat a (List.range' (i + 1) (n - 1))
        ++ ':' :: ':' :: rest) st
      = v6Run rest { stAfter a st i n with
          first_quibble_count := some (st.parsed_quibble_count + n) } := by
  intro n
  induction n with
  | zero => intro i st h1 _ _ _; exact absurd h1 (by omega)
  | succ n ih =>
    intro i st h1 hin hp hfq
    cases n with
    | zero =>
      rw [show hexCat a (List.range' (i + 1) (1 - 1)) = [] from rfl, List.append_nil]
      rw [v6Run_dc (quibbleAt_lt a i) (by omega) hfq hrest]
      rfl
    | succ k =>
      rw [show hexCat a (List.range' (i + 1) (k + 1 + 1 - 1))
          = ':' :: (natToHex (quibbleAt a (i + 1)) ++ hexCat a (List.range' (i + 2) k))
          from rfl]
      rw [show natToHex (quibbleAt a i)
            ++ ':' :: (natToHex (quibbleAt a (i + 1)) ++ hexCat a (List.range' (i + 2) k))
            ++ ':' :: ':' :: rest
          = natToHex (quibbleAt a i)
            ++ ':' :: (natToHex (quibbleAt a (i + 1)) ++ hexCat a (List.range' (i + 2) k)
              ++ ':' :: ':' :: rest) from by
        simp only [List.cons_append, List.append_assoc]]
      rw [v6Run_quibble_colon (quibbleAt_lt a i) (by omega) (by
        rw [List.append_assoc]
        exact head_ne_colon_of_natToHex _ _)]
      have := ih (i + 1) (st.addQuibble (natToHex (quibbleAt a i))) (by omega) (by omega)
        (by rw [addQuibble_parsed]; omega) (by rw [addQuibble_fq]; exact hfq)
      rw [addQuibble_parsed] at this
      rw [show st.parsed_quibble_count + (k + 1 + 1)
          = st.parsed_quibble_count + 1 + (k + 1) from by omega]
      exact this

/-! ## Shapes of the rendered IPv6 string -/

theorem renderV6_suffix {a zs ze : Nat}
    (hC : ¬ (zs = 0 ∧ ((ze = 6 ∧ quibbleAt a 7 ≠ 1) ∨
       (ze = 5 ∧ quibbleAt a 5 = 0xFFFF) ∨
       (ze = 4 ∧ quibbleAt a 4 = 0xFFFF ∧ quibbleAt a 5 = 0)))) :
    ∀ fuel i, 0 < i → ze ≤ i → 8 ≤ i + fuel →
    renderV6 a zs ze fuel i = hexCat a (List.range' i (8 - i)) := by
  intro fuel
  induction fuel with
  | zero =>
    intro i h0 hze hf
    rw [show 8 - i = 0 from by omega]
    rfl
  | succ fuel ih =>
    intro i h0 hze hf
    by_cases hi8 : 8 ≤ i
    · rw [renderV6_stop hi8, show 8 - i = 0 from by omega]
      rfl
    · rw [renderV6_quibble (by omega) (by rintro ⟨hlt, -⟩; omega)
        (by rintro ⟨-, hzs0, hcc⟩; exact hC ⟨hzs0, hcc⟩)]
      rw [if_pos h0]
      rw [ih (i + 1) (by omega) (by omega) (by omega)]
      rw [show 8 - i = (8 - (i + 1)) + 1 from by omega]
      rw [hexCat_cons]
      simp only [List.singleton_append, List.cons_append, List.nil_append]

theorem renderV6_pre {a zs ze : Nat} (hzs0 : 0 < zs) (hl : zs + 2 ≤ ze)
    (hze : ze ≤ 8) :
    ∀ fuel i, 0 < i → i ≤ zs → 8 ≤ i + fuel →
    renderV6 a zs ze fuel i = hexCat a (List.range' i (zs - i)) ++ ':' ::
      (if ze = 8 then [':'] else hexCat a (List.range' ze (8 - ze))) := by
  intro fuel
  induction fuel with
  | zero =>
    intro i h0 hi hf
    omega
  | succ fuel ih =>
    intro i h0 hi hf
    by_cases hizs : i = zs
    · subst hizs
      rw [renderV6_in_run (by omega) (by omega) le_rfl]
      rw [if_pos h0, if_neg (by omega)]
      by_cases hze8 : ze = 8
      · subst hze8
        rw [if_pos (by omega), renderV6_stop (by omega), if_pos rfl,
          show i - i = 0 from by omega]
        simp [hexCat_nil]
      · rw [if_neg (by omega), if_neg hze8]
        rw [renderV6_suffix (by rintro ⟨h, -⟩; omega) fuel ze (by omega) le_rfl
          (by omega)]
        rw [show i - i = 0 from by omega]
        simp [hexCat_nil]
    · rw [renderV6_quibble (by omega) (by rintro ⟨-, hgei⟩; omega)
        (by rintro ⟨-, hzs0', -⟩; omega)]
      rw [if_pos h0]
      rw [ih (i + 1) (by omega) (by omega) (by omega)]
      rw [show zs - i = (zs - (i + 1)) + 1 from by omega, hexCat_cons]
      simp only [List.singleton_append, List.cons_append, List.append_assoc,
        List.nil_append]

theorem renderV6_noRun {a : Nat} :
    renderV6 a 0 0 8 0 = natToHex (quibbleAt a 0) ++ hexCat a (List.range' 1 7) := by
  rw [show (8 : Nat) = 7 + 1 from rfl]
  rw [renderV6_quibble (by omega) (by rintro ⟨h, -⟩; omega)
    (by rintro ⟨-, -, hcc⟩; rcases hcc with ⟨h, -⟩ | ⟨h, -⟩ | ⟨h, -⟩ <;> omega)]
  rw [if_neg (by omega)]
  rw [renderV6_suffix
    (by rintro ⟨-, hcc⟩; rcases hcc with ⟨h, -⟩ | ⟨h, -⟩ | ⟨h, -⟩ <;> omega)
    7 1 (by omega) (by omega) (by omega)]
  simp

theorem renderV6_zsPos {a zs ze : Nat} (hzs0 : 0 < zs) (hl : zs + 2 ≤ ze)
    (hze : ze ≤ 8) :
    renderV6 a zs ze 8 0 = natToHex (quibbleAt a 0)
      ++ hexCat a (List.range' 1 (zs - 1)) ++ ':' ::
      (if ze = 8 then [':'] else hexCat a (List.range' ze (8 - ze))) := by
  rw [show (8 : Nat) = 7 + 1 from rfl]
  rw [renderV6_quibble (by omega) (by rintro ⟨-, h⟩; omega)
    (by rintro ⟨-, h, -⟩; omega)]
  rw [if_neg (by omega)]
  rw [renderV6_pre hzs0 hl hze 7 1 (by omega) (by omega) (by omega)]
  simp [List.append_assoc]

theorem renderV6_zs0 {a ze : Nat} (h2 : 2 ≤ ze) (hze : ze ≤ 8)
    (hC : ¬ ((ze = 6 ∧ quibbleAt a 7 ≠ 1) ∨
       (ze = 5 ∧ quibbleAt a 5 = 0xFFFF) ∨
       (ze = 4 ∧ quibbleAt a 4 = 0xFFFF ∧ quibbleAt a 5 = 0))) :
    renderV6 a 0 ze 8 0 = ':' ::
      (if ze = 8 then [':'] else hexCat a (List.range' ze (8 - ze))) := by
  rw [show (8 : Nat) = 7 + 1 from rfl]
  rw [renderV6_in_run (by omega) (by omega) (by omega)]
  rw [if_neg (by omega), if_pos rfl]
  by_cases hze8 : ze = 8
  · subst hze8
    rw [if_pos (by omega), renderV6_stop (by omega), if_pos rfl]
    simp
  · rw [if_neg (by omega), if_neg hze8]
    rw [renderV6_suffix (by rintro ⟨-, hcc⟩; exact hC hcc) 7 ze (by omega) le_rfl
      (by omega)]
    simp

theorem renderV6_emb6 {a : Nat} (h7 : quibbleAt a 7 ≠ 1) :
    renderV6 a 0 6 8 0 = ':' :: ':' :: ToStringIPv4 (a &&& 0xFFFFFFFF) 32 := by
  rw [show (8 : Nat) = 7 + 1 from rfl]
  rw [renderV6_in_run (by omega) (by omega) (by omega)]
  rw [if_neg (by omega), if_pos rfl, if_neg (by omega)]
  rw [show (7 : Nat) = 6 + 1 from rfl]
  rw [renderV6_embedded (Or.inl ⟨rfl, h7⟩) (by omega)]
  simp [IPV4_DEFAULT_MASK]

theorem renderV6_emb5 {a : Nat} (h5 : quibbleAt a 5 = 0xFFFF) :
    renderV6 a 0 5 8 0 = ':' :: ':' ::
      (natToHex (quibbleAt a 5) ++ ':' :: ToStringIPv4 (a &&& 0xFFFFFFFF) 32) := by
  rw [show (8 : Nat) = 7 + 1 from rfl]
  rw [renderV6_in_run (by omega) (by omega) (by omega)]
  rw [if_neg (by omega), if_pos rfl, if_neg (by omega)]
  rw [show (7 : Nat) = 6 + 1 from rfl]
  rw [renderV6_quibble (by omega) (by rintro ⟨h, -⟩; omega)
    (by rintro ⟨h, -⟩; omega)]
  rw [if_pos (by omega)]
  rw [show (6 : Nat) = 5 + 1 from rfl]
  rw [renderV6_embedded (Or.inr (Or.inl ⟨rfl, h5⟩)) (by omega)]
  simp [IPV4_DEFAULT_MASK]

theorem renderV6_emb4 {a : Nat} (h4 : quibbleAt a 4 = 0xFFFF)
    (h5 : quibbleAt a 5 = 0) :
    renderV6 a 0 4 8 0 = ':' :: ':' ::
      (natToHex (quibbleAt a 4) ++ ':' ::
        (natToHex (quibbleAt a 5) ++ ':' :: ToStringIPv4 (a &&& 0xFFFFFFFF) 32)) := by
  rw [show (8 : Nat) = 7 + 1 from rfl]
  rw [renderV6_in_run (by omega) (by omega) (by omega)]
  rw [if_neg (by omega), if_pos rfl, if_neg (by omega)]
  rw [show (7 : Nat) = 6 + 1 from rfl]
  rw [renderV6_quibble (by omega) (by rintro ⟨h, -⟩; omega)
    (by rintro ⟨h, -⟩; omega)]
  rw [if_pos (by omega)]
  rw [show (6 : Nat) = 5 + 1 from rfl]
  rw [renderV6_quibble (by omega) (by rintro ⟨h, -⟩; omega)
    (by rintro ⟨h, -⟩; omega)]
  rw [if_pos (by omega)]
  rw [show (5 : Nat) = 4 + 1 from rfl]
  rw [renderV6_embedded (Or.inr (Or.inr ⟨rfl, h4, h5⟩)) (by omega)]
  simp [IPV4_DEFAULT_MASK]

/-! ## Post-loop assembly of `TryParseIPv6` and family dispatch -/

theorem TryParseIPv6_full {s : List Char} {st : V6State}
    (hrun : v6Run s ⟨0, 0, 0, none, IPV6_DEFAULT_MASK⟩ = some (st, []))
    (hp : st.parsed_quibble_count = 8) (hfq : st.first_quibble_count = none) :
    TryParseIPv6 s = some ⟨IPAddressType.IP_ADDRESS_V6, st.first_address, st.mask⟩ := by
  unfold TryParseIPv6
  rw [hrun]
  dsimp only
  rw [if_neg (by rintro ⟨h1, -⟩; rw [hp] at h1; simp [IPV6_NUM_QUIBBLE] at h1)]
  rw [if_neg (by simp)]
  rw [hfq]

theorem TryParseIPv6_dc {s : List Char} {st : V6State} {f : Nat}
    (hrun : v6Run s ⟨0, 0, 0, none, IPV6_DEFAULT_MASK⟩ = some (st, []))
    (hp : st.parsed_quibble_count < 8) (hfq : st.first_quibble_count = some f) :
    TryParseIPv6 s = some ⟨IPAddressType.IP_ADDRESS_V6,
      ((st.first_address <<< ((8 - f) * 16)) % 2 ^ 128) ||| st.second_address,
      st.mask⟩ := by
  unfold TryParseIPv6
  rw [hrun]
  dsimp only
  rw [if_neg (by rintro ⟨-, h2⟩; rw [hfq] at h2; cases h2)]
  rw [if_neg (by simp)]
  rw [hfq]
  dsimp only
  rw [if_neg (by simp only [IPV6_NUM_QUIBBLE]; omega)]
  simp only [IPV6_NUM_QUIBBLE, IPV6_QUIBBLE_BITS]

theorem TryParseIPv6_dc_mask {s : List Char} {st : V6State} {f m' : Nat}
    (hrun : v6Run s ⟨0, 0, 0, none, IPV6_DEFAULT_MASK⟩
      = some ({ st with mask := m' }, []))
    (hp : st.parsed_quibble_count < 8) (hfq : st.first_quibble_count = some f) :
    TryParseIPv6 s = some ⟨IPAddressType.IP_ADDRESS_V6,
      ((st.first_address <<< ((8 - f) * 16)) % 2 ^ 128) ||| st.second_address,
      m'⟩ := by
  rw [TryParseIPv6_dc hrun (by dsimp only; exact hp) (by dsimp only; exact hfq)]

theorem TryParse_natToHex_lead {q : Nat} {r : List Char} (hr : r.head? = some ':') :
    TryParse (natToHex q ++ r) = TryParseIPv6 (natToHex q ++ r) := by
  cases r with
  | nil =>
    rw [List.head?_nil] at hr
    cases hr
  | cons c r' =>
    rw [List.head?_cons, Option.some.injEq] at hr
    subst hr
    obtain ⟨ht, hd⟩ := @span_append characterIsHex _ (':' :: r')
      (natToHex_hex q) (fun y hy => by cases hy; exact characterIsHex_punct.1)
    exact TryParse_eq_of_colon hd

theorem TryParse_colon_lead (r : List Char) :
    TryParse (':' :: r) = TryParseIPv6 (':' :: r) :=
  TryParse_eq_of_colon (by rw [List.dropWhile_cons_of_neg (by decide)])

theorem getD_quibbles (a : Nat) {i : Nat} (hi : i < 8) :
    ((List.range 8).map (quibbleAt a)).getD i 1 = quibbleAt a i := by
  rw [range8_map]
  interval_cases i <;> rfl

theorem addEmbeddedIPv4_first_of_some {st : V6State} {c : Nat}
    (hfq : st.first_quibble_count = some c) (w : Nat) :
    (st.addEmbeddedIPv4 w).first_address = st.first_address := by
  unfold V6State.addEmbeddedIPv4
  rw [hfq]

theorem addEmbeddedIPv4_second_of_some {st : V6State} {c : Nat}
    (hfq : st.first_quibble_count = some c) (w : Nat) :
    (st.addEmbeddedIPv4 w).second_address
      = ((st.second_address <<< (2 * IPV6_QUIBBLE_BITS)) % 2 ^ 128) ||| w := by
  unfold V6State.addEmbeddedIPv4
  rw [hfq]

theorem ToStringIPv4_ne_nil (w m' : Nat) : ToStringIPv4 w m' ≠ [] := by
  rw [ToStringIPv4_eq]
  intro h
  exact natToDec_ne_nil _ (List.append_eq_nil.mp h).1

theorem head_ne_colon_of_ToStringIPv4 (w : Nat) (r : List Char) :
    (ToStringIPv4 w 32 ++ r).head? ≠ some ':' := by
  cases hh : ToStringIPv4 w 32 with
  | nil => exact absurd hh (ToStringIPv4_ne_nil w 32)
  | cons c cs =>
    simp only [List.cons_append, List.head?_cons]
    intro habs
    rw [Option.some.injEq] at habs
    have hc : c ∈ ToStringIPv4 w 32 := by rw [hh]; exact List.mem_cons_self ..
    have hd := ToStringIPv4_digitOrDot w c hc
    rw [habs] at hd
    exact absurd hd (by decide)

theorem head_colon_hexCat_append (a : Nat) (is : List Nat) {r : List Char}
    (hr : r.head? = some ':') : (hexCat a is ++ r).head? = some ':' := by
  cases is with
  | nil => simpa [hexCat] using hr
  | cons i is' => rfl

/-! ## The IPv6 round trip, by shape of the chosen zero run -/

theorem roundtrip_noRun {a m : Nat} (ha : a < 2 ^ 128) (hm : m ≤ 128) :
    TryParse (renderV6 a 0 0 8 0 ++ (if m ≠ 128 then '/' :: natToDec m else []))
      = some ⟨IPAddressType.IP_ADDRESS_V6, a, m⟩ := by
  have hfirst : (stAfter a (⟨0, 0, 0, none, IPV6_DEFAULT_MASK⟩ : V6State) 0 8).first_address
      = a := by
    have h := stAfter_first ha 8 0 0 (⟨0, 0, 0, none, IPV6_DEFAULT_MASK⟩ : V6State)
      (by norm_num) rfl (by rw [show ((0 : Nat) * 16) = 0 from rfl, pow_zero, Nat.mod_one])
    rw [show ((8 : Nat) - (0 + 8)) * 16 = 0 from rfl,
      show ((0 : Nat) + 8) * 16 = 128 from rfl, Nat.shiftRight_zero,
      Nat.mod_eq_of_lt ha] at h
    exact h
  rw [renderV6_noRun]
  by_cases hm8 : m = 128
  · rw [if_neg (by simp [hm8]), List.append_nil]
    rw [TryParse_natToHex_lead (by
      rw [show (7 : Nat) = 6 + 1 from rfl, hexCat_cons]
      rfl)]
    have hrun : v6Run (natToHex (quibbleAt a 0) ++ hexCat a (List.range' 1 7))
        (⟨0, 0, 0, none, IPV6_DEFAULT_MASK⟩ : V6State)
        = some (stAfter a ⟨0, 0, 0, none, IPV6_DEFAULT_MASK⟩ 0 8, []) :=
      v6Run_chain_end 8 0 _ (by norm_num) (by norm_num) (by norm_num)
    rw [TryParseIPv6_full hrun (by rw [stAfter_parsed]) (by rw [stAfter_fq])]
    rw [hfirst, stAfter_mask]
    subst hm8
    rfl
  · rw [if_pos hm8, List.append_assoc]
    rw [TryParse_natToHex_lead (by
      rw [show (7 : Nat) = 6 + 1 from rfl, hexCat_cons]
      rfl)]
    have hrun : v6Run (natToHex (quibbleAt a 0)
          ++ (hexCat a (List.range' 1 7) ++ '/' :: natToDec m))
        (⟨0, 0, 0, none, IPV6_DEFAULT_MASK⟩ : V6State)
        = some ({ stAfter a ⟨0, 0, 0, none, IPV6_DEFAULT_MASK⟩ 0 8 with mask := m },
          []) := by
      rw [← List.append_assoc]
      exact v6Run_chain_mask hm 8 0 _ (by norm_num) (by norm_num) (by norm_num)
    rw [TryParseIPv6_full hrun (by simp [stAfter_parsed]) (by simp [stAfter_fq])]
    dsimp only
    rw [hfirst]

theorem roundtrip_zs0 {a m ze : Nat} (ha : a < 2 ^ 128) (hm : m ≤ 128)
    (h2 : 2 ≤ ze) (hze : ze ≤ 8)
    (hzero : ∀ j, j < ze → quibbleAt a j = 0)
    (hC : ¬ ((ze = 6 ∧ quibbleAt a 7 ≠ 1) ∨
       (ze = 5 ∧ quibbleAt a 5 = 0xFFFF) ∨
       (ze = 4 ∧ quibbleAt a 4 = 0xFFFF ∧ quibbleAt a 5 = 0))) :
    TryParse (renderV6 a 0 ze 8 0 ++ (if m ≠ 128 then '/' :: natToDec m else []))
      = some ⟨IPAddressType.IP_ADDRESS_V6, a, m⟩ := by
  have halow : a < 2 ^ ((8 - ze) * 16) := high_zero_lt ha hze hzero
  rw [renderV6_zs0 h2 hze hC]
  by_cases hze8 : ze = 8
  · subst hze8
    rw [if_pos rfl]
    have ha0 : a = 0 := by
      rw [show ((8 : Nat) - 8) * 16 = 0 from rfl, pow_zero] at halow
      omega
    subst ha0
    by_cases hm8 : m = 128
    · rw [if_neg (by simp [hm8]), List.append_nil]
      rw [TryParse_colon_lead]
      have hrun := @v6Run_dc_start [] ⟨0, 0, 0, none, IPV6_DEFAULT_MASK⟩
        (by norm_num) rfl (by simp)
      have hrun2 := hrun.trans (v6Run_nil _)
      rw [TryParseIPv6_dc hrun2 (by norm_num) rfl]
      subst hm8
      simp [IPV6_DEFAULT_MASK]
    · rw [if_pos hm8, List.cons_append, List.singleton_append]
      rw [TryParse_colon_lead]
      have hrun := @v6Run_dc_start ('/' :: natToDec m)
        ⟨0, 0, 0, none, IPV6_DEFAULT_MASK⟩ (by norm_num) rfl (by simp)
      have hrun2 := hrun.trans (v6Run_mask_start (by norm_num) hm)
      rw [TryParseIPv6_dc hrun2 (by norm_num) rfl]
      simp
  · rw [if_neg hze8]
    have hnz : 8 - ze = (8 - (ze + 1)) + 1 := by omega
    rw [List.cons_append, hnz, hexCat_cons, List.cons_append]
    rw [TryParse_colon_lead]
    have hsec : ∀ st : V6State, st.first_quibble_count = some 0 →
        st.second_address = 0 →
        (stAfter a st ze (8 - ze)).second_address = a := by
      intro st hfq hs0
      have h := stAfter_second ha (c := 0) (8 - ze) ze 0 st (by omega) hfq
        (by rw [hs0, show ((0 : Nat) * 16) = 0 from rfl, pow_zero, Nat.mod_one])
      rw [show ze + (8 - ze) = 8 from by omega, show ((8 : Nat) - 8) * 16 = 0 from rfl,
        Nat.shiftRight_zero, show (0 + (8 - ze)) * 16 = (8 - ze) * 16 from by omega,
        Nat.mod_eq_of_lt halow] at h
      exact h
    by_cases hm8 : m = 128
    · rw [if_neg (by simp [hm8]), List.append_nil]
      have hrun := @v6Run_dc_start
        (natToHex (quibbleAt a ze) ++ hexCat a (List.range' (ze + 1) (8 - (ze + 1))))
        ⟨0, 0, 0, none, IPV6_DEFAULT_MASK⟩ (by norm_num) rfl
        (head_ne_colon_of_natToHex _ _)
      have hchain := v6Run_chain_end (a := a) (8 - ze) ze
        ({ (⟨0, 0, 0, none, IPV6_DEFAULT_MASK⟩ : V6State) with
            first_quibble_count := some
              ((⟨0, 0, 0, none, IPV6_DEFAULT_MASK⟩ : V6State).parsed_quibble_count) })
        (by omega) (by omega) (by dsimp only; omega)
      rw [show 8 - ze - 1 = 8 - (ze + 1) from by omega] at hchain
      have hrun2 := hrun.trans hchain
      rw [TryParseIPv6_dc hrun2 (by rw [stAfter_parsed]; dsimp only; omega)
        (by rw [stAfter_fq])]
      rw [stAfter_first_of_some (c := 0) _ _ _ rfl, stAfter_mask, hsec _ rfl rfl]
      subst hm8
      simp [IPV6_DEFAULT_MASK]
    · rw [if_pos hm8]
      rw [show (natToHex (quibbleAt a ze) ++ hexCat a (List.range' (ze + 1) (8 - (ze + 1))))
            ++ '/' :: natToDec m
          = natToHex (quibbleAt a ze) ++ hexCat a (List.range' (ze + 1) (8 - (ze + 1)))
            ++ '/' :: natToDec m from by
        simp only [List.append_assoc]]
      rw [show (':' :: (natToHex (quibbleAt a ze)
            ++ hexCat a (List.range' (ze + 1) (8 - (ze + 1)))
            ++ '/' :: natToDec m) : List Char)
          = ':' :: (natToHex (quibbleAt a ze)
            ++ hexCat a (List.range' (ze + 1) (8 - (ze + 1)))
            ++ '/' :: natToDec m) from rfl]
      have hrun := @v6Run_dc_start
        (natToHex (quibbleAt a ze) ++ hexCat a (List.range' (ze + 1) (8 - (ze + 1)))
          ++ '/' :: natToDec m)
        ⟨0, 0, 0, none, IPV6_DEFAULT_MASK⟩ (by norm_num) rfl
        (by rw [List.append_assoc]; exact head_ne_colon_of_natToHex _ _)
      have hchain := v6Run_chain_mask (a := a) hm (8 - ze) ze
        ({ (⟨0, 0, 0, none, IPV6_DEFAULT_MASK⟩ : V6State) with
            first_quibble_count := some
              ((⟨0, 0, 0, none, IPV6_DEFAULT_MASK⟩ : V6State).parsed_quibble_count) })
        (by omega) (by omega) (by dsimp only; omega)
      rw [show 8 - ze - 1 = 8 - (ze + 1) from by omega] at hchain
      have hrun2 := hrun.trans hchain
      rw [TryParseIPv6_dc (f := 0) hrun2 (by simp [stAfter_parsed]; omega)
        (by simp [stAfter_fq])]
      dsimp only
      rw [stAfter_first_of_some (c := 0) _ _ _ rfl, hsec _ rfl rfl]
      simp

theorem roundtrip_zsPos {a m zs ze : Nat} (ha : a < 2 ^ 128) (hm : m ≤ 128)
    (hzs0 : 0 < zs) (hl : zs + 2 ≤ ze) (hze : ze ≤ 8)
    (hzero : ∀ j, j < ze - zs → quibbleAt a (zs + j) = 0) :
    TryParse (renderV6 a zs ze 8 0 ++ (if m ≠ 128 then '/' :: natToDec m else []))
      = some ⟨IPAddressType.IP_ADDRESS_V6, a, m⟩ := by
  have hF : (stAfter a (⟨0, 0, 0, none, IPV6_DEFAULT_MASK⟩ : V6State) 0 zs).first_address
      = a >>> ((8 - zs) * 16) := by
    have h := stAfter_first ha zs 0 0 (⟨0, 0, 0, none, IPV6_DEFAULT_MASK⟩ : V6State)
      (by omega) rfl (by rw [show ((0 : Nat) * 16) = 0 from rfl, pow_zero, Nat.mod_one])
    rw [show (0 : Nat) + zs = zs from by omega] at h
    rw [Nat.mod_eq_of_lt (by
      have hb := shiftRight_lt_pow ha (s := (8 - zs) * 16) (by omega)
      rwa [show 128 - (8 - zs) * 16 = zs * 16 from by omega] at hb)] at h
    exact h
  have hassemble : ((a >>> ((8 - zs) * 16)) <<< ((8 - zs) * 16)) % 2 ^ 128
      ||| a % 2 ^ ((8 - ze) * 16) = a :=
    assemble_eq ha (by omega) hze hzero
  rw [renderV6_zsPos hzs0 hl hze]
  by_cases hze8 : ze = 8
  · subst hze8
    rw [if_pos rfl]
    have hassemble0 : ((a >>> ((8 - zs) * 16)) <<< ((8 - zs) * 16)) % 2 ^ 128 = a := by
      rw [show ((8 : Nat) - 8) * 16 = 0 from rfl, pow_zero, Nat.mod_one,
        Nat.or_zero] at hassemble
      exact hassemble
    by_cases hm8 : m = 128
    · rw [if_neg (by simp [hm8]), List.append_nil, List.append_assoc]
      rw [TryParse_natToHex_lead
        (r := hexCat a (List.range' 1 (zs - 1)) ++ ':' :: ':' :: [])
        (head_colon_hexCat_append a _ rfl)]
      have hdc := @v6Run_chain_dc a []
        (show ([] : List Char).head? ≠ some ':' from by simp) zs 0
        ⟨0, 0, 0, none, IPV6_DEFAULT_MASK⟩ (by omega) (by omega)
        (by dsimp only; omega) rfl
      have hrun2 := hdc.trans (v6Run_nil _)
      rw [List.append_assoc] at hrun2
      rw [TryParseIPv6_dc (f := 0 + zs) hrun2 (by simp [stAfter_parsed]; omega) rfl]
      dsimp only
      rw [stAfter_second_of_none zs 0 _ rfl]
      dsimp only
      rw [show (0 : Nat) + zs = zs from by omega, hF, Nat.or_zero, hassemble0,
        stAfter_mask]
      subst hm8
      rfl
    · rw [if_pos hm8]
      rw [show (natToHex (quibbleAt a 0) ++ hexCat a (List.range' 1 (zs - 1))
            ++ ':' :: [':']) ++ '/' :: natToDec m
          = natToHex (quibbleAt a 0) ++ hexCat a (List.range' 1 (zs - 1))
            ++ ':' :: ':' :: '/' :: natToDec m from by
        simp only [List.append_assoc, List.cons_append, List.singleton_append,
          List.nil_append]]
      rw [List.append_assoc]
      rw [TryParse_natToHex_lead
        (r := hexCat a (List.range' 1 (zs - 1)) ++ ':' :: ':' :: '/' :: natToDec m)
        (head_colon_hexCat_append a _ rfl)]
      have hdc := @v6Run_chain_dc a ('/' :: natToDec m)
        (show ('/' :: natToDec m).head? ≠ some ':' from by simp) zs 0
        ⟨0, 0, 0, none, IPV6_DEFAULT_MASK⟩ (by omega) (by omega)
        (by dsimp only; omega) rfl
      have hrun2 := hdc.trans (v6Run_mask_start (by simp [stAfter_parsed]; omega) hm)
      rw [List.append_assoc] at hrun2
      rw [TryParseIPv6_dc (f := 0 + zs) hrun2 (by simp [stAfter_parsed]; omega) rfl]
      dsimp only
      rw [stAfter_second_of_none zs 0 _ rfl]
      dsimp only
      rw [show (0 : Nat) + zs = zs from by omega, hF, Nat.or_zero, hassemble0]
  · rw [if_neg hze8]
    rw [show 8 - ze = (8 - (ze + 1)) + 1 from by omega, hexCat_cons]
    have hs0 : ({ stAfter a (⟨0, 0, 0, none, IPV6_DEFAULT_MASK⟩ : V6State) 0 zs with
        first_quibble_count := some
          ((⟨0, 0, 0, none, IPV6_DEFAULT_MASK⟩ : V6State).parsed_quibble_count + zs) }
          : V6State).second_address = 0 := by
      dsimp only
      rw [stAfter_second_of_none zs 0 _ rfl]
    have hsecond : (stAfter a
        ({ stAfter a (⟨0, 0, 0, none, IPV6_DEFAULT_MASK⟩ : V6State) 0 zs with
          first_quibble_count := some
            ((⟨0, 0, 0, none, IPV6_DEFAULT_MASK⟩ : V6State).parsed_quibble_count + zs) })
        ze (8 - ze)).second_address = a % 2 ^ ((8 - ze) * 16) := by
      have h := stAfter_second ha (c := 0 + zs) (8 - ze) ze 0 _ (by omega) rfl
        (by rw [hs0, show ((0 : Nat) * 16) = 0 from rfl, pow_zero, Nat.mod_one])
      rw [show ze + (8 - ze) = 8 from by omega,
        show ((8 : Nat) - 8) * 16 = 0 from rfl, Nat.shiftRight_zero,
        show (0 + (8 - ze)) * 16 = (8 - ze) * 16 from by omega] at h
      exact h
    by_cases hm8 : m = 128
    · rw [if_neg (by simp [hm8]), List.append_nil, List.append_assoc]
      rw [TryParse_natToHex_lead
        (r := hexCat a (List.range' 1 (zs - 1)) ++ ':' :: ':' ::
          (natToHex (quibbleAt a ze) ++ hexCat a (List.range' (ze + 1) (8 - (ze + 1)))))
        (head_colon_hexCat_append a _ rfl)]
      have hdc := @v6Run_chain_dc a
        (natToHex (quibbleAt a ze) ++ hexCat a (List.range' (ze + 1) (8 - (ze + 1))))
        (head_ne_colon_of_natToHex (quibbleAt a ze) _) zs 0
        ⟨0, 0, 0, none, IPV6_DEFAULT_MASK⟩ (by omega) (by omega)
        (by dsimp only; omega) rfl
      have hchain := v6Run_chain_end (a := a) (8 - ze) ze
        ({ stAfter a (⟨0, 0, 0, none, IPV6_DEFAULT_MASK⟩ : V6State) 0 zs with
          first_quibble_count := some
            ((⟨0, 0, 0, none, IPV6_DEFAULT_MASK⟩ : V6State).parsed_quibble_count + zs) })
        (by omega) (by omega) (by simp [stAfter_parsed]; omega)
      rw [show 8 - ze - 1 = 8 - (ze + 1) from by omega] at hchain
      have hrun2 := hdc.trans hchain
      rw [List.append_assoc] at hrun2
      rw [TryParseIPv6_dc (f := 0 + zs) hrun2
        (by simp [stAfter_parsed]; omega) (by rw [stAfter_fq])]
      rw [stAfter_first_of_some (c := 0 + zs) _ _ _ rfl]
      dsimp only
      rw [hsecond, show (0 : Nat) + zs = zs from by omega, hF, hassemble,
        stAfter_mask]
      dsimp only
      rw [stAfter_mask]
      subst hm8
      rfl
    · rw [if_pos hm8]
      rw [show (natToHex (quibbleAt a 0) ++ hexCat a (List.range' 1 (zs - 1))
            ++ ':' :: ':' :: (natToHex (quibbleAt a ze)
              ++ hexCat a (List.range' (ze + 1) (8 - (ze + 1))))) ++ '/' :: natToDec m
          = natToHex (quibbleAt a 0) ++ hexCat a (List.range' 1 (zs - 1))
            ++ ':' :: ':' :: (natToHex (quibbleAt a ze)
              ++ hexCat a (List.range' (ze + 1) (8 - (ze + 1))) ++ '/' :: natToDec m)
          from by simp only [List.append_assoc, List.cons_append]]
      rw [List.append_assoc]
      rw [TryParse_natToHex_lead
        (r := hexCat a (List.range' 1 (zs - 1)) ++ ':' :: ':' ::
          (natToHex (quibbleAt a ze) ++ hexCat a (List.range' (ze + 1) (8 - (ze + 1)))
            ++ '/' :: natToDec m))
        (head_colon_hexCat_append a _ rfl)]
      have hdc := @v6Run_chain_dc a
        (natToHex (quibbleAt a ze) ++ hexCat a (List.range' (ze + 1) (8 - (ze + 1)))
          ++ '/' :: natToDec m)
        (by rw [List.append_assoc]
            exact head_ne_colon_of_natToHex (quibbleAt a ze) _) zs 0
        ⟨0, 0, 0, none, IPV6_DEFAULT_MASK⟩ (by omega) (by omega)
        (by dsimp only; omega) rfl
      have hchain := v6Run_chain_mask (a := a) hm (8 - ze) ze
        ({ stAfter a (⟨0, 0, 0, none, IPV6_DEFAULT_MASK⟩ : V6State) 0 zs with
          first_quibble_count := some
            ((⟨0, 0, 0, none, IPV6_DEFAULT_MASK⟩ : V6State).parsed_quibble_count + zs) })
        (by omega) (by omega) (by simp [stAfter_parsed]; omega)
      rw [show 8 - ze - 1 = 8 - (ze + 1) from by omega] at hchain
      have hrun2 := hdc.trans hchain
      rw [List.append_assoc] at hrun2
      rw [TryParseIPv6_dc (f := 0 + zs) hrun2
        (by simp [stAfter_parsed]; omega) (by simp [stAfter_fq])]
      dsimp only
      rw [stAfter_first_of_some (c := 0 + zs) _ _ _ rfl]
      dsimp only
      rw [hsecond, show (0 : Nat) + zs = zs from by omega, hF, hassemble]

theorem roundtrip_emb6 {a m : Nat} (ha : a < 2 ^ 128) (hm : m ≤ 128)
    (hzero : ∀ j, j < 6 → quibbleAt a j = 0) (h7 : quibbleAt a 7 ≠ 1) :
    TryParse (renderV6 a 0 6 8 0 ++ (if m ≠ 128 then '/' :: natToDec m else []))
      = some ⟨IPAddressType.IP_ADDRESS_V6, a, m⟩ := by
  have ha32 : a < 2 ^ 32 := by
    have h := high_zero_lt ha (by norm_num : (6 : Nat) ≤ 8) hzero
    rwa [show ((8 : Nat) - 6) * 16 = 32 from rfl] at h
  have hw : a &&& 0xFFFFFFFF = a := by
    rw [show (0xFFFFFFFF : Nat) = 2 ^ 32 - 1 from by norm_num,
      Nat.and_pow_two_sub_one_eq_mod, Nat.mod_eq_of_lt ha32]
  rw [renderV6_emb6 h7, hw]
  by_cases hm8 : m = 128
  · rw [if_neg (by simp [hm8])]
    rw [List.cons_append, List.cons_append]
    rw [TryParse_colon_lead]
    have hrun := @v6Run_dc_start (ToStringIPv4 a 32 ++ [])
      ⟨0, 0, 0, none, IPV6_DEFAULT_MASK⟩ (by norm_num) rfl
      (head_ne_colon_of_ToStringIPv4 a [])
    have hemb := @v6Run_embedded a []
      ({ (⟨0, 0, 0, none, IPV6_DEFAULT_MASK⟩ : V6State) with
        first_quibble_count := some
          ((⟨0, 0, 0, none, IPV6_DEFAULT_MASK⟩ : V6State).parsed_quibble_count) })
      ha32 (by dsimp only; omega) (Or.inl rfl)
    have hrun2 := hrun.trans (hemb.trans (v6Run_nil _))
    rw [TryParseIPv6_dc (f := 0) hrun2
      (by rw [addEmbeddedIPv4_parsed]; dsimp only; omega)
      (by rw [addEmbeddedIPv4_fq])]
    rw [addEmbeddedIPv4_first_of_some rfl, addEmbeddedIPv4_second_of_some rfl,
      addEmbeddedIPv4_mask]
    dsimp only
    subst hm8
    simp [IPV6_DEFAULT_MASK]
  · rw [if_pos hm8]
    rw [List.cons_append, List.cons_append]
    rw [TryParse_colon_lead]
    have hrun := @v6Run_dc_start (ToStringIPv4 a 32 ++ '/' :: natToDec m)
      ⟨0, 0, 0, none, IPV6_DEFAULT_MASK⟩ (by norm_num) rfl
      (head_ne_colon_of_ToStringIPv4 a _)
    have hemb := @v6Run_embedded a ('/' :: natToDec m)
      ({ (⟨0, 0, 0, none, IPV6_DEFAULT_MASK⟩ : V6State) with
        first_quibble_count := some
          ((⟨0, 0, 0, none, IPV6_DEFAULT_MASK⟩ : V6State).parsed_quibble_count) })
      ha32 (by dsimp only; omega) (Or.inr rfl)
    have hrun2 := hrun.trans (hemb.trans
      (v6Run_mask_start (by rw [addEmbeddedIPv4_parsed]; dsimp only; omega) hm))
    rw [TryParseIPv6_dc (f := 0) hrun2
      (by simp [addEmbeddedIPv4_parsed])
      (by simp [addEmbeddedIPv4_fq])]
    dsimp only
    rw [addEmbeddedIPv4_first_of_some rfl, addEmbeddedIPv4_second_of_some rfl]
    dsimp only
    simp

theorem roundtrip_emb5 {a m : Nat} (ha : a < 2 ^ 128) (hm : m ≤ 128)
    (hzero : ∀ j, j < 5 → quibbleAt a j = 0) (h5 : quibbleAt a 5 = 0xFFFF) :
    TryParse (renderV6 a 0 5 8 0 ++ (if m ≠ 128 then '/' :: natToDec m else []))
      = some ⟨IPAddressType.IP_ADDRESS_V6, a, m⟩ := by
  have ha48 : a < 2 ^ 48 := by
    have h := high_zero_lt ha (by norm_num : (5 : Nat) ≤ 8) hzero
    rwa [show ((8 : Nat) - 5) * 16 = 48 from rfl] at h
  have hw32 : a &&& 0xFFFFFFFF = a % 2 ^ 32 := by
    rw [show (0xFFFFFFFF : Nat) = 2 ^ 32 - 1 from by norm_num,
      Nat.and_pow_two_sub_one_eq_mod]
  have hq5' : a / 2 ^ 32 = 0xFFFF := by
    have hlt : a / 2 ^ 32 < 2 ^ 16 := by
      rw [Nat.div_lt_iff_lt_mul (by norm_num)]
      calc a < 2 ^ 48 := ha48
        _ = 2 ^ 16 * 2 ^ 32 := by norm_num
    have h := h5
    rw [quibbleAt_eq_mod, show ((7 : Nat) - 5) * 16 = 32 from rfl,
      Nat.shiftRight_eq_div_pow, Nat.mod_eq_of_lt hlt] at h
    exact h
  have hsecond : (0xFFFF <<< 32) % 2 ^ 128 ||| a % 2 ^ 32 = a := by
    rw [Nat.shiftLeft_eq, Nat.mod_eq_of_lt (by norm_num), Nat.mul_comm,
      ← Nat.mul_add_lt_is_or (Nat.mod_lt _ (by norm_num)) 0xFFFF]
    have hdm := Nat.div_add_mod a (2 ^ 32)
    omega
  rw [renderV6_emb5 h5, hw32]
  by_cases hm8 : m = 128
  · rw [if_neg (by simp [hm8])]
    rw [List.cons_append, List.cons_append, List.append_assoc, List.cons_append]
    rw [TryParse_colon_lead]
    have hrun := @v6Run_dc_start
      (natToHex (quibbleAt a 5) ++ ':' :: (ToStringIPv4 (a % 2 ^ 32) 32 ++ []))
      ⟨0, 0, 0, none, IPV6_DEFAULT_MASK⟩ (by norm_num) rfl
      (head_ne_colon_of_natToHex _ _)
    have hq := @v6Run_quibble_colon (quibbleAt a 5) (ToStringIPv4 (a % 2 ^ 32) 32 ++ [])
      ({ (⟨0, 0, 0, none, IPV6_DEFAULT_MASK⟩ : V6State) with
        first_quibble_count := some
          ((⟨0, 0, 0, none, IPV6_DEFAULT_MASK⟩ : V6State).parsed_quibble_count) })
      (quibbleAt_lt a 5) (by dsimp only; omega)
      (head_ne_colon_of_ToStringIPv4 _ [])
    have hemb := @v6Run_embedded (a % 2 ^ 32) []
      (({ (⟨0, 0, 0, none, IPV6_DEFAULT_MASK⟩ : V6State) with
        first_quibble_count := some
          ((⟨0, 0, 0, none, IPV6_DEFAULT_MASK⟩ : V6State).parsed_quibble_count) }
          : V6State).addQuibble (natToHex (quibbleAt a 5)))
      (Nat.mod_lt _ (by norm_num))
      (by rw [addQuibble_parsed]; dsimp only; omega) (Or.inl rfl)
    have hrun2 := hrun.trans (hq.trans (hemb.trans (v6Run_nil _)))
    rw [TryParseIPv6_dc (f := 0) hrun2
      (by rw [addEmbeddedIPv4_parsed, addQuibble_parsed]; dsimp only; omega)
      (by rw [addEmbeddedIPv4_fq, addQuibble_fq])]
    rw [addEmbeddedIPv4_first_of_some rfl, addEmbeddedIPv4_second_of_some rfl,
      addEmbeddedIPv4_mask, addQuibble_first_of_some rfl,
      addQuibble_second_of_some rfl, addQuibble_mask,
      parseQuibble_natToHex (quibbleAt_lt a 5), h5]
    dsimp only
    rw [show ((0 : Nat) * 2 ^ 16 + 0xFFFF) % 2 ^ 128 = 0xFFFF from by norm_num,
      show 2 * IPV6_QUIBBLE_BITS = 32 from rfl, hsecond]
    subst hm8
    simp [IPV6_DEFAULT_MASK]
  · rw [if_pos hm8]
    rw [List.cons_append, List.cons_append, List.append_assoc, List.cons_append]
    rw [TryParse_colon_lead]
    have hrun := @v6Run_dc_start
      (natToHex (quibbleAt a 5) ++ ':' :: (ToStringIPv4 (a % 2 ^ 32) 32
        ++ '/' :: natToDec m))
      ⟨0, 0, 0, none, IPV6_DEFAULT_MASK⟩ (by norm_num) rfl
      (head_ne_colon_of_natToHex _ _)
    have hq := @v6Run_quibble_colon (quibbleAt a 5)
      (ToStringIPv4 (a % 2 ^ 32) 32 ++ '/' :: natToDec m)
      ({ (⟨0, 0, 0, none, IPV6_DEFAULT_MASK⟩ : V6State) with
        first_quibble_count := some
          ((⟨0, 0, 0, none, IPV6_DEFAULT_MASK⟩ : V6State).parsed_quibble_count) })
      (quibbleAt_lt a 5) (by dsimp only; omega)
      (head_ne_colon_of_ToStringIPv4 _ _)
    have hemb := @v6Run_embedded (a % 2 ^ 32) ('/' :: natToDec m)
      (({ (⟨0, 0, 0, none, IPV6_DEFAULT_MASK⟩ : V6State) with
        first_quibble_count := some
          ((⟨0, 0, 0, none, IPV6_DEFAULT_MASK⟩ : V6State).parsed_quibble_count) }
          : V6State).addQuibble (natToHex (quibbleAt a 5)))
      (Nat.mod_lt _ (by norm_num))
      (by rw [addQuibble_parsed]; dsimp only; omega) (Or.inr rfl)
    have hrun2 := hrun.trans (hq.trans (hemb.trans (v6Run_mask_start
      (by rw [addEmbeddedIPv4_parsed, addQuibble_parsed]; dsimp only; omega) hm)))
    rw [TryParseIPv6_dc (f := 0) hrun2
      (by simp [addEmbeddedIPv4_parsed, addQuibble_parsed])
      (by simp [addEmbeddedIPv4_fq, addQuibble_fq])]
    dsimp only
    rw [addEmbeddedIPv4_first_of_some rfl, addEmbeddedIPv4_second_of_some rfl,
      addQuibble_first_of_some rfl, addQuibble_second_of_some rfl,
      parseQuibble_natToHex (quibbleAt_lt a 5), h5]
    dsimp only
    rw [show ((0 : Nat) * 2 ^ 16 + 0xFFFF) % 2 ^ 128 = 0xFFFF from by norm_num,
      show 2 * IPV6_QUIBBLE_BITS = 32 from rfl, hsecond]
    simp

theorem roundtrip_emb4 {a m : Nat} (ha : a < 2 ^ 128) (hm : m ≤ 128)
    (hzero : ∀ j, j < 4 → quibbleAt a j = 0) (h4 : quibbleAt a 4 = 0xFFFF)
    (h5 : quibbleAt a 5 = 0) :
    TryParse (renderV6 a 0 4 8 0 ++ (if m ≠ 128 then '/' :: natToDec m else []))
      = some ⟨IPAddressType.IP_ADDRESS_V6, a, m⟩ := by
  have ha64 : a < 2 ^ 64 := by
    have h := high_zero_lt ha (by norm_num : (4 : Nat) ≤ 8) hzero
    rwa [show ((8 : Nat) - 4) * 16 = 64 from rfl] at h
  have hw32 : a &&& 0xFFFFFFFF = a % 2 ^ 32 := by
    rw [show (0xFFFFFFFF : Nat) = 2 ^ 32 - 1 from by norm_num,
      Nat.and_pow_two_sub_one_eq_mod]
  have hq4' : a / 2 ^ 48 = 0xFFFF := by
    have hlt : a / 2 ^ 48 < 2 ^ 16 := by
      rw [Nat.div_lt_iff_lt_mul (by norm_num)]
      calc a < 2 ^ 64 := ha64
        _ = 2 ^ 16 * 2 ^ 48 := by norm_num
    have h := h4
    rw [quibbleAt_eq_mod, show ((7 : Nat) - 4) * 16 = 48 from rfl,
      Nat.shiftRight_eq_div_pow, Nat.mod_eq_of_lt hlt] at h
    exact h
  have hq5' : a / 2 ^ 32 % 2 ^ 16 = 0 := by
    have h := h5
    rw [quibbleAt_eq_mod, show ((7 : Nat) - 5) * 16 = 32 from rfl,
      Nat.shiftRight_eq_div_pow] at h
    exact h
  have hmid : a % 2 ^ 48 = a % 2 ^ 32 := by
    rw [show (2 : Nat) ^ 48 = 2 ^ 32 * 2 ^ 16 from by norm_num, Nat.mod_mul, hq5']
    simp
  have hsecond : (0xFFFF0000 <<< 32) % 2 ^ 128 ||| a % 2 ^ 32 = a := by
    rw [Nat.shiftLeft_eq, Nat.mod_eq_of_lt (by norm_num),
      show (0xFFFF0000 : Nat) * 2 ^ 32 = 2 ^ 48 * 0xFFFF from by norm_num,
      ← Nat.mul_add_lt_is_or (lt_trans (Nat.mod_lt _ (by norm_num : (0:Nat) < 2 ^ 32))
        (by norm_num : (2:Nat) ^ 32 < 2 ^ 48)) 0xFFFF]
    have hdm := Nat.div_add_mod a (2 ^ 48)
    omega
  rw [renderV6_emb4 h4 h5, hw32]
  by_cases hm8 : m = 128
  · rw [if_neg (by simp [hm8])]
    rw [List.cons_append, List.cons_append, List.append_assoc, List.cons_append,
      List.append_assoc, List.cons_append]
    rw [TryParse_colon_lead]
    have hrun := @v6Run_dc_start
      (natToHex (quibbleAt a 4) ++ ':' :: (natToHex (quibbleAt a 5)
        ++ ':' :: (ToStringIPv4 (a % 2 ^ 32) 32 ++ [])))
      ⟨0, 0, 0, none, IPV6_DEFAULT_MASK⟩ (by norm_num) rfl
      (head_ne_colon_of_natToHex _ _)
    have hq4c := @v6Run_quibble_colon (quibbleAt a 4)
      (natToHex (quibbleAt a 5) ++ ':' :: (ToStringIPv4 (a % 2 ^ 32) 32 ++ []))
      ({ (⟨0, 0, 0, none, IPV6_DEFAULT_MASK⟩ : V6State) with
        first_quibble_count := some
          ((⟨0, 0, 0, none, IPV6_DEFAULT_MASK⟩ : V6State).parsed_quibble_count) })
      (quibbleAt_lt a 4) (by dsimp only; omega)
      (head_ne_colon_of_natToHex _ _)
    have hq5c := @v6Run_quibble_colon (quibbleAt a 5)
      (ToStringIPv4 (a % 2 ^ 32) 32 ++ [])
      (({ (⟨0, 0, 0, none, IPV6_DEFAULT_MASK⟩ : V6State) with
        first_quibble_count := some
          ((⟨0, 0, 0, none, IPV6_DEFAULT_MASK⟩ : V6State).parsed_quibble_count) }
          : V6State).addQuibble (natToHex (quibbleAt a 4)))
      (quibbleAt_lt a 5) (by rw [addQuibble_parsed]; dsimp only; omega)
      (head_ne_colon_of_ToStringIPv4 _ [])
    have hemb := @v6Run_embedded (a % 2 ^ 32) []
      ((({ (⟨0, 0, 0, none, IPV6_DEFAULT_MASK⟩ : V6State) with
        first_quibble_count := some
          ((⟨0, 0, 0, none, IPV6_DEFAULT_MASK⟩ : V6State).parsed_quibble_count) }
          : V6State).addQuibble (natToHex (quibbleAt a 4))).addQuibble
            (natToHex (quibbleAt a 5)))
      (Nat.mod_lt _ (by norm_num))
      (by rw [addQuibble_parsed, addQuibble_parsed]; dsimp only; omega) (Or.inl rfl)
    have hrun2 := hrun.trans (hq4c.trans (hq5c.trans (hemb.trans (v6Run_nil _))))
    rw [TryParseIPv6_dc (f := 0) hrun2
      (by rw [addEmbeddedIPv4_parsed, addQuibble_parsed, addQuibble_parsed]
          dsimp only; omega)
      (by rw [addEmbeddedIPv4_fq, addQuibble_fq, addQuibble_fq])]
    rw [addEmbeddedIPv4_first_of_some rfl, addEmbeddedIPv4_second_of_some rfl,
      addEmbeddedIPv4_mask, addQuibble_first_of_some rfl,
      addQuibble_second_of_some rfl, addQuibble_mask,
      addQuibble_first_of_some rfl, addQuibble_second_of_some rfl, addQuibble_mask,
      parseQuibble_natToHex (quibbleAt_lt a 5),
      parseQuibble_natToHex (quibbleAt_lt a 4), h4, h5]
    dsimp only
    rw [show (((0 : Nat) * 2 ^ 16 + 0xFFFF) % 2 ^ 128 * 2 ^ 16 + 0) % 2 ^ 128
        = 0xFFFF0000 from by norm_num,
      show 2 * IPV6_QUIBBLE_BITS = 32 from rfl, hsecond]
    subst hm8
    simp [IPV6_DEFAULT_MASK]
  · rw [if_pos hm8]
    rw [List.cons_append, List.cons_append, List.append_assoc, List.cons_append,
      List.append_assoc, List.cons_append]
    rw [TryParse_colon_lead]
    have hrun := @v6Run_dc_start
      (natToHex (quibbleAt a 4) ++ ':' :: (natToHex (quibbleAt a 5)
        ++ ':' :: (ToStringIPv4 (a % 2 ^ 32) 32 ++ '/' :: natToDec m)))
      ⟨0, 0, 0, none, IPV6_DEFAULT_MASK⟩ (by norm_num) rfl
      (head_ne_colon_of_natToHex _ _)
    have hq4c := @v6Run_quibble_colon (quibbleAt a 4)
      (natToHex (quibbleAt a 5) ++ ':' :: (ToStringIPv4 (a % 2 ^ 32) 32
        ++ '/' :: natToDec m))
      ({ (⟨0, 0, 0, none, IPV6_DEFAULT_MASK⟩ : V6State) with
        first_quibble_count := some
          ((⟨0, 0, 0, none, IPV6_DEFAULT_MASK⟩ : V6State).parsed_quibble_count) })
      (quibbleAt_lt a 4) (by dsimp only; omega)
      (head_ne_colon_of_natToHex _ _)
    have hq5c := @v6Run_quibble_colon (quibbleAt a 5)
      (ToStringIPv4 (a % 2 ^ 32) 32 ++ '/' :: natToDec m)
      (({ (⟨0, 0, 0, none, IPV6_DEFAULT_MASK⟩ : V6State) with
        first_quibble_count := some
          ((⟨0, 0, 0, none, IPV6_DEFAULT_MASK⟩ : V6State).parsed_quibble_count) }
          : V6State).addQuibble (natToHex (quibbleAt a 4)))
      (quibbleAt_lt a 5) (by rw [addQuibble_parsed]; dsimp only; omega)
      (head_ne_colon_of_ToStringIPv4 _ _)
    have hemb := @v6Run_embedded (a % 2 ^ 32) ('/' :: natToDec m)
      ((({ (⟨0, 0, 0, none, IPV6_DEFAULT_MASK⟩ : V6State) with
        first_quibble_count := some
          ((⟨0, 0, 0, none, IPV6_DEFAULT_MASK⟩ : V6State).parsed_quibble_count) }
          : V6State).addQuibble (natToHex (quibbleAt a 4))).addQuibble
            (natToHex (quibbleAt a 5)))
      (Nat.mod_lt _ (by norm_num))
      (by rw [addQuibble_parsed, addQuibble_parsed]; dsimp only; omega) (Or.inr rfl)
    have hrun2 := hrun.trans (hq4c.trans (hq5c.trans (hemb.trans (v6Run_mask_start
      (by rw [addEmbeddedIPv4_parsed, addQuibble_parsed, addQuibble_parsed]
          dsimp only; omega) hm))))
    rw [TryParseIPv6_dc_mask (f := 0) hrun2
      (by rw [addEmbeddedIPv4_parsed, addQuibble_parsed, addQuibble_parsed]
          dsimp only; omega)
      (by rw [addEmbeddedIPv4_fq, addQuibble_fq, addQuibble_fq])]
    rw [addEmbeddedIPv4_first_of_some rfl, addEmbeddedIPv4_second_of_some rfl,
      addQuibble_first_of_some rfl, addQuibble_second_of_some rfl,
      addQuibble_first_of_some rfl, addQuibble_second_of_some rfl,
      parseQuibble_natToHex (quibbleAt_lt a 5),
      parseQuibble_natToHex (quibbleAt_lt a 4), h4, h5]
    dsimp only
    rw [show (((0 : Nat) * 2 ^ 16 + 0xFFFF) % 2 ^ 128 * 2 ^ 16 + 0) % 2 ^ 128
        = 0xFFFF0000 from by norm_num,
      show 2 * IPV6_QUIBBLE_BITS = 32 from rfl, hsecond]
    simp

theorem TryParse_ToStringIPv6 {a m : Nat} (ha : a < 2 ^ 128) (hm : m ≤ 128) :
    TryParse (ToStringIPv6 ⟨IPAddressType.IP_ADDRESS_V6, a, m⟩)
      = some ⟨IPAddressType.IP_ADDRESS_V6, a, m⟩ := by
  rw [ToStringIPv6_def]
  dsimp only
  rcases zeroRunOf_props ((List.range 8).map (quibbleAt a)) (by simp) with hZ |
    ⟨h2, h8, hw⟩
  · rw [hZ]
    exact roundtrip_noRun ha hm
  · have hzero : ∀ j, j < ((zeroRunOf ((List.range 8).map (quibbleAt a))).2) →
        quibbleAt a ((zeroRunOf ((List.range 8).map (quibbleAt a))).1 + j) = 0 := by
      intro j hj
      have h := hw j hj
      rwa [getD_quibbles a (by omega)] at h
    by_cases hzs : (zeroRunOf ((List.range 8).map (quibbleAt a))).1 = 0
    · rw [hzs, show (0 : Nat) + (zeroRunOf ((List.range 8).map (quibbleAt a))).2
          = (zeroRunOf ((List.range 8).map (quibbleAt a))).2 from by omega]
      have hzero0 : ∀ j, j < ((zeroRunOf ((List.range 8).map (quibbleAt a))).2) →
          quibbleAt a j = 0 := by
        intro j hj
        have h := hzero j hj
        rwa [hzs, Nat.zero_add] at h
      by_cases hC : (((zeroRunOf ((List.range 8).map (quibbleAt a))).2 = 6 ∧
            quibbleAt a 7 ≠ 1) ∨
          ((zeroRunOf ((List.range 8).map (quibbleAt a))).2 = 5 ∧
            quibbleAt a 5 = 0xFFFF) ∨
          ((zeroRunOf ((List.range 8).map (quibbleAt a))).2 = 4 ∧
            quibbleAt a 4 = 0xFFFF ∧ quibbleAt a 5 = 0))
      · rcases hC with ⟨h6, h7⟩ | ⟨h5e, h5⟩ | ⟨h4e, h4, h5⟩
        · rw [h6]
          exact roundtrip_emb6 ha hm (fun j hj => hzero0 j (by omega)) h7
        · rw [h5e]
          exact roundtrip_emb5 ha hm (fun j hj => hzero0 j (by omega)) h5
        · rw [h4e]
          exact roundtrip_emb4 ha hm (fun j hj => hzero0 j (by omega)) h4 h5
      · exact roundtrip_zs0 ha hm h2 (by omega) hzero0 hC
    · exact roundtrip_zsPos ha hm (by omega) (by omega) h8
        (fun j hj => hzero j (by omega))

/-- C1: for every constructible `AddressValue` (family IPv4 or IPv6,
magnitude within the family's domain, prefix length within the family's
width), parsing the formatted text yields the value back:
`TryParse (ToString v) = v`. -/
theorem parse_format_roundtrip (v : IPAddress) (hv : ValidAddress v) :
    (ToString v).bind TryParse = some v := by
  rcases v with ⟨t, addr, mask⟩
  rcases hv with ⟨ht, ha, hm⟩ | ⟨ht, ha, hm⟩
  · obtain rfl : t = IPAddressType.IP_ADDRESS_V4 := ht
    rw [show ToString ⟨IPAddressType.IP_ADDRESS_V4, addr, mask⟩
        = some (ToStringIPv4 addr mask) from rfl]
    rw [Option.some_bind]
    exact TryParse_ToStringIPv4 ha hm
  · obtain rfl : t = IPAddressType.IP_ADDRESS_V6 := ht
    rw [show ToString ⟨IPAddressType.IP_ADDRESS_V6, addr, mask⟩
        = some (ToStringIPv6 ⟨IPAddressType.IP_ADDRESS_V6, addr, mask⟩) from rfl]
    rw [Option.some_bind]
    exact TryParse_ToStringIPv6 ha hm

/-- Witness for C1: the loopback `::1/128` and a dotted IPv4 with mask
round-trip through the formatter and parser. -/
theorem parse_format_roundtrip_witness :
    ValidAddress ⟨IPAddressType.IP_ADDRESS_V6, 1, 128⟩ ∧
    (ToString ⟨IPAddressType.IP_ADDRESS_V6, 1, 128⟩).bind TryParse
      = some ⟨IPAddressType.IP_ADDRESS_V6, 1, 128⟩ ∧
    (ToString ⟨IPAddressType.IP_ADDRESS_V4, 0x0A000001, 24⟩).bind TryParse
      = some ⟨IPAddressType.IP_ADDRESS_V4, 0x0A000001, 24⟩ :=
  ⟨Or.inr ⟨rfl, by norm_num, by norm_num⟩,
    parse_format_roundtrip _ (Or.inr ⟨rfl, by norm_num, by norm_num⟩),
    parse_format_roundtrip _ (Or.inl ⟨rfl, by norm_num, by norm_num⟩)⟩

/-! ## C7: the scan loop never passes a second double colon -/

theorem dropWhile_append_seg {f : Char → Bool} {X : List Char}
    (hX : ∀ y, X.head? = some y → f y = false) :
    ∀ p : List Char, (p ++ X).dropWhile f = p.dropWhile f ++ X := by
  intro p
  induction p with
  | nil => simpa using (span_nil_of_head hX).2
  | cons c p ih =>
    by_cases hc : f c = true
    · rw [List.cons_append, List.dropWhile_cons_of_pos hc,
        List.dropWhile_cons_of_pos hc, ih]
    · rw [List.cons_append, List.dropWhile_cons_of_neg (by simpa using hc),
        List.dropWhile_cons_of_neg (by simpa using hc), List.cons_append]

theorem v6Loop_step (fuel : Nat) (s : List Char) (st : V6State) :
    v6Loop (fuel + 1) s st = none ∨
    v6Loop (fuel + 1) s st = some (st, s) ∨
    ((s.dropWhile characterIsHex).head? = some '/' ∧
      ∃ st', v6Loop (fuel + 1) s st
        = some (st', (s.dropWhile characterIsHex).tail.dropWhile characterIsDigit)) ∨
    (∃ st', st'.first_quibble_count = st.first_quibble_count ∧
      v6Loop (fuel + 1) s st
        = v6Loop fuel (s.dropWhile fun ch => characterIsDigit ch || ch = '.') st') ∨
    (¬((s.dropWhile characterIsHex).head? = some ':' ∧
        (s.dropWhile characterIsHex).tail.head? = some ':') ∧
      ∃ st', st'.first_quibble_count = st.first_quibble_count ∧
      v6Loop (fuel + 1) s st = v6Loop fuel (s.dropWhile characterIsHex).tail st') ∨
    ((s.dropWhile characterIsHex).head? = some ':' ∧
      (s.dropWhile characterIsHex).tail.head? = some ':' ∧
      (s.dropWhile characterIsHex).tail.tail.head? ≠ some ':' ∧
      st.first_quibble_count = none ∧
      ∃ st', st'.first_quibble_count ≠ none ∧
      v6Loop (fuel + 1) s st
        = v6Loop fuel (s.dropWhile characterIsHex).tail.tail st') := by
  rw [v6Loop]
  by_cases h0 : s = [] ∨ IPV6_NUM_QUIBBLE ≤ st.parsed_quibble_count
  · rw [if_pos h0]
    exact Or.inr (Or.inl rfl)
  · rw [if_neg h0]
    dsimp only
    by_cases h1 : 4 < (s.takeWhile characterIsHex).length
    · rw [if_pos h1]
      exact Or.inl rfl
    · rw [if_neg h1]
      by_cases h2 : (s.dropWhile characterIsHex).head? = some '.'
      · rw [if_pos h2]
        by_cases h3 : s.dropWhile (fun ch => characterIsDigit ch || ch = '.') ≠ [] ∧
            (s.dropWhile (fun ch => characterIsDigit ch || ch = '.')).head? ≠ some '/'
        · rw [if_pos h3]
          exact Or.inl rfl
        · rw [if_neg h3]
          rcases h4 : TryParseIPv4 (s.takeWhile fun ch => characterIsDigit ch || ch = '.')
            with _ | ipv4
          · exact Or.inl rfl
          · exact Or.inr (Or.inr (Or.inr (Or.inl
              ⟨st.addEmbeddedIPv4 ipv4.address, addEmbeddedIPv4_fq st _, rfl⟩)))
      · rw [if_neg h2]
        by_cases h5 : s.dropWhile characterIsHex ≠ [] ∧
            (s.dropWhile characterIsHex).head? ≠ some ':' ∧
            (s.dropWhile characterIsHex).head? ≠ some '/'
        · rw [if_pos h5]
          exact Or.inl rfl
        · rw [if_neg h5]
          have hfqp : (if (s.takeWhile characterIsHex) ≠ [] then
              st.addQuibble (s.takeWhile characterIsHex) else st).first_quibble_count
              = st.first_quibble_count := by
            by_cases hq : (s.takeWhile characterIsHex) ≠ []
            · rw [if_pos hq, addQuibble_fq]
            · rw [if_neg hq]
          by_cases h6 : (s.dropWhile characterIsHex).head? = some ':' ∧
              (s.dropWhile characterIsHex).tail.head? = some ':'
          · rw [if_pos h6]
            by_cases h7 : (if (s.takeWhile characterIsHex) ≠ [] then
                st.addQuibble (s.takeWhile characterIsHex) else st).first_quibble_count
                ≠ none
            · rw [if_pos h7]
              exact Or.inl rfl
            · rw [if_neg h7]
              by_cases h8 : (s.dropWhile characterIsHex).tail.tail.head? = some ':'
              · rw [if_pos h8]
                exact Or.inl rfl
              · rw [if_neg h8]
                refine Or.inr (Or.inr (Or.inr (Or.inr (Or.inr
                  ⟨h6.1, h6.2, h8, ?_, _, by simp, rfl⟩))))
                rw [← hfqp]
                simpa using h7
          · rw [if_neg h6]
            by_cases h9 : (s.dropWhile characterIsHex).head? = some '/'
            · rw [if_pos h9]
              rcases h10 : tryCastUInt8
                  ((s.dropWhile characterIsHex).tail.takeWhile characterIsDigit)
                with _ | mask
              · exact Or.inl rfl
              · dsimp only
                by_cases h11 : IPV6_DEFAULT_MASK < mask
                · rw [if_pos h11]
                  exact Or.inl rfl
                · rw [if_neg h11]
                  exact Or.inr (Or.inr (Or.inl ⟨h9, _, rfl⟩))
            · rw [if_neg h9]
              exact Or.inr (Or.inr (Or.inr (Or.inr (Or.inl ⟨h6, _, hfqp, rfl⟩))))

theorem v6Loop_dc_blocked : ∀ fuel (s : List Char) (st : V6State),
    st.first_quibble_count ≠ none →
    (∃ p q : List Char, s = p ++ ':' :: ':' :: q) →
    v6Loop fuel s st = none ∨
      ∃ st' left, v6Loop fuel s st = some (st', left) ∧ left ≠ [] := by
  intro fuel
  induction fuel with
  | zero => intro s st _ _; exact Or.inl rfl
  | succ fuel ih =>
    intro s st hfq hseg
    obtain ⟨p, q, rfl⟩ := hseg
    have hdH : (p ++ ':' :: ':' :: q).dropWhile characterIsHex
        = p.dropWhile characterIsHex ++ ':' :: ':' :: q :=
      dropWhile_append_seg (fun y hy => by cases hy; decide) p
    rcases v6Loop_step fuel (p ++ ':' :: ':' :: q) st with hnone | hexit |
      ⟨hmk, st', hmask⟩ | ⟨st', hfq', hdot⟩ | ⟨hnc, st', hfq', hadv⟩ |
      ⟨hh1, hh2, hh3, hfq0, hrest⟩
    · exact Or.inl hnone
    · exact Or.inr ⟨st, _, hexit, by simp⟩
    · refine Or.inr ⟨st', _, hmask, ?_⟩
      rw [hdH]
      rcases hpd : p.dropWhile characterIsHex with _ | ⟨c, pp⟩
      · rw [hdH, hpd] at hmk
        simp at hmk
      · rw [List.cons_append, List.tail_cons,
          dropWhile_append_seg (fun y hy => by cases hy; decide) pp]
        simp
    · rw [hdot]
      refine ih _ st' (by rw [hfq']; exact hfq) ?_
      exact ⟨p.dropWhile (fun ch => characterIsDigit ch || ch = '.'), q,
        dropWhile_append_seg (fun y hy => by cases hy; decide) p⟩
    · rw [hadv, hdH]
      rcases hpd : p.dropWhile characterIsHex with _ | ⟨c, pp⟩
      · exfalso
        rw [hdH, hpd] at hnc
        exact hnc ⟨rfl, rfl⟩
      · rw [List.cons_append, List.tail_cons]
        exact ih _ st' (by rw [hfq']; exact hfq) ⟨pp, q, rfl⟩
    · exact absurd hfq0 hfq

theorem v6Loop_seg3 : ∀ fuel (s : List Char) (st : V6State),
    (∃ p q : List Char, s = p ++ ':' :: ':' :: ':' :: q) →
    v6Loop fuel s st = none ∨
      ∃ st' left, v6Loop fuel s st = some (st', left) ∧ left ≠ [] := by
  intro fuel
  induction fuel with
  | zero => intro s st _; exact Or.inl rfl
  | succ fuel ih =>
    intro s st hseg
    obtain ⟨p, q, rfl⟩ := hseg
    have hdH : (p ++ ':' :: ':' :: ':' :: q).dropWhile characterIsHex
        = p.dropWhile characterIsHex ++ ':' :: ':' :: ':' :: q :=
      dropWhile_append_seg (fun y hy => by cases hy; decide) p
    rcases v6Loop_step fuel (p ++ ':' :: ':' :: ':' :: q) st with hnone | hexit |
      ⟨hmk, st', hmask⟩ | ⟨st', hfq', hdot⟩ | ⟨hnc, st', hfq', hadv⟩ |
      ⟨hh1, hh2, hh3, hfq0, st', hfqn, heq⟩
    · exact Or.inl hnone
    · exact Or.inr ⟨st, _, hexit, by simp⟩
    · refine Or.inr ⟨st', _, hmask, ?_⟩
      rw [hdH]
      rcases hpd : p.dropWhile characterIsHex with _ | ⟨c, pp⟩
      · rw [hdH, hpd] at hmk
        simp at hmk
      · rw [List.cons_append, List.tail_cons,
          dropWhile_append_seg (fun y hy => by cases hy; decide) pp]
        simp
    · rw [hdot]
      exact ih _ st' ⟨p.dropWhile (fun ch => characterIsDigit ch || ch = '.'), q,
        dropWhile_append_seg (fun y hy => by cases hy; decide) p⟩
    · rw [hadv, hdH]
      rcases hpd : p.dropWhile characterIsHex with _ | ⟨c, pp⟩
      · exfalso
        rw [hdH, hpd] at hnc
        exact hnc ⟨rfl, rfl⟩
      · rw [List.cons_append, List.tail_cons]
        exact ih _ st' ⟨pp, q, rfl⟩
    · rw [heq, hdH]
      rcases hpd : p.dropWhile characterIsHex with _ | ⟨c, _ | ⟨c', pp⟩⟩
      · exfalso
        rw [hdH, hpd] at hh3
        exact hh3 rfl
      · exfalso
        rw [hdH, hpd] at hh3
        exact hh3 rfl
      · rw [List.cons_append, List.cons_append, List.tail_cons, List.tail_cons]
        exact ih _ st' ⟨pp, q, rfl⟩

theorem v6Loop_two_dc : ∀ fuel (s : List Char) (st : V6State),
    (∃ p t, s = p ++ ':' :: ':' :: t ∧
      ∃ p2 q2 : List Char, t = p2 ++ ':' :: ':' :: q2) →
    v6Loop fuel s st = none ∨
      ∃ st' left, v6Loop fuel s st = some (st', left) ∧ left ≠ [] := by
  intro fuel
  induction fuel with
  | zero => intro s st _; exact Or.inl rfl
  | succ fuel ih =>
    intro s st hseg
    obtain ⟨p, t, rfl, p2, q2, ht⟩ := hseg
    have hdH : (p ++ ':' :: ':' :: t).dropWhile characterIsHex
        = p.dropWhile characterIsHex ++ ':' :: ':' :: t :=
      dropWhile_append_seg (fun y hy => by cases hy; decide) p
    rcases v6Loop_step fuel (p ++ ':' :: ':' :: t) st with hnone | hexit |
      ⟨hmk, st', hmask⟩ | ⟨st', hfq', hdot⟩ | ⟨hnc, st', hfq', hadv⟩ |
      ⟨hh1, hh2, hh3, hfq0, st', hfqn, heq⟩
    · exact Or.inl hnone
    · exact Or.inr ⟨st, _, hexit, by simp⟩
    · refine Or.inr ⟨st', _, hmask, ?_⟩
      rw [hdH]
      rcases hpd : p.dropWhile characterIsHex with _ | ⟨c, pp⟩
      · rw [hdH, hpd] at hmk
        simp at hmk
      · rw [List.cons_append, List.tail_cons,
          dropWhile_append_seg (fun y hy => by cases hy; decide) pp]
        simp
    · rw [hdot]
      exact ih _ st' ⟨p.dropWhile (fun ch => characterIsDigit ch || ch = '.'), t,
        dropWhile_append_seg (fun y hy => by cases hy; decide) p, p2, q2, ht⟩
    · rw [hadv, hdH]
      rcases hpd : p.dropWhile characterIsHex with _ | ⟨c, pp⟩
      · exfalso
        rw [hdH, hpd] at hnc
        exact hnc ⟨rfl, rfl⟩
      · rw [List.cons_append, List.tail_cons]
        exact ih _ st' ⟨pp, t, rfl, p2, q2, ht⟩
    · rw [heq, hdH]
      rcases hpd : p.dropWhile characterIsHex with _ | ⟨c, _ | ⟨c', pp⟩⟩
      · rw [List.nil_append, List.tail_cons, List.tail_cons]
        exact v6Loop_dc_blocked fuel t st' hfqn ⟨p2, q2, ht⟩
      · exfalso
        rw [hdH, hpd] at hh3
        rw [ht] at hh3
        exact hh3 rfl
      · rw [List.cons_append, List.cons_append, List.tail_cons, List.tail_cons]
        exact v6Loop_dc_blocked fuel _ st' hfqn ⟨pp, t, rfl⟩

theorem TryParseIPv6_none_of_run {s : List Char}
    (h : v6Loop (s.length + 1) s ⟨0, 0, 0, none, IPV6_DEFAULT_MASK⟩ = none ∨
      ∃ st' left, v6Loop (s.length + 1) s ⟨0, 0, 0, none, IPV6_DEFAULT_MASK⟩
        = some (st', left) ∧ left ≠ []) :
    TryParseIPv6 s = none := by
  unfold TryParseIPv6
  rcases h with h | ⟨st', left, h, hne⟩
  · rw [v6Run, h]
  · rw [v6Run, h]
    dsimp only
    by_cases h1 : st'.parsed_quibble_count < IPV6_NUM_QUIBBLE ∧
        st'.first_quibble_count = none
    · rw [if_pos h1]
    · rw [if_neg h1, if_pos hne]

/-- C7: the IPv6 parser accepts at most one double colon.  Any input
containing three consecutive colons is rejected, and any input containing
two double-colon occurrences starting at least two positions apart is
rejected; in particular `":::1"` and `"1::2::3"` fail to parse. -/
theorem ipv6_double_colon_rejected :
    (∀ p q : List Char, TryParseIPv6 (p ++ ':' :: ':' :: ':' :: q) = none) ∧
    (∀ p q r : List Char,
      TryParseIPv6 (p ++ ':' :: ':' :: (q ++ ':' :: ':' :: r)) = none) ∧
    TryParse ":::1".toList = none ∧ TryParse "1::2::3".toList = none := by
  refine ⟨fun p q => ?_, fun p q r => ?_, ?_, ?_⟩
  · exact TryParseIPv6_none_of_run (v6Loop_seg3 _ _ _ ⟨p, q, rfl⟩)
  · exact TryParseIPv6_none_of_run
      (v6Loop_two_dc _ _ _ ⟨p, q ++ ':' :: ':' :: r, rfl, q, r, rfl⟩)
  · rfl
  · rfl

end Inet
